import Mathlib

/-!
# MyShell: a shallow embedding of `my_shell.c`

The parser of `my_shell.c` is a recursive-descent parser over a NULL-terminated
token array with one symbol of lookahead; it fills global, fixed-size tables
which `execute_pipelines` then runs.  The embedding keeps the globals of the C
file as the fields of `State` and threads that state explicitly.

Conventions of the embedding:

* a `char *` is an `Option String` (`none` is `NULL`), a `char **` argument
  vector is an `Option (List (Option String))` whose terminating `NULL` is
  implicit;
* a fixed-size C array is a total function from indices, and every write is
  guarded by the capacity of the C array: a write past the end is the outcome
  `Res.undefined`;
* `debug_level` is 1 and never changed, so the loop of `simple_cmd` that prints
  `arg_list[c]` for every `c` below `next_token` always runs: it reads slots of the
  block that were never written, whose contents the oracle `Env` holds, and a read
  behind the 64 slots, or the print of a slot that holds neither `NULL` nor a
  string, is `Res.undefined`; printing `NULL` with `%s` is taken as harmless;
* `exit(-1)` is an outcome of its own (`Res.synerr` from `expect`,
  `Res.forkerr` from a failed `fork`);
* recursion and loops are structural on a fuel argument; the entry points pass
  `tokens.length + 1`, which is never exhausted;
* `tokenize` is embedded with `sizeof(char *)` as a parameter, which decides how many
  pointers its buffer of 64 bytes holds, and with `strtok` as the C library defines it;
* the operating system is an oracle `Env` (does the n-th `fork` succeed, what
  status does a blocking `waitpid` store) and a trace of the calls made;
  descriptor wiring (`open`, `pipe`, `dup2`, `close`) never influences the
  control flow of the parent and is not traced; what the program prints is not
  traced either.
-/

namespace MyShell

/-- Lexical category of a token (`Symbol` of the C file). -/
inductive Symbol
  | PIPE | SEMICOLON | AMP | DOUBLE_AMP | DOUBLE_PIPE | SMALLER | GRATER | DOUBLE_GRATER
  | LT_BRACE | RT_BRACE | LITERAL | EPSILON
  deriving DecidableEq, Repr

/-- The table `symbol_str`. -/
def symbol_str : Symbol → String
  | .PIPE => "|"
  | .SEMICOLON => ";"
  | .AMP => "&"
  | .DOUBLE_AMP => "&&"
  | .DOUBLE_PIPE => "||"
  | .SMALLER => "<"
  | .GRATER => ">"
  | .DOUBLE_GRATER => ">>"
  | .LT_BRACE => "("
  | .RT_BRACE => ")"
  | .LITERAL => "LITERAL"
  | .EPSILON => "EPSILON"

/-- Classification of a token by its exact text (`str_to_symbol`). -/
def str_to_symbol (str : String) : Symbol :=
  if str = "|" then .PIPE
  else if str = ";" then .SEMICOLON
  else if str = "&" then .AMP
  else if str = "&&" then .DOUBLE_AMP
  else if str = "||" then .DOUBLE_PIPE
  else if str = "<" then .SMALLER
  else if str = ">" then .GRATER
  else if str = ">>" then .DOUBLE_GRATER
  else if str = "(" then .LT_BRACE
  else if str = ")" then .RT_BRACE
  else .LITERAL

/-- A C string pointer: `none` is `NULL`. -/
abbrev CString := Option String

/-- A `char **` argument vector: `none` is `NULL`, the terminating `NULL` element is implicit. -/
abbrev Argv := Option (List CString)

/-- The enum `RunCondition`. -/
inductive RunCondition
  | DONT_SKIP_NEXT | SKIP_NEXST_ON_FAILURE | SKIP_NEXST_ON_SUCCSESS
  deriving DecidableEq, Repr

/-- The struct `PipelineData`; `cmd_list` has 64 slots in C, `io_redirect0` and
`io_redirect1` are `io_redirect[0]` and `io_redirect[1]`. -/
structure PipelineData where
  cmd_list : Nat → Argv
  cmd_list_size : Nat
  io_redirect0 : CString
  io_redirect1 : CString
  append : Nat
  run_condition : RunCondition
  run_in_background : Nat

/-- Calls made to the operating system by the parent process, in order.
`pipeline i result` is not a system call: it records that iteration `i` of the loop of
`execute_pipelines` called `execute_pipeline`, which returned `result`. -/
inductive Event
  | write (str : String)
  | fork (pid : Nat) (cmd : Argv) (background : Nat)
  | waitpid (pid : Nat) (blocking : Bool)
  | pipeline (i : Nat) (result : Nat)
  deriving DecidableEq, Repr

/-- What the program cannot decide itself: its own name `argv[0]`, the bytes found in the
buffer that `malloc(LINE_BUFSIZE)` returns in `cmd` (read as a C string), whether the fork
creating child number `pid` succeeds, the status a blocking `waitpid` on it stores, and what
`malloc` left in the block of `arg_list`: `arg_slot_printable k c` says that slot `c` of the
block which `simple_cmd` gets when it is entered at token position `k` holds, before anything
is written to it, `NULL` or a pointer to a string, so that `printf` can print it. -/
structure Env where
  prog_name : CString
  malloc_str : String
  fork_ok : Nat → Bool
  wait_status : Nat → Int
  arg_slot_printable : Nat → Nat → Bool

/-- The global variables of the C file, and the trace of the calls made so far.  Children are
numbered in the order of their creation; `next_pid` is the number of the next child. -/
structure State where
  symbol : Symbol
  tokens : List String
  matched_token : CString
  next_token : Nat
  arg_list : Argv
  pipeline_data : PipelineData
  pipeline_data_list : Nat → PipelineData
  pipeline_data_list_size : Nat
  trace : List Event
  next_pid : Nat

/-- How a function of the C file ends: it returns a value, the process exits after the
message of `expect` (expected symbol, found symbol), it exits after a failed `fork`, it writes
past the end of an array or reads what is no element of it or no string, or the fuel of the
embedding ran out. -/
inductive Res (α : Type)
  | ret (a : α) (s : State)
  | synerr (expected found : Symbol) (s : State)
  | forkerr (s : State)
  | undefined
  | out_of_fuel

/-- Sequencing: continue with the returned value and state, pass every other outcome on. -/
def Res.bind {α β : Type} (r : Res α) (f : α → State → Res β) : Res β :=
  match r with
  | .ret a s => f a s
  | .synerr e g s => .synerr e g s
  | .forkerr s => .forkerr s
  | .undefined => .undefined
  | .out_of_fuel => .out_of_fuel

/-- The value returned, if the function returned. -/
def Res.value {α : Type} : Res α → Option α
  | .ret a _ => some a
  | _ => none

/-- The state in which the function returned or the process exited. -/
def Res.state {α : Type} : Res α → Option State
  | .ret _ s => some s
  | .synerr _ _ s => some s
  | .forkerr s => some s
  | _ => none

/-- The trace in which the function returned or the process exited. -/
def Res.trace {α : Type} : Res α → List Event
  | .ret _ s => s.trace
  | .synerr _ _ s => s.trace
  | .forkerr s => s.trace
  | _ => []

/-- The outcome is an access outside an array or the print of a pointer that is no string. -/
def Res.is_undefined {α : Type} : Res α → Bool
  | .undefined => true
  | _ => false

/-- The outcome is the exit of `expect`. -/
def Res.is_synerr {α : Type} : Res α → Bool
  | .synerr _ _ _ => true
  | _ => false

/-- Assignment `a[i] = v` to an array. -/
def arr_set {α : Type} (a : Nat → α) (i : Nat) (v : α) : Nat → α :=
  fun j => if j = i then v else a j

/-- The first `n` entries of an array, in order. -/
def arr_take {α : Type} (a : Nat → α) (n : Nat) : List α :=
  (List.range n).map a

/-- The read `tokens[i]`: the token, or `NULL` at the terminator.  The index -1, which `match`
uses when it succeeds at token position 0, lies before the array: the C program reads there
what is no element of `tokens`.  `match` returns a pair of a value and a state and has no
undefined outcome, so `token_at` yields `NULL` for such an index; no statement below speaks of
the matched token in that case, and the parser started by `main` never gets there:
`match` never lowers the token position (`match_position_mono`), which is 1 after priming on
a line with a token (`primed_position`), and on a line without tokens no `match` succeeds
(`empty_line_parse`). -/
def token_at (tokens : List String) (i : Int) : CString :=
  if i < 0 then none else tokens[i.toNat]?

/-- The function `next_symbol`. -/
def next_symbol (s : State) : State :=
  match token_at s.tokens s.next_token with
  | some t => { s with symbol := str_to_symbol t, next_token := s.next_token + 1 }
  | none => { s with symbol := .EPSILON }

/-- The function `init_pipeline`; the slots of `cmd_list` are left as they are. -/
def init_pipeline (p : PipelineData) : PipelineData :=
  { p with
    cmd_list_size := 0
    io_redirect0 := none
    io_redirect1 := none
    append := 0
    run_condition := .DONT_SKIP_NEXT
    run_in_background := 0 }

/-- The function `match`. -/
def match_ (sym : Symbol) (s : State) : Nat × State :=
  if sym = s.symbol then
    (1, next_symbol { s with matched_token := token_at s.tokens ((s.next_token : Int) - 1) })
  else
    (0, { s with matched_token := none })

/-- The function `expect`: `exit(-1)` after the message when `match` fails. -/
def expect (sym : Symbol) (s : State) : Res Nat :=
  let r := match_ sym s
  if r.1 ≠ 0 then .ret 1 r.2 else .synerr sym r.2.symbol r.2

/-- The loop `while (match(LITERAL))` of `simple_cmd`; `args` holds `arg_list[0..c-1]`, so
`c = args.length`, and the array has 64 slots. -/
def simple_cmd_loop : Nat → List CString → State → Res (List CString)
  | 0, _, _ => .out_of_fuel
  | fuel + 1, args, s =>
    let r := match_ .LITERAL s
    if r.1 ≠ 0 then
      if args.length < 64 then simple_cmd_loop fuel (args ++ [r.2.matched_token]) r.2
      else .undefined
    else
      if args.length < 64 then .ret args r.2 else .undefined

/-- The read of `arg_list[c]` and its print with `%s` in the debug loop of `simple_cmd`, when
`args` holds what the function has stored: the block has 64 slots, the slots below
`args.length` hold tokens, the next one the terminating `NULL`, and the slots behind it are
as `malloc` left them. -/
def print_arg (env : Env) (k : Nat) (args : List CString) (c : Nat) : Bool :=
  if 64 ≤ c then false
  else if c ≤ args.length then true
  else env.arg_slot_printable k c

/-- The loop `for (int c = 0; c < next_token; c++) printf("%s ", arg_list[c])` of `simple_cmd`
from index `c` on, with `n` iterations to go: whether every print is one of `NULL` or of a
string in the block. -/
def debug_loop (env : Env) (k : Nat) (args : List CString) : Nat → Nat → Bool
  | 0, _ => true
  | n + 1, c => print_arg env k args c && debug_loop env k args n (c + 1)

/-- The function `simple_cmd`; `debug_level` is 1, so the debug loop runs, with `next_token`
as its bound. -/
def simple_cmd (env : Env) (s : State) : Res Nat :=
  let r := match_ .LITERAL s
  if r.1 ≠ 0 then
    (simple_cmd_loop (s.tokens.length + 1) [r.2.matched_token] r.2).bind fun args s1 =>
      if debug_loop env s.next_token args s1.next_token 0 = true then
        .ret 1 { s1 with arg_list := some args }
      else .undefined
  else .ret 0 r.2

/-- The statement `pipeline_data.cmd_list[pipeline_data.cmd_list_size++] = arg_list; arg_list = NULL`. -/
def push_cmd (s : State) : State :=
  { s with
    pipeline_data :=
      { s.pipeline_data with
        cmd_list := arr_set s.pipeline_data.cmd_list s.pipeline_data.cmd_list_size s.arg_list
        cmd_list_size := s.pipeline_data.cmd_list_size + 1 }
    arg_list := none }

/-- The function `pipeline`, by recursion on the fuel; the result of the recursive call is
ignored, as in the C file. -/
def pipeline_fuel (env : Env) : Nat → State → Res Nat
  | 0, _ => .out_of_fuel
  | fuel + 1, s =>
    (simple_cmd env s).bind fun r s1 =>
      if r ≠ 0 then
        if s1.pipeline_data.cmd_list_size < 64 then
          let m := match_ .PIPE (push_cmd s1)
          if m.1 ≠ 0 then
            (pipeline_fuel env fuel m.2).bind fun _ s2 => .ret 1 s2
          else .ret 1 m.2
        else .undefined
      else .ret 0 s1

/-- The function `pipeline`. -/
def pipeline (env : Env) (s : State) : Res Nat :=
  pipeline_fuel env (s.tokens.length + 1) s

/-- The function `o_redirect`. -/
def o_redirect (s : State) : Res Nat :=
  let m := match_ .GRATER s
  if m.1 ≠ 0 then
    (expect .LITERAL m.2).bind fun r s1 =>
      if r ≠ 0 then
        .ret 1 { s1 with pipeline_data := { s1.pipeline_data with io_redirect1 := s1.matched_token } }
      else .ret 0 s1
  else
    let m2 := match_ .DOUBLE_GRATER m.2
    if m2.1 ≠ 0 then
      (expect .LITERAL m2.2).bind fun r s1 =>
        if r ≠ 0 then
          .ret 1 { s1 with
            pipeline_data :=
              { s1.pipeline_data with append := 1, io_redirect1 := s1.matched_token } }
        else .ret 0 s1
    else .ret 0 m2.2

/-- The function `i_redirect`. -/
def i_redirect (s : State) : Res Nat :=
  let m := match_ .SMALLER s
  if m.1 ≠ 0 then
    (expect .LITERAL m.2).bind fun r s1 =>
      if r ≠ 0 then
        .ret 1 { s1 with pipeline_data := { s1.pipeline_data with io_redirect0 := s1.matched_token } }
      else .ret 0 s1
  else .ret 0 m.2

/-- The function `io_redirect`. -/
def io_redirect (s : State) : Res Nat :=
  (i_redirect s).bind fun i s1 =>
    if i ≠ 0 then
      (o_redirect s1).bind fun _ s2 => .ret 1 s2
    else
      (o_redirect s1).bind fun o s2 =>
        if o ≠ 0 then
          (i_redirect s2).bind fun _ s3 => .ret 1 s3
        else .ret 0 s2

/-- The loop of `execute_pipeline` from stage `i` on, seen from the parent.  A failed `fork`
is `exit(-1)`; the last stage of a pipeline that is not in the background is waited for, and
its status decides the value returned; every other child gets a `waitpid` with `WNOHANG`. -/
def execute_pipeline_loop (env : Env) (p : PipelineData) : Nat → Nat → State → Res Nat
  | 0, _, _ => .out_of_fuel
  | fuel + 1, i, s =>
    if i < p.cmd_list_size then
      let is_last : Bool := decide (i = p.cmd_list_size - 1)
      let cmd := p.cmd_list i
      let pid := s.next_pid
      if env.fork_ok pid then
        let s1 : State :=
          { s with
            next_pid := pid + 1
            trace := s.trace ++ [Event.fork pid cmd p.run_in_background] }
        if is_last = true ∧ p.run_in_background = 0 then
          let status := env.wait_status pid
          .ret (if status = 0 then 1 else 0)
            { s1 with trace := s1.trace ++ [Event.waitpid pid true] }
        else
          execute_pipeline_loop env p fuel (i + 1)
            { s1 with trace := s1.trace ++ [Event.waitpid pid false] }
      else .forkerr s
    else .ret 0 s

/-- The function `execute_pipeline`; the descriptor `fd` only decides what the first child
reads. -/
def execute_pipeline (env : Env) (p : PipelineData) (_fd : Int) (s : State) : Res Nat :=
  execute_pipeline_loop env p (p.cmd_list_size + 1) 0 s

/-- The local `PipelineData` of `run_exernal_shell`: one command, the shell itself. -/
def external_pipeline (env : Env) : PipelineData :=
  { cmd_list := arr_set (fun _ => none) 0 (some [env.prog_name])
    cmd_list_size := 1
    io_redirect0 := none
    io_redirect1 := none
    append := 0
    run_condition := .DONT_SKIP_NEXT
    run_in_background := 0 }

/-- The function `run_exernal_shell`: the text is written into a fresh pipe, whose read end
(here descriptor 3; its number plays no role) is the input of a child running the shell
itself. -/
def run_exernal_shell (env : Env) (str : String) (s : State) : Res Nat :=
  execute_pipeline env (external_pipeline env) 3
    { s with trace := s.trace ++ [Event.write str] }

/-- The loop `while (!match(EPSILON))` of `cmd`, which collects the text of the tokens up to
the first `)` or the end of the line in a buffer of `LINE_BUFSIZE = 1024` bytes. -/
def cmd_loop : Nat → String → State → Res String
  | 0, _, _ => .out_of_fuel
  | fuel + 1, str, s =>
    let m := match_ .EPSILON s
    if m.1 ≠ 0 then .ret str m.2
    else
      let m2 := match_ .RT_BRACE m.2
      if m2.1 ≠ 0 then .ret str m2.2
      else
        let str1 := if str.utf8ByteSize ≠ 0 then str ++ " " else str
        match token_at m2.2.tokens ((m2.2.next_token : Int) - 1) with
        | some t =>
          if (str1 ++ t).utf8ByteSize < 1024 then cmd_loop fuel (str1 ++ t) (next_symbol m2.2)
          else .undefined
        | none => .undefined

/-- The function `cmd`. -/
def cmd (env : Env) (s : State) : Res Nat :=
  let m := match_ .LT_BRACE s
  if m.1 ≠ 0 then
    (cmd_loop (s.tokens.length + 1) env.malloc_str m.2).bind fun str s1 =>
      run_exernal_shell env str s1
  else
    (io_redirect m.2).bind fun io s1 =>
      if io ≠ 0 then
        (pipeline env s1).bind fun p s2 => if p ≠ 0 then .ret 1 s2 else .ret 0 s2
      else
        (pipeline env s1).bind fun p s2 =>
          if p ≠ 0 then
            (io_redirect s2).bind fun _ s3 => .ret 1 s3
          else .ret 0 s2

/-- The function `clear_all`. -/
def clear_all (s : State) : State :=
  { s with pipeline_data_list_size := 0 }

/-- The statement `pipeline_data_list[pipeline_data_list_size++] = pipeline_data`. -/
def push_pipeline (s : State) : State :=
  { s with
    pipeline_data_list := arr_set s.pipeline_data_list s.pipeline_data_list_size s.pipeline_data
    pipeline_data_list_size := s.pipeline_data_list_size + 1 }

/-- The statement `pipeline_data_list[pipeline_data_list_size - 1].run_condition = c`. -/
def set_run_condition (c : RunCondition) (s : State) : State :=
  { s with
    pipeline_data_list :=
      arr_set s.pipeline_data_list (s.pipeline_data_list_size - 1)
        { s.pipeline_data_list (s.pipeline_data_list_size - 1) with run_condition := c } }

/-- The statement `pipeline_data_list[pipeline_data_list_size - 1].run_in_background = 1`. -/
def set_run_in_background (s : State) : State :=
  { s with
    pipeline_data_list :=
      arr_set s.pipeline_data_list (s.pipeline_data_list_size - 1)
        { s.pipeline_data_list (s.pipeline_data_list_size - 1) with run_in_background := 1 } }

/-- The function `conditional_cmd`, by recursion on the fuel; `pipeline_data_list` has 64
slots. -/
def conditional_cmd_fuel (env : Env) : Nat → State → Res Nat
  | 0, _ => .out_of_fuel
  | fuel + 1, s =>
    (cmd env { s with pipeline_data := init_pipeline s.pipeline_data }).bind fun c s1 =>
      if c ≠ 0 then
        if s1.pipeline_data_list_size < 64 then
          let m := match_ .DOUBLE_AMP (push_pipeline s1)
          if m.1 ≠ 0 then
            conditional_cmd_fuel env fuel (set_run_condition .SKIP_NEXST_ON_FAILURE m.2)
          else
            let m2 := match_ .DOUBLE_PIPE m.2
            if m2.1 ≠ 0 then
              conditional_cmd_fuel env fuel (set_run_condition .SKIP_NEXST_ON_SUCCSESS m2.2)
            else .ret 1 m2.2
        else .undefined
      else .ret 0 s1

/-- The function `conditional_cmd`. -/
def conditional_cmd (env : Env) (s : State) : Res Nat :=
  conditional_cmd_fuel env (s.tokens.length + 1) s

/-- The loop of `execute_pipelines` from index `i` on; the index is advanced once more when
the run condition of the pipeline just executed says so. -/
def execute_pipelines_loop (env : Env) : Nat → Nat → State → Res Nat
  | 0, _, _ => .out_of_fuel
  | fuel + 1, i, s =>
    if i < s.pipeline_data_list_size then
      let p := s.pipeline_data_list i
      (execute_pipeline env p (-1) s).bind fun result s1 =>
        let s2 : State := { s1 with trace := s1.trace ++ [Event.pipeline i result] }
        let i1 := if p.run_condition = .SKIP_NEXST_ON_FAILURE ∧ result = 0 then i + 1 else i
        let i2 := if p.run_condition = .SKIP_NEXST_ON_SUCCSESS ∧ result ≠ 0 then i1 + 1 else i1
        execute_pipelines_loop env fuel (i2 + 1) s2
    else .ret 0 s

/-- The function `execute_pipelines`. -/
def execute_pipelines (env : Env) (s : State) : Res Nat :=
  execute_pipelines_loop env (s.pipeline_data_list_size + 1) 0 s

/-- The function `shell_cmd`, by recursion on the fuel. -/
def shell_cmd_fuel (env : Env) : Nat → State → Res Nat
  | 0, _ => .out_of_fuel
  | fuel + 1, s =>
    (conditional_cmd env s).bind fun c s1 =>
      if c ≠ 0 then
        let m := match_ .SEMICOLON s1
        let nested : Res Nat :=
          if m.1 ≠ 0 then shell_cmd_fuel env fuel m.2
          else
            let m2 := match_ .AMP m.2
            if m2.1 ≠ 0 then
              if m2.2.pipeline_data_list_size = 0 then .undefined
              else shell_cmd_fuel env fuel (set_run_in_background m2.2)
            else .ret 1 m2.2
        nested.bind fun result s2 =>
          if result ≠ 0 then
            let m3 := match_ .AMP s2
            if m3.1 ≠ 0 then
              if m3.2.pipeline_data_list_size = 0 then .undefined
              else .ret 1 (set_run_in_background m3.2)
            else expect .EPSILON m3.2
          else .ret 1 s2
      else .ret 0 s1

/-- The function `shell_cmd`. -/
def shell_cmd (env : Env) (s : State) : Res Nat :=
  shell_cmd_fuel env (s.tokens.length + 1) s

/-- The state in which `main` calls `shell_cmd` for the tokens `toks`, the globals being `s`:
`tokens = tokenize(str); next_token = 0; next_symbol();`. -/
def primed (s : State) (toks : List String) : State :=
  next_symbol { s with tokens := toks, next_token := 0 }

/-- One round of the loop of `main` for a line already split into `toks`: the parser is
primed, `shell_cmd` runs, `execute_pipelines` runs when it returned non-zero, and `clear_all`
resets the list.  The value is the one `shell_cmd` returned. -/
def main_line (env : Env) (s : State) (toks : List String) : Res Nat :=
  (shell_cmd env (primed s toks)).bind fun result s1 =>
    (if result ≠ 0 then execute_pipelines env s1 else .ret 0 s1).bind fun _ s2 =>
      .ret result (clear_all s2)

/-- The globals when the program starts: all zero. -/
def initial_state : State :=
  { symbol := .PIPE
    tokens := []
    matched_token := none
    next_token := 0
    arg_list := none
    pipeline_data :=
      { cmd_list := fun _ => none
        cmd_list_size := 0
        io_redirect0 := none
        io_redirect1 := none
        append := 0
        run_condition := .DONT_SKIP_NEXT
        run_in_background := 0 }
    pipeline_data_list := fun _ =>
      { cmd_list := fun _ => none
        cmd_list_size := 0
        io_redirect0 := none
        io_redirect1 := none
        append := 0
        run_condition := .DONT_SKIP_NEXT
        run_in_background := 0 }
    pipeline_data_list_size := 0
    trace := []
    next_pid := 0 }

/-- The read-out of one `PipelineData`: the commands in use and the flags. -/
structure PipelineSpec where
  commands : List Argv
  input_path : CString
  output_path : CString
  append : Nat
  chain_condition : RunCondition
  background : Nat
  deriving DecidableEq, Repr

/-- The part of a `PipelineData` that is in use. -/
def PipelineData.spec (p : PipelineData) : PipelineSpec :=
  { commands := arr_take p.cmd_list p.cmd_list_size
    input_path := p.io_redirect0
    output_path := p.io_redirect1
    append := p.append
    chain_condition := p.run_condition
    background := p.run_in_background }

/-- The CommandModel held by the globals: the first `pipeline_data_list_size` entries. -/
def command_model (s : State) : List PipelineSpec :=
  (arr_take s.pipeline_data_list s.pipeline_data_list_size).map PipelineData.spec

/-- The symbol of the first token of `suf`, `EPSILON` when there is none. -/
def look : List String → Symbol
  | [] => .EPSILON
  | t :: _ => str_to_symbol t

/-- The lookahead token counts as read: 1 when there is one. -/
def look_len : List String → Nat
  | [] => 0
  | _ :: _ => 1

/-- The state of a parser that has consumed `pre` and whose lookahead is the head of `suf`. -/
def state_at (pre suf : List String) (mt : CString) (al : Argv) (pd : PipelineData)
    (pdl : Nat → PipelineData) (n : Nat) (tr : List Event) (pid : Nat) : State :=
  { symbol := look suf
    tokens := pre ++ suf
    matched_token := mt
    next_token := pre.length + look_len suf
    arg_list := al
    pipeline_data := pd
    pipeline_data_list := pdl
    pipeline_data_list_size := n
    trace := tr
    next_pid := pid }

/-- The tokens after the first stage of a pipeline: each further stage behind a `|`. -/
def rest_tokens : List (List String) → List String
  | [] => []
  | d :: ds => "|" :: d ++ rest_tokens ds

/-- The tokens of the pipeline with the stages `stages`. -/
def pipeline_tokens : List (List String) → List String
  | [] => []
  | c :: cs => c ++ rest_tokens cs

/-- The argument vector built from the literal tokens `c`. -/
def argv_of (c : List String) : Argv := some (c.map some)

/-- The record after `pipeline` has stored the command `c`. -/
def pd_push (pd : PipelineData) (c : List String) : PipelineData :=
  { pd with
    cmd_list := arr_set pd.cmd_list pd.cmd_list_size (argv_of c)
    cmd_list_size := pd.cmd_list_size + 1 }

/-- A simple command: a non-empty run of tokens classified `LITERAL`. -/
def literal_stage (c : List String) : Prop :=
  c ≠ [] ∧ ∀ t ∈ c, str_to_symbol t = .LITERAL

instance (c : List String) : Decidable (literal_stage c) := by
  unfold literal_stage; infer_instance

/-- A pipeline of literals and `|`: at least one stage, every stage a simple command. -/
def literal_pipeline (p : List (List String)) : Prop :=
  p ≠ [] ∧ ∀ c ∈ p, literal_stage c

instance (p : List (List String)) : Decidable (literal_pipeline p) := by
  unfold literal_pipeline; infer_instance

/-- The capacities of the C arrays: at most 64 stages, at most 63 arguments per stage. -/
def within_capacity (p : List (List String)) : Prop :=
  p.length ≤ 64 ∧ ∀ c ∈ p, c.length ≤ 63

instance (p : List (List String)) : Decidable (within_capacity p) := by
  unfold within_capacity; infer_instance

/-- The redirect groups `< i`, `> o`, `>> o`, `< i > o`, `< i >> o`, `> o < i`, `>> o < i`. -/
inductive Redirect
  | inp (i : String)
  | out (o : String)
  | app (o : String)
  | inp_out (i o : String)
  | inp_app (i o : String)
  | out_inp (o i : String)
  | app_inp (o i : String)
  deriving DecidableEq, Repr

/-- The tokens of a redirect group. -/
def Redirect.tokens : Redirect → List String
  | .inp i => ["<", i]
  | .out o => [">", o]
  | .app o => [">>", o]
  | .inp_out i o => ["<", i, ">", o]
  | .inp_app i o => ["<", i, ">>", o]
  | .out_inp o i => [">", o, "<", i]
  | .app_inp o i => [">>", o, "<", i]

/-- The file named behind `<`, if the group has one. -/
def Redirect.input : Redirect → CString
  | .inp i => some i
  | .out _ => none
  | .app _ => none
  | .inp_out i _ => some i
  | .inp_app i _ => some i
  | .out_inp _ i => some i
  | .app_inp _ i => some i

/-- The file named behind `>` or `>>`, if the group has one. -/
def Redirect.output : Redirect → CString
  | .inp _ => none
  | .out o => some o
  | .app o => some o
  | .inp_out _ o => some o
  | .inp_app _ o => some o
  | .out_inp o _ => some o
  | .app_inp o _ => some o

/-- Whether the output operator of the group is `>>`. -/
def Redirect.is_append : Redirect → Bool
  | .app _ => true
  | .inp_app _ _ => true
  | .app_inp _ _ => true
  | _ => false

/-- A file name, when there is one, is a token classified `LITERAL`. -/
def literal_name : CString → Prop
  | some t => str_to_symbol t = .LITERAL
  | none => True

instance (t : CString) : Decidable (literal_name t) := by
  cases t <;> simp only [literal_name] <;> infer_instance

/-- The file names of the group are literal tokens. -/
def Redirect.literal (r : Redirect) : Prop :=
  literal_name r.input ∧ literal_name r.output

instance (r : Redirect) : Decidable r.literal := by
  unfold Redirect.literal; infer_instance

/-- The record after `io_redirect` has parsed the group `r`. -/
def pd_redirect (pd : PipelineData) (r : Redirect) : PipelineData :=
  { pd with
    io_redirect0 := match r.input with
      | some i => some i
      | none => pd.io_redirect0
    io_redirect1 := match r.output with
      | some o => some o
      | none => pd.io_redirect1
    append := if r.is_append = true then 1 else pd.append }

/-- The shapes of `cmd` without parentheses that the claims speak of: a pipeline alone, a
redirect group before it, a redirect group behind it. -/
inductive CmdForm
  | plain (p : List (List String))
  | redirect_first (r : Redirect) (p : List (List String))
  | redirect_last (p : List (List String)) (r : Redirect)
  deriving DecidableEq, Repr

/-- The stages of the pipeline of a `cmd`. -/
def CmdForm.stages : CmdForm → List (List String)
  | .plain p => p
  | .redirect_first _ p => p
  | .redirect_last p _ => p

/-- The tokens of a `cmd`. -/
def CmdForm.tokens : CmdForm → List String
  | .plain p => pipeline_tokens p
  | .redirect_first r p => r.tokens ++ pipeline_tokens p
  | .redirect_last p r => pipeline_tokens p ++ r.tokens

/-- The input file of a `cmd`, if it names one. -/
def CmdForm.input : CmdForm → CString
  | .plain _ => none
  | .redirect_first r _ => r.input
  | .redirect_last _ r => r.input

/-- The output file of a `cmd`, if it names one. -/
def CmdForm.output : CmdForm → CString
  | .plain _ => none
  | .redirect_first r _ => r.output
  | .redirect_last _ r => r.output

/-- Whether the `cmd` appends to its output file. -/
def CmdForm.is_append : CmdForm → Bool
  | .plain _ => false
  | .redirect_first r _ => r.is_append
  | .redirect_last _ r => r.is_append

/-- The `cmd` is a pipeline of literals with literal file names. -/
def CmdForm.literal : CmdForm → Prop
  | .plain p => literal_pipeline p
  | .redirect_first r p => r.literal ∧ literal_pipeline p
  | .redirect_last p r => literal_pipeline p ∧ r.literal

instance (f : CmdForm) : Decidable f.literal := by
  cases f <;> simp only [CmdForm.literal] <;> infer_instance

/-- The entry of the CommandModel expected for a `cmd` with the given flags. -/
def CmdForm.expected (f : CmdForm) (cond : RunCondition) (bg : Nat) : PipelineSpec :=
  { commands := f.stages.map argv_of
    input_path := f.input
    output_path := f.output
    append := if f.is_append = true then 1 else 0
    chain_condition := cond
    background := bg }

/-- The operators between the `cmd`s of a line. -/
inductive Sep
  | and_then | or_else | semicolon | ampersand
  deriving DecidableEq, Repr

/-- The token of an operator. -/
def Sep.token : Sep → String
  | .and_then => "&&"
  | .or_else => "||"
  | .semicolon => ";"
  | .ampersand => "&"

/-- The run condition an operator gives to the `cmd` before it. -/
def Sep.cond : Sep → RunCondition
  | .and_then => .SKIP_NEXST_ON_FAILURE
  | .or_else => .SKIP_NEXST_ON_SUCCSESS
  | _ => .DONT_SKIP_NEXT

/-- The background flag an operator gives to the `cmd` before it: 1 behind which `&` stands. -/
def Sep.background : Sep → Nat
  | .ampersand => 1
  | _ => 0

/-- The tokens of the line `c1 o1 c2 o2 ... cn`, with a final `&` when `final_amp`. -/
def line_tokens (last : CmdForm) (final_amp : Bool) : List (CmdForm × Sep) → List String
  | [] => last.tokens ++ (if final_amp = true then ["&"] else [])
  | (f, o) :: rest => f.tokens ++ o.token :: line_tokens last final_amp rest

/-- The CommandModel expected for the line `c1 o1 c2 o2 ... cn`. -/
def line_model (last : CmdForm) (final_amp : Bool) : List (CmdForm × Sep) → List PipelineSpec
  | [] => [last.expected .DONT_SKIP_NEXT (if final_amp = true then 1 else 0)]
  | (f, o) :: rest => f.expected o.cond o.background :: line_model last final_amp rest

/-- What follows a `cmd` is neither a literal nor `|` nor a redirect operator. -/
def ends_cmd (suf : List String) : Prop :=
  look suf ≠ .LITERAL ∧ look suf ≠ .PIPE ∧ look suf ≠ .SMALLER ∧ look suf ≠ .GRATER ∧
    look suf ≠ .DOUBLE_GRATER

/-- The record after `cmd` has parsed the form `f`. -/
def pd_form (pd : PipelineData) : CmdForm → PipelineData
  | .plain p => p.foldl pd_push pd
  | .redirect_first r p => p.foldl pd_push (pd_redirect pd r)
  | .redirect_last p r => pd_redirect (p.foldl pd_push pd) r

/-- The end of the body of `shell_cmd`, behind the nested call that returned `result`. -/
def shell_cmd_tail (result : Nat) (s2 : State) : Res Nat :=
  if result ≠ 0 then
    let m3 := match_ .AMP s2
    if m3.1 ≠ 0 then
      if m3.2.pipeline_data_list_size = 0 then .undefined
      else .ret 1 (set_run_in_background m3.2)
    else expect .EPSILON m3.2
  else .ret 1 s2

/-- The body of `shell_cmd` behind the call of `conditional_cmd`, which returned `c`; the
nested calls of `shell_cmd` have the fuel `fuel`. -/
def shell_cmd_rest (env : Env) (fuel : Nat) (c : Nat) (s1 : State) : Res Nat :=
  if c ≠ 0 then
    let m := match_ .SEMICOLON s1
    let nested : Res Nat :=
      if m.1 ≠ 0 then shell_cmd_fuel env fuel m.2
      else
        let m2 := match_ .AMP m.2
        if m2.1 ≠ 0 then
          if m2.2.pipeline_data_list_size = 0 then .undefined
          else shell_cmd_fuel env fuel (set_run_in_background m2.2)
        else .ret 1 m2.2
    nested.bind shell_cmd_tail
  else .ret 0 s1

/-- The calls `execute_pipeline` makes for the stages `commands`, the first child being number
`pid`: one `fork` per stage, in order, each followed by the `waitpid` for that child, which
blocks only for the last stage of a pipeline that is not in the background. -/
def run_events : List Argv → Nat → Nat → List Event
  | [], _, _ => []
  | c :: cs, bg, pid =>
    Event.fork pid c bg :: Event.waitpid pid (cs.isEmpty && decide (bg = 0)) ::
      run_events cs bg (pid + 1)

/-- The value `execute_pipeline` returns for `n` stages, the first child being number `pid`:
1 exactly when there is a last stage, the pipeline is not in the background and the status of
the last child is 0. -/
def run_result (env : Env) (n bg pid : Nat) : Nat :=
  if n ≠ 0 ∧ bg = 0 then (if env.wait_status (pid + n - 1) = 0 then 1 else 0) else 0

/-- The state after `execute_pipeline` has run the record `p`. -/
def after_run (p : PipelineData) (s : State) : State :=
  { s with
    next_pid := s.next_pid + p.cmd_list_size
    trace := s.trace ++ run_events (arr_take p.cmd_list p.cmd_list_size) p.run_in_background
      s.next_pid }

/-- An environment for the examples: the shell is `my_shell`, fresh buffers are empty and
fresh blocks hold `NULL` pointers, every `fork` succeeds and every child ends with status 0. -/
def sample_env : Env :=
  { prog_name := some "my_shell"
    malloc_str := ""
    fork_ok := fun _ => true
    wait_status := fun _ => 0
    arg_slot_printable := fun _ _ => true }

/-- As `sample_env`, but every child ends with status 256 (exit code 1). -/
def failing_env : Env :=
  { prog_name := some "my_shell"
    malloc_str := ""
    fork_ok := fun _ => true
    wait_status := fun _ => 256
    arg_slot_printable := fun _ _ => true }

/-- The tokens of the line `c1 o1 c2 o2 ... cn`, each `ci` a pipeline, with a final `&` when
`final_amp`. -/
def chain_tokens (chain : List (List (List String) × Sep)) (last : List (List String))
    (final_amp : Bool) : List String :=
  (chain.map fun x => pipeline_tokens x.1 ++ [x.2.token]).flatten ++ pipeline_tokens last ++
    (if final_amp = true then ["&"] else [])

/-- The children created in a trace, in order: number and argument vector. -/
def forked : List Event → List (Nat × Argv)
  | [] => []
  | Event.fork pid c _ :: rest => (pid, c) :: forked rest
  | _ :: rest => forked rest

/-- The children for which a trace holds a blocking `waitpid`, in order. -/
def blocking_waits : List Event → List Nat
  | [] => []
  | Event.waitpid pid true :: rest => pid :: blocking_waits rest
  | _ :: rest => blocking_waits rest

/-- The calls of `execute_pipeline` made by `execute_pipelines` in a trace, in order: index of
the pipeline and value returned. -/
def dispatches : List Event → List (Nat × Nat)
  | [] => []
  | Event.pipeline i r :: rest => (i, r) :: dispatches rest
  | _ :: rest => dispatches rest

/-- The two tests behind the call of `execute_pipeline` in `execute_pipelines`: the run
condition is `SKIP_NEXST_ON_FAILURE` and the result is 0, or it is `SKIP_NEXST_ON_SUCCSESS`
and the result is not 0. -/
def skip_trigger (c : RunCondition) (result : Nat) : Prop :=
  (c = .SKIP_NEXST_ON_FAILURE ∧ result = 0) ∨ (c = .SKIP_NEXST_ON_SUCCSESS ∧ result ≠ 0)

instance (c : RunCondition) (result : Nat) : Decidable (skip_trigger c result) := by
  unfold skip_trigger; infer_instance

/-- The invariant of the loop of `execute_pipelines` for the calls `l` made from index `i` on,
over `n` pipelines with the run conditions `cond`. -/
def dispatch_ok (n : Nat) (cond : Nat → RunCondition) (i : Nat) (l : List (Nat × Nat)) : Prop :=
  (l.map Prod.fst).Pairwise (fun a b => a < b) ∧
  (∀ x ∈ l, i ≤ x.1 ∧ x.1 < n) ∧
  (i < n → i ∈ l.map Prod.fst) ∧
  (∀ j, i ≤ j → j + 1 < n →
    (j + 1 ∉ l.map Prod.fst ↔ ∃ r, (j, r) ∈ l ∧ skip_trigger (cond j) r))

/-- The index of the next iteration of the loop of `execute_pipelines` behind pipeline `i`,
whose run condition is `c` and whose call returned `result`. -/
def next_index (c : RunCondition) (result : Nat) (i : Nat) : Nat :=
  (if c = .SKIP_NEXST_ON_SUCCSESS ∧ result ≠ 0 then
    (if c = .SKIP_NEXST_ON_FAILURE ∧ result = 0 then i + 1 else i) + 1
  else (if c = .SKIP_NEXST_ON_FAILURE ∧ result = 0 then i + 1 else i)) + 1

/-- The state after iteration `i` of the loop of `execute_pipelines`, every `fork`
succeeding. -/
def after_dispatch (env : Env) (i : Nat) (s : State) : State :=
  { after_run (s.pipeline_data_list i) s with
    trace := (after_run (s.pipeline_data_list i) s).trace ++
      [Event.pipeline i (run_result env (s.pipeline_data_list i).cmd_list_size
        (s.pipeline_data_list i).run_in_background s.next_pid)] }

/-- The state in which `shell_cmd` leaves the globals for the tokens `toks`, started as `main`
starts it from the initial globals (the initial globals themselves if it does not return). -/
def parsed (env : Env) (toks : List String) : State :=
  match shell_cmd env (primed initial_state toks) with
  | .ret _ s => s
  | _ => initial_state

/-- The property `P` holds of the state in which the function returned or the process
exited. -/
def Res.all {α : Type} (P : State → Prop) : Res α → Prop
  | .ret _ s => P s
  | .synerr _ _ s => P s
  | .forkerr s => P s
  | .undefined => True
  | .out_of_fuel => True

/-- The lookahead is in step with the token position: the position is inside the array, the
symbol `EPSILON` stands only at the terminating `NULL`, and any other symbol is the class of a
token of the line. -/
def lookahead_ok (s : State) : Prop :=
  s.next_token ≤ s.tokens.length ∧
  (s.symbol = .EPSILON → s.next_token = s.tokens.length) ∧
  (s.symbol ≠ .EPSILON → ∃ t ∈ s.tokens, s.symbol = str_to_symbol t)

/-- The calls `run_exernal_shell` makes: the `write` into the pipe, the `fork` of a child that
runs the shell itself, not in the background, and the blocking `waitpid`. -/
def subshell_event (env : Env) : Event → Prop
  | .write _ => True
  | .fork _ c bg => c = some [env.prog_name] ∧ bg = 0
  | .waitpid _ b => b = true
  | .pipeline _ _ => False

/-- The invariant of the parser on the tokens `toks`, started with the trace `tr0`: the tokens
are still `toks`, the lookahead is in step, and the trace has grown by calls of
`run_exernal_shell` only, by none at all when the line has no `(` token. -/
def parse_inv (env : Env) (toks : List String) (tr0 : List Event) (s : State) : Prop :=
  s.tokens = toks ∧ lookahead_ok s ∧
  ∃ evs, s.trace = tr0 ++ evs ∧ (∀ e ∈ evs, subshell_event env e) ∧ ("(" ∉ toks → evs = [])

/-- The record of the pipeline `ls | wc`, as `pipeline` builds it from the initial globals. -/
def sample_pipeline : PipelineData :=
  pd_push (pd_push initial_state.pipeline_data ["ls"]) ["wc"]

/-- A token of 600 bytes. -/
def long_token : String := String.mk (List.replicate 600 'a')

/-- As `sample_env`, but the buffer `malloc` returns in `cmd` holds the C string `x`. -/
def dirty_env : Env := { sample_env with malloc_str := "x" }

/-- The macro `TOKENS_BUFSIZE`. -/
def TOKENS_BUFSIZE : Nat := 64

/-- The macro `TOKENS_DELIMETERS`. -/
def TOKENS_DELIMETERS : String := " \t\r\n"

/-- The character is one of the delimiters. -/
def is_delimiter (c : Char) : Bool := decide (c ∈ TOKENS_DELIMETERS.data)

/-- The library function `strtok` with the delimiters of `tokenize`, on the part of the line
that is left to scan: the delimiters in front are skipped; if the string ends there, no token
is found (`NULL`); otherwise the token is the longest run of characters that are not
delimiters, and the scan resumes behind the delimiter that ends the token. -/
def strtok (rest : List Char) : Option (String × List Char) :=
  match rest.dropWhile is_delimiter with
  | [] => none
  | c :: cs =>
    some (String.mk ((c :: cs).takeWhile fun x => !is_delimiter x),
      ((c :: cs).dropWhile fun x => !is_delimiter x).drop 1)

/-- How `tokenize` ends: it returns the array of the tokens, it writes past the end of the
array, or the fuel of the embedding ran out. -/
inductive Tokenized
  | tokens (l : List String)
  | overrun
  | out_of_fuel
  deriving DecidableEq, Repr

/-- The loop of `tokenize`, followed by the write of the terminating `NULL`: `found` is what
the last call of `strtok` returned, `toks` holds `tokens[0..position-1]`, and the array has
`slots` elements. -/
def tokenize_loop (slots : Nat) : Nat → Option (String × List Char) → List String → Tokenized
  | 0, _, _ => .out_of_fuel
  | fuel + 1, some (token, rest), toks =>
    if toks.length < slots then tokenize_loop slots fuel (strtok rest) (toks ++ [token])
    else .overrun
  | _ + 1, none, toks => if toks.length < slots then .tokens toks else .overrun

/-- The function `tokenize`.  The array is `malloc(TOKENS_BUFSIZE)`: 64 bytes, that is
`64 / sizeof(char *)` elements; `ptr_size` is `sizeof(char *)`. -/
def tokenize (ptr_size : Nat) (line : String) : Tokenized :=
  tokenize_loop (TOKENS_BUFSIZE / ptr_size) (line.length + 1) (strtok line.data) []

/-- A token as `strtok` yields it: not empty, and without a delimiter. -/
def plain_token (t : String) : Prop := t ≠ "" ∧ ∀ c ∈ t.data, is_delimiter c = false

instance (t : String) : Decidable (plain_token t) := by
  unfold plain_token; infer_instance

/-- The characters left to scan when the tokens `ts` are still to come: the tokens, a space
between each two. -/
def rest_chars : List String → List Char
  | [] => []
  | t :: ts => t.data ++ ts.flatMap fun u => ' ' :: u.data

/-- The number of tokens not yet consumed: the tokens behind the token position, and the
lookahead token when the lookahead is not `EPSILON`. -/
def unconsumed (s : State) : Nat :=
  (s.tokens.length - s.next_token) + (if s.symbol = .EPSILON then 0 else 1)

/-- The state `s` is a later state of the parser than `s0` on the same tokens: no more tokens
are left to consume than in `s0`. -/
def progress (s0 s : State) : Prop :=
  s.tokens = s0.tokens ∧ unconsumed s ≤ unconsumed s0

/-- The function ended within its fuel, and `P` holds of the state in which it returned or the
process exited. -/
def Res.ends {α : Type} (P : State → Prop) : Res α → Prop
  | .ret _ s => P s
  | .synerr _ _ s => P s
  | .forkerr s => P s
  | .undefined => True
  | .out_of_fuel => False

/-- The outcome is the exit after a failed `fork`. -/
def Res.is_forkerr {α : Type} : Res α → Bool
  | .forkerr _ => true
  | _ => false

/-- As `sample_env`, but every `fork` fails. -/
def no_fork_env : Env := { sample_env with fork_ok := fun _ => false }

/-- The argument is a token of the line `toks` classified `LITERAL`. -/
def literal_arg (toks : List String) : CString → Prop
  | some t => t ∈ toks ∧ str_to_symbol t = .LITERAL
  | none => False

instance (toks : List String) (a : CString) : Decidable (literal_arg toks a) := by
  cases a <;> simp only [literal_arg] <;> infer_instance

/-- The argument vector is not `NULL`, has at least one element, and all its elements are
tokens of the line `toks` classified `LITERAL`. -/
def literal_command (toks : List String) : Argv → Prop
  | some args => args ≠ [] ∧ ∀ a ∈ args, literal_arg toks a
  | none => False

instance (toks : List String) (c : Argv) : Decidable (literal_command toks c) := by
  cases c <;> simp only [literal_command] <;> infer_instance

/-- The lookahead symbol, when it is not `EPSILON`, is the class of the token before the token
position, on the tokens `toks`. -/
def cursor_ok (toks : List String) (s : State) : Prop :=
  s.tokens = toks ∧
  (s.symbol ≠ .EPSILON →
    ∃ t, token_at s.tokens ((s.next_token : Int) - 1) = some t ∧ s.symbol = str_to_symbol t)

/-- Every command in use in the record is a `literal_command`. -/
def commands_ok (toks : List String) (p : PipelineData) : Prop :=
  ∀ c ∈ p.spec.commands, literal_command toks c

/-- Every command of the CommandModel is a `literal_command`. -/
def model_ok (toks : List String) (s : State) : Prop :=
  ∀ ps ∈ command_model s, ∀ c ∈ ps.commands, literal_command toks c

/-- The invariant of `shell_cmd` and `conditional_cmd` for the commands stored. -/
def stored_ok (toks : List String) (s : State) : Prop :=
  cursor_ok toks s ∧ model_ok toks s

/-- The invariant of `cmd` and the functions below it for the commands stored. -/
def building_ok (toks : List String) (s : State) : Prop :=
  cursor_ok toks s ∧ commands_ok toks s.pipeline_data ∧ model_ok toks s

/-- If the function returned, `P` holds of the value and the state. -/
def Res.returns {α : Type} (P : α → State → Prop) : Res α → Prop
  | .ret a s => P a s
  | _ => True

/-- Two states agree on the lookahead symbol, the tokens and the token position. -/
def same_cursor (s t : State) : Prop :=
  s.symbol = t.symbol ∧ s.tokens = t.tokens ∧ s.next_token = t.next_token

/-- Two states agree on what the parser has read and built: the cursor, the size of the list
and the part in use of each of its records. -/
def same_model (s t : State) : Prop :=
  same_cursor s t ∧ s.pipeline_data_list_size = t.pipeline_data_list_size ∧
  ∀ j, j < s.pipeline_data_list_size →
    (s.pipeline_data_list j).spec = (t.pipeline_data_list j).spec

/-- As `same_model`, and the two states agree on the part in use of the record being built. -/
def same_record (s t : State) : Prop :=
  same_model s t ∧ s.pipeline_data.spec = t.pipeline_data.spec

/-- Two outcomes are of the same kind; two returns have the same value and end in states
related by `Q`, two exits of `expect` name the same two symbols. -/
def Res.agree {α : Type} (Q : α → State → State → Prop) : Res α → Res α → Prop
  | .ret a s, .ret b t => a = b ∧ Q a s t
  | .synerr e g _, .synerr e2 g2 _ => e = e2 ∧ g = g2
  | .forkerr _, .forkerr _ => True
  | .undefined, .undefined => True
  | .out_of_fuel, .out_of_fuel => True
  | _, _ => False

/-- The calls `tokens = tokenize(str); next_token = 0; next_symbol(); shell_cmd()` of `main`
for a line `line` that is not empty (on the empty line `main` leaves its loop), the globals
being `s`; `ptr_size` is `sizeof(char *)`.  When `tokenize` writes past its array nothing is
known of what the parser reads. -/
def main_parse (env : Env) (ptr_size : Nat) (s : State) (line : String) : Res Nat :=
  match tokenize ptr_size line with
  | .tokens toks => shell_cmd env (primed s toks)
  | .overrun => .undefined
  | .out_of_fuel => .out_of_fuel

/-- One round of the loop of `main` for a line `line` that is not empty: `tokenize`, then
`main_line` on the tokens. -/
def main_round (env : Env) (ptr_size : Nat) (s : State) (line : String) : Res Nat :=
  match tokenize ptr_size line with
  | .tokens toks => main_line env s toks
  | .overrun => .undefined
  | .out_of_fuel => .out_of_fuel

/-- As `sample_env`, but no slot of a fresh block of `arg_list` holds `NULL` or a string. -/
def junk_env : Env := { sample_env with arg_slot_printable := fun _ _ => false }

/-- Every slot of a block of `arg_list` that was never written holds `NULL` or a pointer to a
string, as in a block of zero bytes. -/
def clean_args (env : Env) : Prop := ∀ k c, env.arg_slot_printable k c = true

/-- Globals left over from the line `x | y > f`, reset by `clear_all`. -/
def stale_state : State := clear_all (parsed sample_env ["x", "|", "y", ">", "f"])

/-- What the functions below `conditional_cmd` leave as it is: the list, its size, and the
run condition and background flag of the record being built. -/
def list_frame (s s1 : State) : Prop :=
  s1.pipeline_data_list = s.pipeline_data_list ∧
  s1.pipeline_data_list_size = s.pipeline_data_list_size ∧
  s1.pipeline_data.run_condition = s.pipeline_data.run_condition ∧
  s1.pipeline_data.run_in_background = s.pipeline_data.run_in_background

/-- Every record of the list that is in the background has the run condition
`DONT_SKIP_NEXT`. -/
def background_ok (s : State) : Prop :=
  ∀ i, i < s.pipeline_data_list_size → (s.pipeline_data_list i).run_in_background ≠ 0 →
    (s.pipeline_data_list i).run_condition = .DONT_SKIP_NEXT

/-- Every record of the list that is in the background and is followed by another record has
the run condition `DONT_SKIP_NEXT`. -/
def background_inner_ok (s : State) : Prop :=
  ∀ i, i + 1 < s.pipeline_data_list_size → (s.pipeline_data_list i).run_in_background ≠ 0 →
    (s.pipeline_data_list i).run_condition = .DONT_SKIP_NEXT

/-- The invariant of `conditional_cmd` for the flags: a record that is stored is not in the
background, and the one stored last before a successful return has no run condition. -/
def fresh_last (r : Nat) (s : State) : Prop :=
  background_ok s ∧
  (r ≠ 0 → 1 ≤ s.pipeline_data_list_size ∧
    (s.pipeline_data_list (s.pipeline_data_list_size - 1)).run_condition = .DONT_SKIP_NEXT)

/-- The function returned with `P`, or the process exited in `expect` (or the fuel of the
embedding ran out): no array was overrun, no slot outside a block or without a string was
printed, and no `fork` failed. -/
def Res.sound {α : Type} (P : α → State → Prop) : Res α → Prop
  | .ret a s => P a s
  | .synerr _ _ _ => True
  | .forkerr _ => False
  | .undefined => False
  | .out_of_fuel => True

/-- The state `s1` is a later state than `s` in which `cmd_list_size` and the size of the list
are as in `s`; when `r` is not 0 at least one token has been consumed. -/
def kept (s : State) (r : Nat) (s1 : State) : Prop :=
  unconsumed s1 ≤ unconsumed s ∧ (r ≠ 0 → unconsumed s1 < unconsumed s) ∧
  s1.pipeline_data.cmd_list_size = s.pipeline_data.cmd_list_size ∧
  s1.pipeline_data_list_size = s.pipeline_data_list_size

/-- As `kept`, without the clause on `cmd_list_size`. -/
def consumed (s : State) (r : Nat) (s1 : State) : Prop :=
  unconsumed s1 ≤ unconsumed s ∧ (r ≠ 0 → unconsumed s1 < unconsumed s) ∧
  s1.pipeline_data_list_size = s.pipeline_data_list_size

/-- The state `s1` is a later state than `s` in which the list has grown by at most as many
records as tokens have been consumed. -/
def grown (s s1 : State) : Prop :=
  s1.pipeline_data_list_size + unconsumed s1 ≤ s.pipeline_data_list_size + unconsumed s ∧
  s.pipeline_data_list_size ≤ s1.pipeline_data_list_size

/-! ## Arrays, tokens and `match` -/

theorem arr_take_succ {α : Type} (a : Nat → α) (n : Nat) :
    arr_take a (n + 1) = arr_take a n ++ [a n] := by
  simp [arr_take, List.range_succ]

theorem arr_take_set_ge {α : Type} (a : Nat → α) (n i : Nat) (v : α) (h : n ≤ i) :
    arr_take (arr_set a i v) n = arr_take a n := by
  simp only [arr_take]
  apply List.map_congr_left
  intro j hj
  have : j < n := List.mem_range.mp hj
  simp [arr_set]; omega

theorem arr_set_same {α : Type} (a : Nat → α) (i : Nat) (v : α) : arr_set a i v i = v := by
  simp [arr_set]

theorem token_at_nat (l : List String) (n : Nat) : token_at l (n : Int) = l[n]? := by
  have h : ¬ ((n : Int) < 0) := by omega
  simp [token_at, h]

theorem token_at_pred (l : List String) (n : Nat) :
    token_at l (((n + 1 : Nat) : Int) - 1) = l[n]? := by
  have h : (((n + 1 : Nat) : Int) - 1) = (n : Int) := by push_cast; omega
  rw [h, token_at_nat]

theorem token_at_cur (pre : List String) (t : String) (suf : List String) :
    token_at (pre ++ t :: suf) (((pre.length + 1 : Nat) : Int) - 1) = some t := by
  rw [token_at_pred, List.getElem?_append_right (Nat.le_refl _)]; simp

theorem token_at_next (pre : List String) (t : String) (suf : List String) :
    token_at (pre ++ t :: suf) ((pre.length + 1 : Nat) : Int) = suf.head? := by
  rw [token_at_nat, List.getElem?_append_right (by omega)]
  cases suf <;> simp

theorem match_hit (sym : Symbol) (pre : List String) (t : String) (suf : List String)
    (mt : CString) (al : Argv) (pd : PipelineData) (pdl : Nat → PipelineData) (n : Nat)
    (tr : List Event) (pid : Nat) (h : str_to_symbol t = sym) :
    match_ sym (state_at pre (t :: suf) mt al pd pdl n tr pid)
      = (1, state_at (pre ++ [t]) suf (some t) al pd pdl n tr pid) := by
  subst h
  simp only [match_, state_at, look, look_len, if_true, next_symbol, token_at_cur, token_at_next]
  cases suf with
  | nil => simp [look, look_len]
  | cons u rest => simp [look, look_len]

theorem match_miss (sym : Symbol) (pre suf : List String)
    (mt : CString) (al : Argv) (pd : PipelineData) (pdl : Nat → PipelineData) (n : Nat)
    (tr : List Event) (pid : Nat) (h : look suf ≠ sym) :
    match_ sym (state_at pre suf mt al pd pdl n tr pid)
      = (0, state_at pre suf none al pd pdl n tr pid) := by
  have h2 : ¬ sym = look suf := fun e => h e.symm
  simp [match_, state_at, h2]

theorem match_eps (pre : List String)
    (mt : CString) (al : Argv) (pd : PipelineData) (pdl : Nat → PipelineData) (n : Nat)
    (tr : List Event) (pid : Nat) :
    match_ .EPSILON (state_at pre [] mt al pd pdl n tr pid)
      = (1, state_at pre [] (token_at pre ((pre.length : Int) - 1)) al pd pdl n tr pid) := by
  simp [match_, state_at, look, look_len, next_symbol, token_at_nat]

/-! ## Parsing a pipeline of literals -/

theorem bind_ret {α β : Type} (a : α) (s : State) (f : α → State → Res β) :
    (Res.ret a s).bind f = f a s := rfl

theorem simple_cmd_loop_literals (c : List String) :
    ∀ (fuel : Nat) (args : List CString) (pre suf : List String) (mt : CString) (al : Argv)
      (pd : PipelineData) (pdl : Nat → PipelineData) (n : Nat) (tr : List Event) (pid : Nat),
      (∀ t ∈ c, str_to_symbol t = .LITERAL) → look suf ≠ .LITERAL →
      args.length + c.length < 64 → c.length < fuel →
      simple_cmd_loop fuel args (state_at pre (c ++ suf) mt al pd pdl n tr pid)
        = .ret (args ++ c.map some) (state_at (pre ++ c) suf none al pd pdl n tr pid) := by
  induction c with
  | nil =>
    intro fuel args pre suf mt al pd pdl n tr pid _ hsuf hlen hfuel
    obtain ⟨f, rfl⟩ : ∃ f, fuel = f + 1 := ⟨fuel - 1, by simp at hfuel; omega⟩
    have hlen2 : args.length < 64 := by simpa using hlen
    simp [simple_cmd_loop, match_miss _ _ _ _ _ _ _ _ _ _ hsuf, hlen2]
  | cons t c ih =>
    intro fuel args pre suf mt al pd pdl n tr pid hlit hsuf hlen hfuel
    obtain ⟨f, rfl⟩ : ∃ f, fuel = f + 1 := ⟨fuel - 1, by simp at hfuel; omega⟩
    have ht : str_to_symbol t = .LITERAL := hlit t (by simp)
    have hlen2 : args.length < 64 := by simp at hlen; omega
    have hstep := ih f (args ++ [some t]) (pre ++ [t]) suf (some t) al pd pdl n tr pid
      (fun u hu => hlit u (by simp [hu])) hsuf (by simp at hlen ⊢; omega)
      (by simp at hfuel; omega)
    simp only [List.cons_append, simple_cmd_loop,
      match_hit _ _ _ _ _ _ _ _ _ _ _ ht]
    simp only [ne_eq, one_ne_zero, not_false_eq_true, if_true, hlen2]
    have e : (state_at (pre ++ [t]) (c ++ suf) (some t) al pd pdl n tr pid).matched_token
        = some t := rfl
    rw [e, hstep]
    simp

theorem print_arg_clean (env : Env) (hclean : clean_args env) (k : Nat) (args : List CString)
    (c : Nat) (h : c < 64) : print_arg env k args c = true := by
  unfold print_arg
  rw [if_neg (by omega)]
  split
  · rfl
  · exact hclean k c

/-- With clean blocks the debug loop of `simple_cmd` is harmless as long as it stays inside
the 64 slots. -/
theorem debug_loop_clean (env : Env) (hclean : clean_args env) (k : Nat) (args : List CString) :
    ∀ (n c : Nat), c + n ≤ 64 → debug_loop env k args n c = true := by
  intro n
  induction n with
  | zero => intro c _; rfl
  | succ n ih =>
    intro c h
    simp only [debug_loop, Bool.and_eq_true]
    exact ⟨print_arg_clean env hclean k args c (by omega), ih (c + 1) (by omega)⟩

/-- The debug loop of `simple_cmd` reads behind the block when it runs past slot 63. -/
theorem debug_loop_overrun (env : Env) (k : Nat) (args : List CString) :
    ∀ (n c : Nat), c ≤ 64 → 64 < c + n → debug_loop env k args n c = false := by
  intro n
  induction n with
  | zero => intro c h1 h2; omega
  | succ n ih =>
    intro c h1 h2
    simp only [debug_loop, Bool.and_eq_false_iff]
    by_cases hc : 64 ≤ c
    · exact Or.inl (by simp [print_arg, hc])
    · exact Or.inr (ih (c + 1) (by omega) (by omega))

theorem look_len_le (suf : List String) : look_len suf ≤ suf.length := by
  cases suf <;> simp [look_len]

theorem simple_cmd_literals (env : Env) (c : List String) (pre suf : List String)
    (mt : CString) (al : Argv)
    (pd : PipelineData) (pdl : Nat → PipelineData) (n : Nat) (tr : List Event) (pid : Nat)
    (hc : literal_stage c) (hlen : c.length ≤ 63) (hsuf : look suf ≠ .LITERAL)
    (hclean : clean_args env) (hL : (pre ++ (c ++ suf)).length ≤ 64) :
    simple_cmd env (state_at pre (c ++ suf) mt al pd pdl n tr pid)
      = .ret 1 (state_at (pre ++ c) suf none (argv_of c) pd pdl n tr pid) := by
  obtain ⟨hne, hlit⟩ := hc
  cases c with
  | nil => exact absurd rfl hne
  | cons t c =>
    have ht : str_to_symbol t = .LITERAL := hlit t (by simp)
    have hloop := simple_cmd_loop_literals c
      ((state_at pre (t :: c ++ suf) mt al pd pdl n tr pid).tokens.length + 1)
      [some t] (pre ++ [t]) suf (some t) al pd pdl n tr pid
      (fun u hu => hlit u (by simp [hu])) hsuf (by simp at hlen ⊢; omega)
      (by simp [state_at]; omega)
    simp only [List.cons_append, simple_cmd, match_hit _ _ _ _ _ _ _ _ _ _ _ ht]
    simp only [ne_eq, one_ne_zero, not_false_eq_true, if_true]
    have e : (state_at (pre ++ [t]) (c ++ suf) (some t) al pd pdl n tr pid).matched_token
        = some t := rfl
    rw [e]
    simp only [List.cons_append] at hloop
    rw [hloop]
    have hll := look_len_le suf
    have hd := debug_loop_clean env hclean
      (state_at pre (t :: (c ++ suf)) mt al pd pdl n tr pid).next_token ([some t] ++ c.map some)
      (state_at (pre ++ [t] ++ c) suf none al pd pdl n tr pid).next_token 0
      (by simp [state_at] at hL ⊢; omega)
    rw [bind_ret]
    simp [state_at] at hd
    simp [state_at, argv_of, hd]

theorem simple_cmd_miss (env : Env) (pre suf : List String) (mt : CString) (al : Argv)
    (pd : PipelineData) (pdl : Nat → PipelineData) (n : Nat) (tr : List Event) (pid : Nat)
    (hsuf : look suf ≠ .LITERAL) :
    simple_cmd env (state_at pre suf mt al pd pdl n tr pid)
      = .ret 0 (state_at pre suf none al pd pdl n tr pid) := by
  simp [simple_cmd, match_miss _ _ _ _ _ _ _ _ _ _ hsuf]

theorem look_rest_tokens_ne_literal (cs : List (List String)) (suf : List String)
    (hsuf : look suf ≠ .LITERAL) : look (rest_tokens cs ++ suf) ≠ .LITERAL := by
  cases cs with
  | nil => simpa [rest_tokens] using hsuf
  | cons d ds => simp [rest_tokens, look, str_to_symbol]

theorem pipeline_fuel_literals (env : Env) (hclean : clean_args env) (cs : List (List String)) :
    ∀ (c : List String) (fuel : Nat) (pre suf : List String) (mt : CString) (al : Argv)
      (pd : PipelineData) (pdl : Nat → PipelineData) (n : Nat) (tr : List Event) (pid : Nat),
      literal_stage c → (∀ d ∈ cs, literal_stage d) →
      c.length ≤ 63 → (∀ d ∈ cs, d.length ≤ 63) →
      look suf ≠ .LITERAL → look suf ≠ .PIPE →
      pd.cmd_list_size + cs.length < 64 → cs.length < fuel →
      (pre ++ (c ++ rest_tokens cs ++ suf)).length ≤ 64 →
      pipeline_fuel env fuel (state_at pre (c ++ rest_tokens cs ++ suf) mt al pd pdl n tr pid)
        = .ret 1 (state_at (pre ++ (c ++ rest_tokens cs)) suf none none
            ((c :: cs).foldl pd_push pd) pdl n tr pid) := by
  induction cs with
  | nil =>
    intro c fuel pre suf mt al pd pdl n tr pid hc _ hlen _ hsuf hpipe hcap hfuel hL
    obtain ⟨f, rfl⟩ : ∃ f, fuel = f + 1 := ⟨fuel - 1, by simp at hfuel; omega⟩
    have hcap2 : pd.cmd_list_size < 64 := by simpa using hcap
    simp only [rest_tokens, List.append_nil, pipeline_fuel,
      simple_cmd_literals env c pre suf mt al pd pdl n tr pid hc hlen hsuf hclean
        (by simpa [rest_tokens] using hL), bind_ret]
    have e : push_cmd (state_at (pre ++ c) suf none (argv_of c) pd pdl n tr pid)
        = state_at (pre ++ c) suf none none (pd_push pd c) pdl n tr pid := rfl
    have e2 : (state_at (pre ++ c) suf none (argv_of c) pd pdl n tr pid).pipeline_data = pd := rfl
    simp [e, e2, hcap2, match_miss _ _ _ _ _ _ _ _ _ _ hpipe]
  | cons d ds ih =>
    intro c fuel pre suf mt al pd pdl n tr pid hc hcs hlen hlens hsuf hpipe hcap hfuel hL
    obtain ⟨f, rfl⟩ : ∃ f, fuel = f + 1 := ⟨fuel - 1, by simp at hfuel; omega⟩
    have hcap2 : pd.cmd_list_size < 64 := by simp at hcap; omega
    have hnext : look (rest_tokens (d :: ds) ++ suf) ≠ .LITERAL :=
      look_rest_tokens_ne_literal _ _ hsuf
    have hrec := ih d f (pre ++ c ++ ["|"]) suf (some "|") none (pd_push pd c) pdl n tr pid
      (hcs d (by simp)) (fun x hx => hcs x (by simp [hx])) (hlens d (by simp))
      (fun x hx => hlens x (by simp [hx])) hsuf hpipe
      (by simp [pd_push] at hcap ⊢; omega) (by simp at hfuel; omega)
      (by simp [rest_tokens] at hL ⊢; omega)
    have e : push_cmd (state_at (pre ++ c) (rest_tokens (d :: ds) ++ suf) none (argv_of c)
          pd pdl n tr pid)
        = state_at (pre ++ c) ("|" :: (d ++ rest_tokens ds ++ suf)) none none (pd_push pd c)
          pdl n tr pid := by
      simp [push_cmd, state_at, pd_push, rest_tokens]
    have e2 : (state_at (pre ++ c) (rest_tokens (d :: ds) ++ suf) none (argv_of c)
        pd pdl n tr pid).pipeline_data = pd := rfl
    rw [List.append_assoc]
    simp only [pipeline_fuel,
      simple_cmd_literals env c pre _ mt al pd pdl n tr pid hc hlen hnext hclean
        (by simpa using hL), bind_ret]
    have hm := match_hit .PIPE (pre ++ c) "|" (d ++ rest_tokens ds ++ suf) none none
      (pd_push pd c) pdl n tr pid (by decide)
    simp only [e, e2, hcap2, if_true, ne_eq, one_ne_zero, not_false_eq_true, hm]
    rw [hrec]
    simp [bind_ret, rest_tokens]

theorem length_rest_tokens (cs : List (List String)) : cs.length ≤ (rest_tokens cs).length := by
  induction cs with
  | nil => simp [rest_tokens]
  | cons d ds ih => simp [rest_tokens]; omega

/-- Parsing a pipeline of literals stores its stages, in order, behind those already held. -/
theorem pipeline_literals (env : Env) (c : List String) (cs : List (List String))
    (pre suf : List String) (mt : CString) (al : Argv)
    (pd : PipelineData) (pdl : Nat → PipelineData) (n : Nat) (tr : List Event) (pid : Nat)
    (hc : literal_stage c) (hcs : ∀ d ∈ cs, literal_stage d)
    (hlen : c.length ≤ 63) (hlens : ∀ d ∈ cs, d.length ≤ 63)
    (hsuf : look suf ≠ .LITERAL) (hpipe : look suf ≠ .PIPE)
    (hcap : pd.cmd_list_size + cs.length < 64)
    (hclean : clean_args env) (hL : (pre ++ (pipeline_tokens (c :: cs) ++ suf)).length ≤ 64) :
    pipeline env (state_at pre (pipeline_tokens (c :: cs) ++ suf) mt al pd pdl n tr pid)
      = .ret 1 (state_at (pre ++ pipeline_tokens (c :: cs)) suf none none
          ((c :: cs).foldl pd_push pd) pdl n tr pid) := by
  have hl := length_rest_tokens cs
  exact pipeline_fuel_literals env hclean cs c _ pre suf mt al pd pdl n tr pid hc hcs hlen hlens
    hsuf hpipe hcap (by simp [state_at, pipeline_tokens]; omega)
    (by simpa [pipeline_tokens] using hL)

theorem pipeline_miss (env : Env) (pre suf : List String) (mt : CString) (al : Argv)
    (pd : PipelineData) (pdl : Nat → PipelineData) (n : Nat) (tr : List Event) (pid : Nat)
    (hsuf : look suf ≠ .LITERAL) :
    pipeline env (state_at pre suf mt al pd pdl n tr pid)
      = .ret 0 (state_at pre suf none al pd pdl n tr pid) := by
  simp [pipeline, pipeline_fuel, simple_cmd_miss _ _ _ _ _ _ _ _ _ _ hsuf, bind_ret]

/-! ## Parsing redirections and `cmd` -/

theorem look_cons_ne (t : String) (suf : List String) (sym : Symbol)
    (h : str_to_symbol t ≠ sym) : look (t :: suf) ≠ sym := h

theorem expect_hit (sym : Symbol) (pre : List String) (t : String) (suf : List String)
    (mt : CString) (al : Argv) (pd : PipelineData) (pdl : Nat → PipelineData) (n : Nat)
    (tr : List Event) (pid : Nat) (h : str_to_symbol t = sym) :
    expect sym (state_at pre (t :: suf) mt al pd pdl n tr pid)
      = .ret 1 (state_at (pre ++ [t]) suf (some t) al pd pdl n tr pid) := by
  simp [expect, match_hit _ _ _ _ _ _ _ _ _ _ _ h]

theorem i_redirect_hit (i : String) (pre suf : List String)
    (mt : CString) (al : Argv) (pd : PipelineData) (pdl : Nat → PipelineData) (n : Nat)
    (tr : List Event) (pid : Nat) (hi : str_to_symbol i = .LITERAL) :
    i_redirect (state_at pre ("<" :: i :: suf) mt al pd pdl n tr pid)
      = .ret 1 (state_at (pre ++ ["<", i]) suf (some i) al { pd with io_redirect0 := some i }
          pdl n tr pid) := by
  have hm := match_hit .SMALLER pre "<" (i :: suf) mt al pd pdl n tr pid (by decide)
  simp only [i_redirect, hm, expect_hit _ _ _ _ _ _ _ _ _ _ _ hi, bind_ret]
  simp [state_at]

theorem i_redirect_miss (pre suf : List String)
    (mt : CString) (al : Argv) (pd : PipelineData) (pdl : Nat → PipelineData) (n : Nat)
    (tr : List Event) (pid : Nat) (h : look suf ≠ .SMALLER) :
    i_redirect (state_at pre suf mt al pd pdl n tr pid)
      = .ret 0 (state_at pre suf none al pd pdl n tr pid) := by
  simp [i_redirect, match_miss _ _ _ _ _ _ _ _ _ _ h]

theorem o_redirect_out (o : String) (pre suf : List String)
    (mt : CString) (al : Argv) (pd : PipelineData) (pdl : Nat → PipelineData) (n : Nat)
    (tr : List Event) (pid : Nat) (ho : str_to_symbol o = .LITERAL) :
    o_redirect (state_at pre (">" :: o :: suf) mt al pd pdl n tr pid)
      = .ret 1 (state_at (pre ++ [">", o]) suf (some o) al { pd with io_redirect1 := some o }
          pdl n tr pid) := by
  have hm := match_hit .GRATER pre ">" (o :: suf) mt al pd pdl n tr pid (by decide)
  simp only [o_redirect, hm, expect_hit _ _ _ _ _ _ _ _ _ _ _ ho, bind_ret]
  simp [state_at]

theorem o_redirect_app (o : String) (pre suf : List String)
    (mt : CString) (al : Argv) (pd : PipelineData) (pdl : Nat → PipelineData) (n : Nat)
    (tr : List Event) (pid : Nat) (ho : str_to_symbol o = .LITERAL) :
    o_redirect (state_at pre (">>" :: o :: suf) mt al pd pdl n tr pid)
      = .ret 1 (state_at (pre ++ [">>", o]) suf (some o) al
          { pd with append := 1, io_redirect1 := some o } pdl n tr pid) := by
  have hm0 := match_miss .GRATER pre (">>" :: o :: suf) mt al pd pdl n tr pid
    (look_cons_ne _ _ _ (by decide))
  have hm := match_hit .DOUBLE_GRATER pre ">>" (o :: suf) none al pd pdl n tr pid (by decide)
  simp only [o_redirect, hm0, hm, expect_hit _ _ _ _ _ _ _ _ _ _ _ ho, bind_ret]
  simp [state_at]

theorem o_redirect_miss (pre suf : List String)
    (mt : CString) (al : Argv) (pd : PipelineData) (pdl : Nat → PipelineData) (n : Nat)
    (tr : List Event) (pid : Nat) (h1 : look suf ≠ .GRATER) (h2 : look suf ≠ .DOUBLE_GRATER) :
    o_redirect (state_at pre suf mt al pd pdl n tr pid)
      = .ret 0 (state_at pre suf none al pd pdl n tr pid) := by
  simp [o_redirect, match_miss _ _ _ _ _ _ _ _ _ _ h1, match_miss _ _ _ _ _ _ _ _ _ _ h2]

theorem io_redirect_miss (pre suf : List String)
    (mt : CString) (al : Argv) (pd : PipelineData) (pdl : Nat → PipelineData) (n : Nat)
    (tr : List Event) (pid : Nat) (h0 : look suf ≠ .SMALLER) (h1 : look suf ≠ .GRATER)
    (h2 : look suf ≠ .DOUBLE_GRATER) :
    io_redirect (state_at pre suf mt al pd pdl n tr pid)
      = .ret 0 (state_at pre suf none al pd pdl n tr pid) := by
  simp [io_redirect, i_redirect_miss _ _ _ _ _ _ _ _ _ h0,
    o_redirect_miss _ _ _ _ _ _ _ _ _ h1 h2, bind_ret]

/-- Each of the seven redirect groups is parsed by `io_redirect` into the redirect fields. -/
theorem io_redirect_group (r : Redirect) (pre suf : List String)
    (mt : CString) (al : Argv) (pd : PipelineData) (pdl : Nat → PipelineData) (n : Nat)
    (tr : List Event) (pid : Nat) (hr : r.literal) (h0 : look suf ≠ .SMALLER)
    (h1 : look suf ≠ .GRATER) (h2 : look suf ≠ .DOUBLE_GRATER) :
    ∃ mt1, io_redirect (state_at pre (r.tokens ++ suf) mt al pd pdl n tr pid)
      = .ret 1 (state_at (pre ++ r.tokens) suf mt1 al (pd_redirect pd r) pdl n tr pid) := by
  have hin : ∀ i, r.input = some i → str_to_symbol i = .LITERAL := by
    intro i h
    have := hr.1
    rw [h] at this
    exact this
  have hout : ∀ o, r.output = some o → str_to_symbol o = .LITERAL := by
    intro o h
    have := hr.2
    rw [h] at this
    exact this
  cases r with
  | inp i =>
    have hi := hin i rfl
    refine ⟨none, ?_⟩
    simp [io_redirect, Redirect.tokens, i_redirect_hit _ _ _ _ _ _ _ _ _ _ hi, bind_ret,
      o_redirect_miss _ _ _ _ _ _ _ _ _ h1 h2]
    rfl
  | out o =>
    have ho := hout o rfl
    have hm := i_redirect_miss pre (">" :: o :: suf) mt al pd pdl n tr pid
      (look_cons_ne _ _ _ (by decide))
    refine ⟨none, ?_⟩
    simp [io_redirect, Redirect.tokens, hm, o_redirect_out _ _ _ _ _ _ _ _ _ _ ho, bind_ret,
      i_redirect_miss _ _ _ _ _ _ _ _ _ h0]
    rfl
  | app o =>
    have ho := hout o rfl
    have hm := i_redirect_miss pre (">>" :: o :: suf) mt al pd pdl n tr pid
      (look_cons_ne _ _ _ (by decide))
    refine ⟨none, ?_⟩
    simp [io_redirect, Redirect.tokens, hm, o_redirect_app _ _ _ _ _ _ _ _ _ _ ho, bind_ret,
      i_redirect_miss _ _ _ _ _ _ _ _ _ h0]
    rfl
  | inp_out i o =>
    have hi := hin i rfl
    have ho := hout o rfl
    refine ⟨some o, ?_⟩
    simp [io_redirect, Redirect.tokens, i_redirect_hit _ _ _ _ _ _ _ _ _ _ hi, bind_ret,
      o_redirect_out _ _ _ _ _ _ _ _ _ _ ho]
    rfl
  | inp_app i o =>
    have hi := hin i rfl
    have ho := hout o rfl
    refine ⟨some o, ?_⟩
    simp [io_redirect, Redirect.tokens, i_redirect_hit _ _ _ _ _ _ _ _ _ _ hi, bind_ret,
      o_redirect_app _ _ _ _ _ _ _ _ _ _ ho]
    rfl
  | out_inp o i =>
    have hi := hin i rfl
    have ho := hout o rfl
    have hm := i_redirect_miss pre (">" :: o :: "<" :: i :: suf) mt al pd pdl n tr pid
      (look_cons_ne _ _ _ (by decide))
    refine ⟨some i, ?_⟩
    simp [io_redirect, Redirect.tokens, hm, o_redirect_out _ _ _ _ _ _ _ _ _ _ ho, bind_ret,
      i_redirect_hit _ _ _ _ _ _ _ _ _ _ hi]
    rfl
  | app_inp o i =>
    have hi := hin i rfl
    have ho := hout o rfl
    have hm := i_redirect_miss pre (">>" :: o :: "<" :: i :: suf) mt al pd pdl n tr pid
      (look_cons_ne _ _ _ (by decide))
    refine ⟨some i, ?_⟩
    simp [io_redirect, Redirect.tokens, hm, o_redirect_app _ _ _ _ _ _ _ _ _ _ ho, bind_ret,
      i_redirect_hit _ _ _ _ _ _ _ _ _ _ hi]
    rfl

theorem look_pipeline_tokens (p : List (List String)) (suf : List String)
    (hp : literal_pipeline p) : look (pipeline_tokens p ++ suf) = .LITERAL := by
  obtain ⟨hne, hall⟩ := hp
  cases p with
  | nil => exact absurd rfl hne
  | cons c cs =>
    obtain ⟨hc, hlit⟩ := hall c (by simp)
    cases c with
    | nil => exact absurd rfl hc
    | cons t c => simpa [pipeline_tokens, look] using hlit t (by simp)

theorem look_redirect_tokens (r : Redirect) (suf : List String) :
    look (r.tokens ++ suf) = .SMALLER ∨ look (r.tokens ++ suf) = .GRATER ∨
      look (r.tokens ++ suf) = .DOUBLE_GRATER := by
  cases r <;> simp [Redirect.tokens, look, str_to_symbol]

theorem pipeline_form (env : Env) (p : List (List String))
    (pre suf : List String) (mt : CString) (al : Argv)
    (pd : PipelineData) (pdl : Nat → PipelineData) (n : Nat) (tr : List Event) (pid : Nat)
    (hp : literal_pipeline p) (hcap : within_capacity p)
    (hsuf : look suf ≠ .LITERAL) (hpipe : look suf ≠ .PIPE) (hpd : pd.cmd_list_size = 0)
    (hclean : clean_args env) (hL : (pre ++ (pipeline_tokens p ++ suf)).length ≤ 64) :
    pipeline env (state_at pre (pipeline_tokens p ++ suf) mt al pd pdl n tr pid)
      = .ret 1 (state_at (pre ++ pipeline_tokens p) suf none none (p.foldl pd_push pd)
          pdl n tr pid) := by
  obtain ⟨hne, hall⟩ := hp
  obtain ⟨hlen, hlens⟩ := hcap
  cases p with
  | nil => exact absurd rfl hne
  | cons c cs =>
    exact pipeline_literals env c cs pre suf mt al pd pdl n tr pid (hall c (by simp))
      (fun d hd => hall d (by simp [hd])) (hlens c (by simp)) (fun d hd => hlens d (by simp [hd]))
      hsuf hpipe (by simp at hlen; omega) hclean hL

/-- A `cmd` of one of the three forms is parsed into the record in progress. -/
theorem cmd_form (env : Env) (f : CmdForm) (pre suf : List String) (mt : CString) (al : Argv)
    (pd : PipelineData) (pdl : Nat → PipelineData) (n : Nat) (tr : List Event) (pid : Nat)
    (hf : f.literal) (hcap : within_capacity f.stages) (hsuf : ends_cmd suf)
    (hpd : pd.cmd_list_size = 0)
    (hclean : clean_args env) (hL : (pre ++ (f.tokens ++ suf)).length ≤ 64) :
    ∃ mt1, cmd env (state_at pre (f.tokens ++ suf) mt al pd pdl n tr pid)
      = .ret 1 (state_at (pre ++ f.tokens) suf mt1 none (pd_form pd f) pdl n tr pid) := by
  obtain ⟨h1, h2, h3, h4, h5⟩ := hsuf
  cases f with
  | plain p =>
    have hl := look_pipeline_tokens p suf hf
    have hb := match_miss .LT_BRACE pre (pipeline_tokens p ++ suf) mt al pd pdl n tr pid
      (by rw [hl]; decide)
    have hio := io_redirect_miss pre (pipeline_tokens p ++ suf) none al pd pdl n tr pid
      (by rw [hl]; decide) (by rw [hl]; decide) (by rw [hl]; decide)
    have hp := pipeline_form env p pre suf none al pd pdl n tr pid hf hcap h1 h2 hpd hclean
      (by simpa [CmdForm.tokens] using hL)
    have hio2 := io_redirect_miss (pre ++ pipeline_tokens p) suf none none (p.foldl pd_push pd)
      pdl n tr pid h3 h4 h5
    refine ⟨none, ?_⟩
    simp only [CmdForm.tokens, cmd, hb, hio, bind_ret, hp, hio2, pd_form]
    simp
  | redirect_first r p =>
    obtain ⟨hr, hp⟩ := hf
    have hl := look_pipeline_tokens p suf hp
    have hb := match_miss .LT_BRACE pre (r.tokens ++ (pipeline_tokens p ++ suf)) mt al pd pdl n
      tr pid (by rcases look_redirect_tokens r (pipeline_tokens p ++ suf) with h | h | h <;>
        rw [h] <;> decide)
    obtain ⟨mt1, hio⟩ := io_redirect_group r pre (pipeline_tokens p ++ suf) none al pd pdl n
      tr pid hr (by rw [hl]; decide) (by rw [hl]; decide) (by rw [hl]; decide)
    have hpp := pipeline_form env p (pre ++ r.tokens) suf mt1 al (pd_redirect pd r) pdl n tr pid
      hp hcap h1 h2 (by simpa [pd_redirect] using hpd) hclean
      (by simp [CmdForm.tokens] at hL ⊢; omega)
    refine ⟨none, ?_⟩
    simp only [CmdForm.tokens, List.append_assoc, cmd, hb, hio, bind_ret, hpp, pd_form]
    simp
  | redirect_last p r =>
    obtain ⟨hp, hr⟩ := hf
    have hl := look_pipeline_tokens p (r.tokens ++ suf) hp
    have hb := match_miss .LT_BRACE pre (pipeline_tokens p ++ (r.tokens ++ suf)) mt al pd pdl n
      tr pid (by rw [hl]; decide)
    have hio := io_redirect_miss pre (pipeline_tokens p ++ (r.tokens ++ suf)) none al pd pdl n
      tr pid (by rw [hl]; decide) (by rw [hl]; decide) (by rw [hl]; decide)
    have hpp := pipeline_form env p pre (r.tokens ++ suf) none al pd pdl n tr pid hp hcap
      (by rcases look_redirect_tokens r suf with h | h | h <;> rw [h] <;> decide)
      (by rcases look_redirect_tokens r suf with h | h | h <;> rw [h] <;> decide) hpd hclean
      (by simp [CmdForm.tokens] at hL ⊢; omega)
    obtain ⟨mt1, hio2⟩ := io_redirect_group r (pre ++ pipeline_tokens p) suf none none
      (p.foldl pd_push pd) pdl n tr pid hr h3 h4 h5
    refine ⟨mt1, ?_⟩
    simp only [CmdForm.tokens, List.append_assoc, cmd, hb, hio, bind_ret, hpp, hio2, pd_form]
    simp

/-! ## The read-out of the records built by the parser -/

theorem arr_take_set_self {α : Type} (a : Nat → α) (n : Nat) (v : α) :
    arr_take (arr_set a n v) (n + 1) = arr_take a n ++ [v] := by
  rw [arr_take_succ, arr_take_set_ge a n n v (Nat.le_refl n), arr_set_same]

theorem foldl_pd_push_frame (p : List (List String)) :
    ∀ pd : PipelineData,
      (p.foldl pd_push pd).cmd_list_size = pd.cmd_list_size + p.length ∧
      (p.foldl pd_push pd).io_redirect0 = pd.io_redirect0 ∧
      (p.foldl pd_push pd).io_redirect1 = pd.io_redirect1 ∧
      (p.foldl pd_push pd).append = pd.append ∧
      (p.foldl pd_push pd).run_condition = pd.run_condition ∧
      (p.foldl pd_push pd).run_in_background = pd.run_in_background := by
  induction p with
  | nil => intro pd; simp
  | cons c cs ih =>
    intro pd
    obtain ⟨h1, h2, h3, h4, h5, h6⟩ := ih (pd_push pd c)
    simp only [List.foldl_cons, h1, h2, h3, h4, h5, h6]
    simp [pd_push]; omega

theorem foldl_pd_push_take (p : List (List String)) :
    ∀ pd : PipelineData,
      arr_take (p.foldl pd_push pd).cmd_list (pd.cmd_list_size + p.length)
        = arr_take pd.cmd_list pd.cmd_list_size ++ p.map argv_of := by
  induction p with
  | nil => intro pd; simp
  | cons c cs ih =>
    intro pd
    have h := ih (pd_push pd c)
    have e : (pd_push pd c).cmd_list_size + cs.length = pd.cmd_list_size + (c :: cs).length := by
      simp [pd_push]; omega
    rw [e] at h
    rw [List.foldl_cons, h]
    simp [pd_push, arr_take_set_self]

theorem spec_foldl_pd_push (p : List (List String)) (pd : PipelineData)
    (hpd : pd.cmd_list_size = 0) :
    (p.foldl pd_push pd).spec =
      { commands := p.map argv_of
        input_path := pd.io_redirect0
        output_path := pd.io_redirect1
        append := pd.append
        chain_condition := pd.run_condition
        background := pd.run_in_background } := by
  obtain ⟨h1, h2, h3, h4, h5, h6⟩ := foldl_pd_push_frame p pd
  have ht := foldl_pd_push_take p pd
  rw [hpd, Nat.zero_add] at ht
  rw [hpd, Nat.zero_add] at h1
  simp only [PipelineData.spec, h1, h2, h3, h4, h5, h6, ht]
  simp [arr_take]

/-- The record that `cmd` builds from a fresh one reads as the form prescribes. -/
theorem spec_pd_form (pd : PipelineData) (f : CmdForm) :
    (pd_form (init_pipeline pd) f).spec = f.expected .DONT_SKIP_NEXT 0 := by
  cases f with
  | plain p =>
    rw [pd_form, spec_foldl_pd_push p _ rfl]
    simp [CmdForm.expected, CmdForm.stages, CmdForm.input, CmdForm.output, CmdForm.is_append,
      init_pipeline]
  | redirect_first r p =>
    rw [pd_form, spec_foldl_pd_push p _ rfl]
    cases r <;>
    simp [CmdForm.expected, CmdForm.stages, CmdForm.input, CmdForm.output, CmdForm.is_append,
      init_pipeline, pd_redirect, Redirect.input, Redirect.output, Redirect.is_append]
  | redirect_last p r =>
    have h := spec_foldl_pd_push p (init_pipeline pd) rfl
    simp only [PipelineData.spec] at h
    simp only [PipelineSpec.mk.injEq] at h
    obtain ⟨h1, h2, h3, h4, h5, h6⟩ := h
    cases r <;>
    simp [pd_form, PipelineData.spec, CmdForm.expected, CmdForm.stages, CmdForm.input,
      CmdForm.output, CmdForm.is_append, init_pipeline, pd_redirect, Redirect.input,
      Redirect.output, Redirect.is_append, h1, h2, h3, h4, h5, h6] <;>
    simp_all [init_pipeline]

/-! ## Parsing a line of `cmd`s and operators -/

theorem shell_cmd_fuel_succ (env : Env) (fuel : Nat) (s : State) :
    shell_cmd_fuel env (fuel + 1) s = (conditional_cmd env s).bind (shell_cmd_rest env fuel) :=
  rfl

theorem cmd_miss (env : Env) (pre suf : List String) (mt : CString) (al : Argv)
    (pd : PipelineData) (pdl : Nat → PipelineData) (n : Nat) (tr : List Event) (pid : Nat)
    (hb : look suf ≠ .LT_BRACE) (hl : look suf ≠ .LITERAL) (h0 : look suf ≠ .SMALLER)
    (h1 : look suf ≠ .GRATER) (h2 : look suf ≠ .DOUBLE_GRATER) :
    cmd env (state_at pre suf mt al pd pdl n tr pid)
      = .ret 0 (state_at pre suf none al pd pdl n tr pid) := by
  simp [cmd, match_miss _ _ _ _ _ _ _ _ _ _ hb, io_redirect_miss _ _ _ _ _ _ _ _ _ h0 h1 h2,
    bind_ret, pipeline_miss _ _ _ _ _ _ _ _ _ _ hl]

theorem conditional_cmd_fuel_miss (env : Env) (fuel : Nat) (pre suf : List String)
    (mt : CString) (al : Argv)
    (pd : PipelineData) (pdl : Nat → PipelineData) (n : Nat) (tr : List Event) (pid : Nat)
    (hb : look suf ≠ .LT_BRACE) (hl : look suf ≠ .LITERAL) (h0 : look suf ≠ .SMALLER)
    (h1 : look suf ≠ .GRATER) (h2 : look suf ≠ .DOUBLE_GRATER) :
    conditional_cmd_fuel env (fuel + 1) (state_at pre suf mt al pd pdl n tr pid)
      = .ret 0 (state_at pre suf none al (init_pipeline pd) pdl n tr pid) := by
  have e : ({ state_at pre suf mt al pd pdl n tr pid with
      pipeline_data := init_pipeline (state_at pre suf mt al pd pdl n tr pid).pipeline_data }
      : State) = state_at pre suf mt al (init_pipeline pd) pdl n tr pid := rfl
  simp only [conditional_cmd_fuel, e, cmd_miss env _ _ _ _ _ _ _ _ _ hb hl h0 h1 h2, bind_ret]
  simp

/-- The first `cmd` of a line, up to the operator behind it, as `conditional_cmd` sees it:
the record is stored in slot `n`. -/
theorem conditional_cmd_fuel_form (env : Env) (fuel : Nat) (f : CmdForm)
    (pre suf : List String) (mt : CString) (al : Argv)
    (pd : PipelineData) (pdl : Nat → PipelineData) (n : Nat) (tr : List Event) (pid : Nat)
    (hf : f.literal) (hcap : within_capacity f.stages) (hsuf : ends_cmd suf) (hn : n < 64)
    (hclean : clean_args env) (hL : (pre ++ (f.tokens ++ suf)).length ≤ 64) :
    ∃ mt1, conditional_cmd_fuel env (fuel + 1)
        (state_at pre (f.tokens ++ suf) mt al pd pdl n tr pid)
      = (let m := match_ .DOUBLE_AMP (state_at (pre ++ f.tokens) suf mt1 none
            (pd_form (init_pipeline pd) f) (arr_set pdl n (pd_form (init_pipeline pd) f))
            (n + 1) tr pid)
        if m.1 ≠ 0 then
          conditional_cmd_fuel env fuel (set_run_condition .SKIP_NEXST_ON_FAILURE m.2)
        else
          let m2 := match_ .DOUBLE_PIPE m.2
          if m2.1 ≠ 0 then
            conditional_cmd_fuel env fuel (set_run_condition .SKIP_NEXST_ON_SUCCSESS m2.2)
          else .ret 1 m2.2) := by
  have e : ({ state_at pre (f.tokens ++ suf) mt al pd pdl n tr pid with
      pipeline_data :=
        init_pipeline (state_at pre (f.tokens ++ suf) mt al pd pdl n tr pid).pipeline_data }
      : State) = state_at pre (f.tokens ++ suf) mt al (init_pipeline pd) pdl n tr pid := rfl
  obtain ⟨mt1, hc⟩ := cmd_form env f pre suf mt al (init_pipeline pd) pdl n tr pid hf hcap hsuf rfl
    hclean hL
  refine ⟨mt1, ?_⟩
  have e2 : (state_at (pre ++ f.tokens) suf mt1 none (pd_form (init_pipeline pd) f) pdl n tr
      pid).pipeline_data_list_size = n := rfl
  have e3 : push_pipeline (state_at (pre ++ f.tokens) suf mt1 none (pd_form (init_pipeline pd) f)
      pdl n tr pid) = state_at (pre ++ f.tokens) suf mt1 none (pd_form (init_pipeline pd) f)
        (arr_set pdl n (pd_form (init_pipeline pd) f)) (n + 1) tr pid := rfl
  simp only [conditional_cmd_fuel, e, hc, bind_ret, e2, e3, hn]
  simp

theorem shell_cmd_tail_end (pre : List String) (mt : CString) (al : Argv)
    (pd : PipelineData) (pdl : Nat → PipelineData) (n : Nat) (tr : List Event) (pid : Nat) :
    shell_cmd_tail 1 (state_at pre [] mt al pd pdl n tr pid)
      = .ret 1 (state_at pre [] (token_at pre ((pre.length : Int) - 1)) al pd pdl n tr pid) := by
  have hm := match_miss .AMP pre [] mt al pd pdl n tr pid (by decide)
  simp only [shell_cmd_tail, hm, expect, match_eps]
  simp

theorem shell_cmd_rest_end (env : Env) (fuel : Nat) (pre : List String) (mt : CString)
    (al : Argv) (pd : PipelineData) (pdl : Nat → PipelineData) (n : Nat) (tr : List Event)
    (pid : Nat) :
    shell_cmd_rest env fuel 1 (state_at pre [] mt al pd pdl n tr pid)
      = .ret 1 (state_at pre [] (token_at pre ((pre.length : Int) - 1)) al pd pdl n tr pid) := by
  have hm := match_miss .SEMICOLON pre [] mt al pd pdl n tr pid (by decide)
  have hm2 := match_miss .AMP pre [] none al pd pdl n tr pid (by decide)
  simp only [shell_cmd_rest, hm, hm2]
  simp [bind_ret, shell_cmd_tail_end]

theorem shell_cmd_rest_semicolon (env : Env) (fuel : Nat) (pre rest : List String)
    (mt : CString) (al : Argv) (pd : PipelineData) (pdl : Nat → PipelineData) (n : Nat)
    (tr : List Event) (pid : Nat) :
    shell_cmd_rest env fuel 1 (state_at pre (";" :: rest) mt al pd pdl n tr pid)
      = (shell_cmd_fuel env fuel
          (state_at (pre ++ [";"]) rest (some ";") al pd pdl n tr pid)).bind shell_cmd_tail := by
  have hm := match_hit .SEMICOLON pre ";" rest mt al pd pdl n tr pid (by decide)
  simp only [shell_cmd_rest, hm]
  simp

theorem shell_cmd_rest_amp (env : Env) (fuel : Nat) (pre rest : List String)
    (mt : CString) (al : Argv) (pd : PipelineData) (pdl : Nat → PipelineData) (n : Nat)
    (tr : List Event) (pid : Nat) :
    shell_cmd_rest env fuel 1 (state_at pre ("&" :: rest) mt al pd pdl (n + 1) tr pid)
      = (shell_cmd_fuel env fuel
          (state_at (pre ++ ["&"]) rest (some "&") al pd
            (arr_set pdl n { pdl n with run_in_background := 1 }) (n + 1) tr pid)).bind
          shell_cmd_tail := by
  have hm0 := match_miss .SEMICOLON pre ("&" :: rest) mt al pd pdl (n + 1) tr pid
    (look_cons_ne _ _ _ (by decide))
  have hm := match_hit .AMP pre "&" rest none al pd pdl (n + 1) tr pid (by decide)
  have e : set_run_in_background (state_at (pre ++ ["&"]) rest (some "&") al pd pdl (n + 1) tr pid)
      = state_at (pre ++ ["&"]) rest (some "&") al pd
          (arr_set pdl n { pdl n with run_in_background := 1 }) (n + 1) tr pid := rfl
  have e2 : (state_at (pre ++ ["&"]) rest (some "&") al pd pdl (n + 1) tr
      pid).pipeline_data_list_size = n + 1 := rfl
  simp only [shell_cmd_rest, hm0, hm, e, e2]
  simp

theorem shell_cmd_fuel_end (env : Env) (fuel : Nat) (pre : List String) (mt : CString)
    (al : Argv) (pd : PipelineData) (pdl : Nat → PipelineData) (n : Nat) (tr : List Event)
    (pid : Nat) :
    shell_cmd_fuel env (fuel + 1) (state_at pre [] mt al pd pdl n tr pid)
      = .ret 0 (state_at pre [] none al (init_pipeline pd) pdl n tr pid) := by
  rw [shell_cmd_fuel_succ, conditional_cmd,
    conditional_cmd_fuel_miss env _ pre [] mt al pd pdl n tr pid (by decide) (by decide)
      (by decide) (by decide) (by decide)]
  simp [bind_ret, shell_cmd_rest]

theorem ends_cmd_nil : ends_cmd [] := by
  simp [ends_cmd, look]

theorem ends_cmd_sep (o : Sep) (rest : List String) : ends_cmd (o.token :: rest) := by
  cases o <;> simp [ends_cmd, look, Sep.token, str_to_symbol]

theorem ends_cmd_final (fa : Bool) : ends_cmd (if fa = true then ["&"] else []) := by
  cases fa <;> simp [ends_cmd, look, str_to_symbol]

theorem length_line_tokens (last : CmdForm) (fa : Bool) (ch : List (CmdForm × Sep)) :
    ch.length ≤ (line_tokens last fa ch).length := by
  induction ch with
  | nil => simp
  | cons x rest ih =>
    obtain ⟨f, o⟩ := x
    simp [line_tokens]; omega

theorem take_replace {α : Type} (a : Nat → α) (n : Nat) (v w : α) :
    arr_take (arr_set (arr_set a n v) n w) (n + 1) = arr_take a n ++ [w] := by
  rw [arr_take_set_self, arr_take_set_ge a n n v (Nat.le_refl n)]

theorem spec_with_background (p : PipelineData) (f : CmdForm) (c : RunCondition) (b : Nat)
    (h : p.spec = f.expected c b) :
    ({ p with run_in_background := 1 } : PipelineData).spec = f.expected c 1 := by
  simp only [PipelineData.spec, CmdForm.expected, PipelineSpec.mk.injEq] at h ⊢
  obtain ⟨h1, h2, h3, h4, h5, _⟩ := h
  exact ⟨h1, h2, h3, h4, h5, trivial⟩

theorem spec_with_condition (p : PipelineData) (f : CmdForm) (c k : RunCondition) (b : Nat)
    (h : p.spec = f.expected c b) :
    ({ p with run_condition := k } : PipelineData).spec = f.expected k b := by
  simp only [PipelineData.spec, CmdForm.expected, PipelineSpec.mk.injEq] at h ⊢
  obtain ⟨h1, h2, h3, h4, _, h6⟩ := h
  exact ⟨h1, h2, h3, h4, trivial, h6⟩

theorem shell_cmd_tail_zero (s : State) : shell_cmd_tail 0 s = .ret 1 s := by
  simp [shell_cmd_tail]

/-- A line `c1 o1 c2 o2 ... cn` with an optional final `&` is parsed into one record per
`cmd`, stored behind the `n` records already held, with the flags its operator prescribes. -/
theorem line_parse (env : Env) (hclean : clean_args env) (last : CmdForm) (fa : Bool)
    (ch : List (CmdForm × Sep)) :
    ∀ (fc fs : Nat) (pre : List String) (mt : CString) (al : Argv) (pd : PipelineData)
      (pdl : Nat → PipelineData) (n : Nat) (tr : List Event) (pid : Nat),
      (∀ x ∈ ch, x.1.literal ∧ within_capacity x.1.stages) →
      last.literal → within_capacity last.stages →
      ch.length < fc → ch.length < fs → n + ch.length < 64 →
      (pre ++ line_tokens last fa ch).length ≤ 64 →
      ∃ mt1 pd1 pdl1,
        (conditional_cmd_fuel env fc
            (state_at pre (line_tokens last fa ch) mt al pd pdl n tr pid)).bind
            (shell_cmd_rest env fs)
          = .ret 1 (state_at (pre ++ line_tokens last fa ch) [] mt1 none pd1 pdl1
              (n + ch.length + 1) tr pid) ∧
        (arr_take pdl1 (n + ch.length + 1)).map PipelineData.spec
          = (arr_take pdl n).map PipelineData.spec ++ line_model last fa ch := by
  induction ch with
  | nil =>
    intro fc fs pre mt al pd pdl n tr pid _ hlast hcap hfc hfs hn hL
    obtain ⟨fc, rfl⟩ : ∃ k, fc = k + 1 := ⟨fc - 1, by simp at hfc; omega⟩
    obtain ⟨fs, rfl⟩ : ∃ k, fs = k + 1 := ⟨fs - 1, by simp at hfs; omega⟩
    have hn1 : n < 64 := by simpa using hn
    obtain ⟨mt1, hc⟩ := conditional_cmd_fuel_form env fc last pre
      (if fa = true then ["&"] else []) mt al pd pdl n tr pid hlast hcap (ends_cmd_final fa) hn1
      hclean (by simpa [line_tokens] using hL)
    have hs := spec_pd_form pd last
    generalize pd_form (init_pipeline pd) last = pdF at hc hs
    cases fa with
    | false =>
      simp only [Bool.false_eq_true, if_false] at hc
      have hm1 := match_miss .DOUBLE_AMP (pre ++ last.tokens) [] mt1 none pdF
        (arr_set pdl n pdF) (n + 1) tr pid (by decide)
      have hm2 := match_miss .DOUBLE_PIPE (pre ++ last.tokens) [] none none pdF
        (arr_set pdl n pdF) (n + 1) tr pid (by decide)
      refine ⟨token_at (pre ++ last.tokens) (((pre ++ last.tokens).length : Int) - 1), pdF,
        arr_set pdl n pdF, ?_, ?_⟩
      · simp only [line_tokens, Bool.false_eq_true, if_false, List.append_nil] at hc ⊢
        rw [hc]
        simp only [hm1, hm2]
        simp only [ne_eq, not_true_eq_false, if_false, bind_ret, shell_cmd_rest_end]
        simp
      · simp [arr_take_set_self, line_model, hs]
    | true =>
      simp only [if_true] at hc
      have hm1 := match_miss .DOUBLE_AMP (pre ++ last.tokens) ["&"] mt1 none pdF
        (arr_set pdl n pdF) (n + 1) tr pid (look_cons_ne _ _ _ (by decide))
      have hm2 := match_miss .DOUBLE_PIPE (pre ++ last.tokens) ["&"] none none pdF
        (arr_set pdl n pdF) (n + 1) tr pid (look_cons_ne _ _ _ (by decide))
      refine ⟨none, init_pipeline pdF,
        arr_set (arr_set pdl n pdF) n { arr_set pdl n pdF n with run_in_background := 1 },
        ?_, ?_⟩
      · simp only [line_tokens, if_true] at hc ⊢
        rw [hc]
        simp only [hm1, hm2]
        simp only [ne_eq, not_true_eq_false, if_false, bind_ret, shell_cmd_rest_amp,
          shell_cmd_fuel_end, shell_cmd_tail_zero]
        simp
      · simp [take_replace, line_model, arr_set_same, spec_with_background _ _ _ _ hs]
  | cons x ch ih =>
    intro fc fs pre mt al pd pdl n tr pid hall hlast hcap hfc hfs hn hL
    obtain ⟨f, o⟩ := x
    obtain ⟨fc, rfl⟩ : ∃ k, fc = k + 1 := ⟨fc - 1, by simp at hfc; omega⟩
    obtain ⟨fs, rfl⟩ : ∃ k, fs = k + 1 := ⟨fs - 1, by simp at hfs; omega⟩
    have hn1 : n < 64 := by simp at hn; omega
    obtain ⟨hf, hfcap⟩ := hall (f, o) (by simp)
    have hall2 : ∀ x ∈ ch, x.1.literal ∧ within_capacity x.1.stages :=
      fun x hx => hall x (by simp [hx])
    obtain ⟨mt1, hc⟩ := conditional_cmd_fuel_form env fc f pre
      (o.token :: line_tokens last fa ch) mt al pd pdl n tr pid hf hfcap (ends_cmd_sep o _) hn1
      hclean (by simpa [line_tokens] using hL)
    have hL2 : ∀ t : String, (pre ++ f.tokens ++ [t] ++ line_tokens last fa ch).length ≤ 64 := by
      intro t
      simp [line_tokens] at hL ⊢
      omega
    have hs := spec_pd_form pd f
    generalize pd_form (init_pipeline pd) f = pdF at hc hs
    have hlen := length_line_tokens last fa ch
    have epre : ∀ t : String, pre ++ f.tokens ++ [t] ++ line_tokens last fa ch
        = pre ++ (f.tokens ++ t :: line_tokens last fa ch) := by intro t; simp
    have en : n + 1 + ch.length + 1 = n + (ch.length + 1) + 1 := by omega
    cases o with
    | and_then =>
      have hm1 := match_hit .DOUBLE_AMP (pre ++ f.tokens) "&&" (line_tokens last fa ch) mt1 none
        pdF (arr_set pdl n pdF) (n + 1) tr pid (by decide)
      have e : set_run_condition .SKIP_NEXST_ON_FAILURE
          (state_at (pre ++ f.tokens ++ ["&&"]) (line_tokens last fa ch) (some "&&") none pdF
            (arr_set pdl n pdF) (n + 1) tr pid)
          = state_at (pre ++ f.tokens ++ ["&&"]) (line_tokens last fa ch) (some "&&") none pdF
            (arr_set (arr_set pdl n pdF) n
              { arr_set pdl n pdF n with run_condition := .SKIP_NEXST_ON_FAILURE })
            (n + 1) tr pid := rfl
      obtain ⟨mt2, pd2, pdl2, h1, h2⟩ := ih fc (fs + 1) (pre ++ f.tokens ++ ["&&"]) (some "&&")
        none pdF _ (n + 1) tr pid hall2 hlast hcap (by simp at hfc; omega)
        (by simp at hfs; omega) (by simp at hn; omega) (hL2 _)
      refine ⟨mt2, pd2, pdl2, ?_, ?_⟩
      · simp only [line_tokens, Sep.token, List.length_cons] at hc ⊢
        rw [hc]
        simp only [hm1, ne_eq, one_ne_zero, not_false_eq_true, if_true, e]
        rw [h1, epre, en]
      · simp only [List.length_cons]
        rw [← en, h2, take_replace]
        simp [line_model, arr_set_same, Sep.cond, Sep.background,
          spec_with_condition _ _ _ _ _ hs]
    | or_else =>
      have hm0 := match_miss .DOUBLE_AMP (pre ++ f.tokens) ("||" :: line_tokens last fa ch)
        mt1 none pdF (arr_set pdl n pdF) (n + 1) tr pid (look_cons_ne _ _ _ (by decide))
      have hm1 := match_hit .DOUBLE_PIPE (pre ++ f.tokens) "||" (line_tokens last fa ch) none none
        pdF (arr_set pdl n pdF) (n + 1) tr pid (by decide)
      have e : set_run_condition .SKIP_NEXST_ON_SUCCSESS
          (state_at (pre ++ f.tokens ++ ["||"]) (line_tokens last fa ch) (some "||") none pdF
            (arr_set pdl n pdF) (n + 1) tr pid)
          = state_at (pre ++ f.tokens ++ ["||"]) (line_tokens last fa ch) (some "||") none pdF
            (arr_set (arr_set pdl n pdF) n
              { arr_set pdl n pdF n with run_condition := .SKIP_NEXST_ON_SUCCSESS })
            (n + 1) tr pid := rfl
      obtain ⟨mt2, pd2, pdl2, h1, h2⟩ := ih fc (fs + 1) (pre ++ f.tokens ++ ["||"]) (some "||")
        none pdF _ (n + 1) tr pid hall2 hlast hcap (by simp at hfc; omega)
        (by simp at hfs; omega) (by simp at hn; omega) (hL2 _)
      refine ⟨mt2, pd2, pdl2, ?_, ?_⟩
      · simp only [line_tokens, Sep.token, List.length_cons] at hc ⊢
        rw [hc]
        simp only [hm0, hm1, ne_eq, one_ne_zero, not_false_eq_true, if_true, not_true_eq_false,
          if_false, e]
        rw [h1, epre, en]
      · simp only [List.length_cons]
        rw [← en, h2, take_replace]
        simp [line_model, arr_set_same, Sep.cond, Sep.background,
          spec_with_condition _ _ _ _ _ hs]
    | semicolon =>
      have hm0 := match_miss .DOUBLE_AMP (pre ++ f.tokens) (";" :: line_tokens last fa ch)
        mt1 none pdF (arr_set pdl n pdF) (n + 1) tr pid (look_cons_ne _ _ _ (by decide))
      have hm1 := match_miss .DOUBLE_PIPE (pre ++ f.tokens) (";" :: line_tokens last fa ch)
        none none pdF (arr_set pdl n pdF) (n + 1) tr pid (look_cons_ne _ _ _ (by decide))
      obtain ⟨fs, rfl⟩ : ∃ k, fs = k + 1 := ⟨fs - 1, by simp at hfs; omega⟩
      obtain ⟨mt2, pd2, pdl2, h1, h2⟩ := ih
        ((state_at (pre ++ f.tokens ++ [";"]) (line_tokens last fa ch) (some ";") none pdF
          (arr_set pdl n pdF) (n + 1) tr pid).tokens.length + 1) (fs + 1)
        (pre ++ f.tokens ++ [";"]) (some ";")
        none pdF (arr_set pdl n pdF) (n + 1) tr pid hall2 hlast hcap
        (by simp [state_at]; omega)
        (by simp at hfs; omega) (by simp at hn; omega) (hL2 _)
      refine ⟨token_at (pre ++ (f.tokens ++ ";" :: line_tokens last fa ch))
        (((pre ++ (f.tokens ++ ";" :: line_tokens last fa ch)).length : Int) - 1),
        pd2, pdl2, ?_, ?_⟩
      · simp only [line_tokens, Sep.token, List.length_cons] at hc ⊢
        rw [hc]
        simp only [hm0, hm1, ne_eq, not_true_eq_false, if_false, bind_ret,
          shell_cmd_rest_semicolon, shell_cmd_fuel_succ, conditional_cmd]
        rw [h1, bind_ret, shell_cmd_tail_end, epre, en]
      · simp only [List.length_cons]
        rw [← en, h2, arr_take_set_self]
        simp [line_model, Sep.cond, Sep.background, hs]
    | ampersand =>
      have hm0 := match_miss .DOUBLE_AMP (pre ++ f.tokens) ("&" :: line_tokens last fa ch)
        mt1 none pdF (arr_set pdl n pdF) (n + 1) tr pid (look_cons_ne _ _ _ (by decide))
      have hm1 := match_miss .DOUBLE_PIPE (pre ++ f.tokens) ("&" :: line_tokens last fa ch)
        none none pdF (arr_set pdl n pdF) (n + 1) tr pid (look_cons_ne _ _ _ (by decide))
      obtain ⟨fs, rfl⟩ : ∃ k, fs = k + 1 := ⟨fs - 1, by simp at hfs; omega⟩
      obtain ⟨mt2, pd2, pdl2, h1, h2⟩ := ih
        ((state_at (pre ++ f.tokens ++ ["&"]) (line_tokens last fa ch) (some "&") none pdF
          (arr_set (arr_set pdl n pdF) n { arr_set pdl n pdF n with run_in_background := 1 })
          (n + 1) tr pid).tokens.length + 1) (fs + 1)
        (pre ++ f.tokens ++ ["&"]) (some "&")
        none pdF (arr_set (arr_set pdl n pdF) n
          { arr_set pdl n pdF n with run_in_background := 1 }) (n + 1) tr pid hall2 hlast hcap
        (by simp [state_at]; omega)
        (by simp at hfs; omega) (by simp at hn; omega) (hL2 _)
      refine ⟨token_at (pre ++ (f.tokens ++ "&" :: line_tokens last fa ch))
        (((pre ++ (f.tokens ++ "&" :: line_tokens last fa ch)).length : Int) - 1),
        pd2, pdl2, ?_, ?_⟩
      · simp only [line_tokens, Sep.token, List.length_cons] at hc ⊢
        rw [hc]
        simp only [hm0, hm1, ne_eq, not_true_eq_false, if_false, bind_ret,
          shell_cmd_rest_amp, shell_cmd_fuel_succ, conditional_cmd]
        rw [h1, bind_ret, shell_cmd_tail_end, epre, en]
      · simp only [List.length_cons]
        rw [← en, h2, take_replace]
        simp [line_model, arr_set_same, Sep.cond, Sep.background,
          spec_with_background _ _ _ _ hs]

theorem primed_eq (s : State) (toks : List String) :
    primed s toks = state_at [] toks s.matched_token s.arg_list s.pipeline_data
      s.pipeline_data_list s.pipeline_data_list_size s.trace s.next_pid := by
  cases toks with
  | nil => simp [primed, next_symbol, token_at, state_at, look, look_len]
  | cons t rest => simp [primed, next_symbol, token_at, state_at, look, look_len]

theorem tokens_ne_nil (f : CmdForm) (hf : f.literal) : f.tokens ≠ [] := by
  cases f with
  | plain p =>
    intro h
    have hl := look_pipeline_tokens p [] hf
    simp only [CmdForm.tokens] at h
    simp [h, look] at hl
  | redirect_first r p =>
    cases r <;> simp [CmdForm.tokens, Redirect.tokens]
  | redirect_last p r =>
    cases r <;> simp [CmdForm.tokens, Redirect.tokens]

theorem length_line_tokens_lt (last : CmdForm) (fa : Bool) (ch : List (CmdForm × Sep))
    (hlast : last.literal) : ch.length < (line_tokens last fa ch).length := by
  induction ch with
  | nil =>
    have h := tokens_ne_nil last hlast
    have : 0 < last.tokens.length := List.length_pos.mpr h
    simp [line_tokens]; omega
  | cons x rest ih =>
    obtain ⟨f, o⟩ := x
    simp [line_tokens]; omega

/-- The parser, started as `main` starts it with an empty list, turns the line
`c1 o1 ... cn` into the CommandModel `line_model`, consumes every token and starts nothing. -/
theorem shell_cmd_line (env : Env) (s : State) (last : CmdForm) (fa : Bool)
    (ch : List (CmdForm × Sep))
    (hall : ∀ x ∈ ch, x.1.literal ∧ within_capacity x.1.stages)
    (hlast : last.literal) (hcap : within_capacity last.stages)
    (hlen : ch.length < 64) (hsize : s.pipeline_data_list_size = 0)
    (hclean : clean_args env) (hL : (line_tokens last fa ch).length ≤ 64) :
    ∃ mt1 pd1 pdl1,
      shell_cmd env (primed s (line_tokens last fa ch))
        = .ret 1 (state_at (line_tokens last fa ch) [] mt1 none pd1 pdl1 (ch.length + 1)
            s.trace s.next_pid) ∧
      (arr_take pdl1 (ch.length + 1)).map PipelineData.spec = line_model last fa ch := by
  have hl := length_line_tokens_lt last fa ch hlast
  obtain ⟨mt1, pd1, pdl1, h1, h2⟩ := line_parse env hclean last fa ch
    ((line_tokens last fa ch).length + 1) (line_tokens last fa ch).length [] s.matched_token
    s.arg_list s.pipeline_data s.pipeline_data_list 0 s.trace s.next_pid hall hlast hcap
    (by omega) hl (by omega) (by simpa using hL)
  refine ⟨mt1, pd1, pdl1, ?_, ?_⟩
  · rw [primed_eq, hsize, shell_cmd]
    have e : (state_at [] (line_tokens last fa ch) s.matched_token s.arg_list s.pipeline_data
        s.pipeline_data_list 0 s.trace s.next_pid).tokens.length = (line_tokens last fa ch).length := by
      simp [state_at]
    rw [e, shell_cmd_fuel_succ, conditional_cmd, e, h1]
    simp
  · simpa [arr_take] using h2

/-! ## The lines that `tokenize` hands to the parser -/

theorem tokenize_loop_bound (slots : Nat) (fuel : Nat) :
    ∀ (found : Option (String × List Char)) (acc toks : List String),
      tokenize_loop slots fuel found acc = .tokens toks → toks.length < slots := by
  induction fuel with
  | zero => intro found acc toks h; simp [tokenize_loop] at h
  | succ fuel ih =>
    intro found acc toks h
    cases found with
    | none =>
      simp only [tokenize_loop] at h
      split at h
      · rename_i hlt
        cases h
        exact hlt
      · cases h
    | some x =>
      obtain ⟨token, rest⟩ := x
      simp only [tokenize_loop] at h
      split at h
      · exact ih _ _ _ h
      · cases h

/-- The array that `tokenize` returns holds fewer tokens than it has elements: there are
`64 / sizeof(char *)` of them, and the last one written is the terminating `NULL`. -/
theorem tokenize_bound (ptr_size : Nat) (line : String) (toks : List String)
    (h : tokenize ptr_size line = .tokens toks) : toks.length < TOKENS_BUFSIZE / ptr_size :=
  tokenize_loop_bound _ _ _ _ _ h

theorem tokenize_le (ptr_size : Nat) (line : String) (toks : List String)
    (h : tokenize ptr_size line = .tokens toks) : toks.length ≤ 63 := by
  have h1 := tokenize_bound ptr_size line toks h
  have h2 : TOKENS_BUFSIZE / ptr_size ≤ 64 := Nat.div_le_self 64 ptr_size
  omega

theorem main_parse_tokens (env : Env) (ptr_size : Nat) (s : State) (line : String)
    (toks : List String) (h : tokenize ptr_size line = .tokens toks) :
    main_parse env ptr_size s line = shell_cmd env (primed s toks) := by
  simp [main_parse, h]

theorem main_round_tokens (env : Env) (ptr_size : Nat) (s : State) (line : String)
    (toks : List String) (h : tokenize ptr_size line = .tokens toks) :
    main_round env ptr_size s line = main_line env s toks := by
  simp [main_round, h]

theorem length_stage_le (p : List (List String)) :
    ∀ c ∈ p, c.length ≤ (pipeline_tokens p).length := by
  have hrest : ∀ (cs : List (List String)), ∀ c ∈ cs, c.length ≤ (rest_tokens cs).length := by
    intro cs
    induction cs with
    | nil => intro c hc; simp at hc
    | cons d ds ih =>
      intro c hc
      rcases List.mem_cons.mp hc with h | h
      · subst h; simp [rest_tokens]; omega
      · have := ih c h
        simp [rest_tokens]; omega
  intro c hc
  cases p with
  | nil => simp at hc
  | cons d ds =>
    rcases List.mem_cons.mp hc with h | h
    · subst h; simp [pipeline_tokens]
    · have := hrest ds c h
      simp [pipeline_tokens]; omega

/-- A pipeline whose tokens fit the array of `tokenize` fits `cmd_list` and `arg_list`. -/
theorem within_capacity_of_tokens (p : List (List String))
    (h : (pipeline_tokens p).length ≤ 63) : within_capacity p := by
  refine ⟨?_, fun c hc => le_trans (length_stage_le p c hc) h⟩
  cases p with
  | nil => simp
  | cons d ds =>
    have := length_rest_tokens ds
    simp [pipeline_tokens] at h ⊢
    omega

theorem length_stages_tokens (f : CmdForm) :
    (pipeline_tokens f.stages).length ≤ f.tokens.length := by
  cases f <;> simp [CmdForm.stages, CmdForm.tokens]

theorem length_form_le (last : CmdForm) (fa : Bool) (ch : List (CmdForm × Sep)) :
    last.tokens.length ≤ (line_tokens last fa ch).length ∧
    ∀ x ∈ ch, x.1.tokens.length ≤ (line_tokens last fa ch).length := by
  induction ch with
  | nil => simp [line_tokens]
  | cons x rest ih =>
    obtain ⟨f, o⟩ := x
    obtain ⟨h1, h2⟩ := ih
    refine ⟨by simp [line_tokens]; omega, ?_⟩
    intro y hy
    rcases List.mem_cons.mp hy with h | h
    · subst h; simp [line_tokens]
    · have := h2 y h
      simp [line_tokens]; omega

/-- The parser on a line `c1 o1 ... cn` that fits the array of `tokenize`, with clean blocks:
as `shell_cmd_line`, the capacities of the arrays of the parser being implied. -/
theorem shell_cmd_received (env : Env) (s : State) (last : CmdForm) (fa : Bool)
    (ch : List (CmdForm × Sep))
    (hall : ∀ x ∈ ch, x.1.literal) (hlast : last.literal)
    (hsize : s.pipeline_data_list_size = 0)
    (hclean : clean_args env) (hL : (line_tokens last fa ch).length ≤ 63) :
    ∃ mt1 pd1 pdl1,
      shell_cmd env (primed s (line_tokens last fa ch))
        = .ret 1 (state_at (line_tokens last fa ch) [] mt1 none pd1 pdl1 (ch.length + 1)
            s.trace s.next_pid) ∧
      (arr_take pdl1 (ch.length + 1)).map PipelineData.spec = line_model last fa ch := by
  obtain ⟨h1, h2⟩ := length_form_le last fa ch
  have hlen := length_line_tokens last fa ch
  exact shell_cmd_line env s last fa ch
    (fun x hx => ⟨hall x hx, within_capacity_of_tokens _
      (le_trans (length_stages_tokens x.1) (le_trans (h2 x hx) hL))⟩)
    hlast (within_capacity_of_tokens _ (le_trans (length_stages_tokens last) (le_trans h1 hL)))
    (by omega) hsize hclean (by omega)

/-! ## Running one pipeline -/

theorem execute_pipeline_loop_run (env : Env) (p : PipelineData)
    (hfork : ∀ pid, env.fork_ok pid = true) (m : Nat) :
    ∀ (fuel i : Nat) (s : State), i + m = p.cmd_list_size → m < fuel →
      execute_pipeline_loop env p fuel i s
        = .ret (run_result env m p.run_in_background s.next_pid)
            { s with
              next_pid := s.next_pid + m
              trace := s.trace ++ run_events ((List.range' i m).map p.cmd_list)
                p.run_in_background s.next_pid } := by
  induction m with
  | zero =>
    intro fuel i s hi hfuel
    obtain ⟨f, rfl⟩ : ∃ f, fuel = f + 1 := ⟨fuel - 1, by omega⟩
    have h : ¬ i < p.cmd_list_size := by omega
    simp [execute_pipeline_loop, h, run_result, run_events]
  | succ m ih =>
    intro fuel i s hi hfuel
    obtain ⟨f, rfl⟩ : ∃ f, fuel = f + 1 := ⟨fuel - 1, by omega⟩
    have h : i < p.cmd_list_size := by omega
    have hl : (i = p.cmd_list_size - 1) ↔ m = 0 := by omega
    simp only [execute_pipeline_loop, h, if_true, hfork, hl, decide_eq_true_eq]
    by_cases hlast : m = 0 ∧ p.run_in_background = 0
    · obtain ⟨hm, hbg⟩ := hlast
      subst hm
      simp [hbg, run_result, run_events, List.range'_succ]
    · rw [if_neg hlast, ih f (i + 1) _ (by omega) (by omega)]
      have hflag : (((List.range' (i + 1) m).map p.cmd_list).isEmpty
          && decide (p.run_in_background = 0)) = false := by
        cases m with
        | zero => simpa using hlast
        | succ k => simp [List.range'_succ]
      have hres : run_result env m p.run_in_background (s.next_pid + 1)
          = run_result env (m + 1) p.run_in_background s.next_pid := by
        unfold run_result
        by_cases hbg : p.run_in_background = 0
        · have hm : m ≠ 0 := fun e => hlast ⟨e, hbg⟩
          have e : s.next_pid + 1 + m - 1 = s.next_pid + (m + 1) - 1 := by omega
          simp [hbg, hm, e]
        · simp [hbg]
      simp only [List.range'_succ, List.map_cons, run_events, hflag, hres]
      simp [Nat.add_assoc, Nat.add_comm 1 m]

/-- What `execute_pipeline` does when every `fork` succeeds. -/
theorem execute_pipeline_run (env : Env) (p : PipelineData) (fd : Int) (s : State)
    (hfork : ∀ pid, env.fork_ok pid = true) :
    execute_pipeline env p fd s
      = .ret (run_result env p.cmd_list_size p.run_in_background s.next_pid) (after_run p s) := by
  rw [execute_pipeline, execute_pipeline_loop_run env p hfork p.cmd_list_size _ 0 s (by omega)
    (by omega)]
  simp [after_run, arr_take, List.range_eq_range']

/-! ## The parser on the lines of the grammar -/

theorem command_model_state_at (pre suf : List String) (mt : CString) (al : Argv)
    (pd : PipelineData) (pdl : Nat → PipelineData) (n : Nat) (tr : List Event) (pid : Nat) :
    command_model (state_at pre suf mt al pd pdl n tr pid)
      = (arr_take pdl n).map PipelineData.spec := rfl

theorem line_tokens_plain (chain : List (List (List String) × Sep)) (last : List (List String))
    (fa : Bool) :
    line_tokens (.plain last) fa (chain.map fun x => (CmdForm.plain x.1, x.2))
      = chain_tokens chain last fa := by
  induction chain with
  | nil => simp [line_tokens, chain_tokens, CmdForm.tokens]
  | cons x rest ih =>
    simp only [List.map_cons, line_tokens, ih]
    simp [chain_tokens, CmdForm.tokens]

theorem line_model_plain (chain : List (List (List String) × Sep)) (last : List (List String))
    (fa : Bool) :
    line_model (.plain last) fa (chain.map fun x => (CmdForm.plain x.1, x.2))
      = (chain.map fun x =>
          ({ commands := x.1.map argv_of
             input_path := none
             output_path := none
             append := 0
             chain_condition := x.2.cond
             background := x.2.background } : PipelineSpec)) ++
        [{ commands := last.map argv_of
           input_path := none
           output_path := none
           append := 0
           chain_condition := .DONT_SKIP_NEXT
           background := if fa = true then 1 else 0 }] := by
  induction chain with
  | nil =>
    simp [line_model, CmdForm.expected, CmdForm.stages, CmdForm.input, CmdForm.output,
      CmdForm.is_append]
  | cons x rest ih =>
    simp only [List.map_cons, line_model, ih]
    simp [CmdForm.expected, CmdForm.stages, CmdForm.input, CmdForm.output, CmdForm.is_append]

/-- C2, as stated, fails.  Where a pointer has 8 bytes the array of `tokenize` has 8 elements:
the line `a | b | c | d | e` has 9 tokens, which `tokenize` writes past the end of the array
before the parser is called.  And on `a | b`, in `simple_cmd` for `b`, the debug loop prints
`arg_list[2]`, a slot of the fresh block that was never written: when it holds neither `NULL`
nor a string the print is undefined. -/
theorem C2_counterexample :
    (main_parse sample_env 8 initial_state "a | b | c | d | e").is_undefined = true ∧
    (main_parse junk_env 8 initial_state "a | b").is_undefined = true :=
  ⟨by decide, by decide⟩

/-- C2, amended: a line of `k` simple commands (`1 ≤ k ≤ 64`, each a non-empty run of at most
63 tokens classified `LITERAL`) separated by single `|` tokens, which `tokenize` stores inside
its array (so it has fewer than `64 / sizeof(char *)` tokens), is accepted by `shell_cmd` when
the slots of `arg_list` that were never written hold `NULL` or strings, and the CommandModel
then holds exactly one pipeline: its commands are the `k` simple commands in order, each
argument vector being exactly the tokens of its simple command, no input path, no output path,
`append` 0, run condition `DONT_SKIP_NEXT`, not in the background. -/
theorem C2_pipe_line_model (env : Env) (ptr_size : Nat) (s : State) (line : String)
    (stages : List (List String))
    (hk1 : 1 ≤ stages.length) (hk2 : stages.length ≤ 64)
    (hst : ∀ c ∈ stages, c ≠ [] ∧ c.length ≤ 63 ∧ ∀ t ∈ c, str_to_symbol t = .LITERAL)
    (htok : tokenize ptr_size line = .tokens (pipeline_tokens stages))
    (hclean : clean_args env)
    (hsize : s.pipeline_data_list_size = 0) :
    ∃ s1, main_parse env ptr_size s line = .ret 1 s1 ∧
      command_model s1 =
        [{ commands := stages.map fun c => some (c.map some)
           input_path := none
           output_path := none
           append := 0
           chain_condition := .DONT_SKIP_NEXT
           background := 0 }] := by
  have hlit : (CmdForm.plain stages).literal :=
    ⟨fun h => by simp [h] at hk1, fun c hc => ⟨(hst c hc).1, (hst c hc).2.2⟩⟩
  have hcap : within_capacity (CmdForm.plain stages).stages :=
    ⟨hk2, fun c hc => (hst c hc).2.1⟩
  have hL := tokenize_le ptr_size line _ htok
  obtain ⟨mt1, pd1, pdl1, h1, h2⟩ := shell_cmd_line env s (.plain stages) false []
    (by simp) hlit hcap (by simp) hsize hclean
    (by simp only [line_tokens, CmdForm.tokens]; simp; omega)
  simp only [List.length_nil, Nat.zero_add] at h1 h2
  rw [main_parse_tokens env ptr_size s line _ htok]
  refine ⟨_, by simpa [line_tokens, CmdForm.tokens] using h1, ?_⟩
  rw [command_model_state_at, h2]
  simp [line_model, CmdForm.expected, CmdForm.stages, CmdForm.input, CmdForm.output,
    CmdForm.is_append, argv_of]

/-- The theorem of C2 at the line `ls -l | wc`, a pointer having 8 bytes. -/
theorem C2_pipe_line_model_witness :
    ∃ s1, main_parse sample_env 8 initial_state "ls -l | wc" = .ret 1 s1 ∧
      command_model s1 =
        [{ commands := [["ls", "-l"], ["wc"]].map fun c => some (c.map some)
           input_path := none
           output_path := none
           append := 0
           chain_condition := .DONT_SKIP_NEXT
           background := 0 }] :=
  C2_pipe_line_model sample_env 8 initial_state "ls -l | wc" [["ls", "-l"], ["wc"]]
    (by decide) (by decide) (by decide) (by decide) (fun _ _ => rfl) rfl

/-- C3, as stated, fails.  Where a pointer has 8 bytes the line `a ; b && c || d & e` has 9
tokens and five pipelines, and `tokenize` writes past the 8 elements of its array before the
parser is called.  And on `a ; b`, in `simple_cmd` for `b`, the debug loop prints
`arg_list[2]`, which was never written: when it holds neither `NULL` nor a string the print is
undefined. -/
theorem C3_counterexample :
    (main_parse sample_env 8 initial_state "a ; b && c || d & e").is_undefined = true ∧
    (main_parse junk_env 8 initial_state "a ; b").is_undefined = true :=
  ⟨by decide, by decide⟩

/-- C3, amended: for a line `c1 o1 c2 o2 ... cn` with an optional final `&`, each `ci` a
pipeline of literals and `|` and each `oi` one of `&&`, `||`, `;`, `&`, which `tokenize` stores
inside its array (fewer than `64 / sizeof(char *)` tokens, so `n ≤ 64` holds by itself), and
with the slots of `arg_list` that were never written holding `NULL` or strings, `shell_cmd`
succeeds and the CommandModel has exactly `n` pipelines in input order; the i-th has the stages
of `ci`, no redirection, the run condition `SKIP_NEXST_ON_FAILURE` behind `&&`,
`SKIP_NEXST_ON_SUCCSESS` behind `||` and `DONT_SKIP_NEXT` otherwise (the last one included),
and is in the background exactly when the token behind `ci` is `&`. -/
theorem C3_chain_line_model (env : Env) (ptr_size : Nat) (s : State) (line : String)
    (chain : List (List (List String) × Sep)) (last : List (List String)) (final_amp : Bool)
    (hchain : ∀ x ∈ chain, literal_pipeline x.1)
    (hlast : literal_pipeline last)
    (htok : tokenize ptr_size line = .tokens (chain_tokens chain last final_amp))
    (hclean : clean_args env)
    (hsize : s.pipeline_data_list_size = 0) :
    ∃ s1, main_parse env ptr_size s line = .ret 1 s1 ∧
      command_model s1 =
        (chain.map fun x =>
          ({ commands := x.1.map argv_of
             input_path := none
             output_path := none
             append := 0
             chain_condition := x.2.cond
             background := x.2.background } : PipelineSpec)) ++
        [{ commands := last.map argv_of
           input_path := none
           output_path := none
           append := 0
           chain_condition := .DONT_SKIP_NEXT
           background := if final_amp = true then 1 else 0 }] ∧
      (command_model s1).length = chain.length + 1 := by
  have hL := tokenize_le ptr_size line _ htok
  rw [← line_tokens_plain] at hL
  obtain ⟨mt1, pd1, pdl1, h1, h2⟩ := shell_cmd_received env s (.plain last) final_amp
    (chain.map fun x => (CmdForm.plain x.1, x.2))
    (by
      intro x hx
      obtain ⟨y, hy, rfl⟩ := List.mem_map.mp hx
      exact hchain y hy)
    hlast hsize hclean hL
  rw [line_tokens_plain] at h1
  rw [line_model_plain] at h2
  simp only [List.length_map] at h1 h2
  rw [main_parse_tokens env ptr_size s line _ htok]
  refine ⟨_, h1, ?_, ?_⟩
  · rw [command_model_state_at, h2]
  · rw [command_model_state_at, h2]; simp

/-- The theorem of C3 at the line `a && b ; c &`, a pointer having 8 bytes. -/
theorem C3_chain_line_model_witness :
    ∃ s1, main_parse sample_env 8 initial_state "a && b ; c &" = .ret 1 s1 ∧
      command_model s1 =
        ([([["a"]], Sep.and_then), ([["b"]], Sep.semicolon)].map fun x =>
          ({ commands := x.1.map argv_of
             input_path := none
             output_path := none
             append := 0
             chain_condition := x.2.cond
             background := x.2.background } : PipelineSpec)) ++
        [{ commands := [["c"]].map argv_of
           input_path := none
           output_path := none
           append := 0
           chain_condition := .DONT_SKIP_NEXT
           background := if true = true then 1 else 0 }] ∧
      (command_model s1).length
        = [([["a"]], Sep.and_then), ([["b"]], Sep.semicolon)].length + 1 :=
  C3_chain_line_model sample_env 8 initial_state "a && b ; c &"
    [([["a"]], Sep.and_then), ([["b"]], Sep.semicolon)] [["c"]] true (by decide)
    (by decide) (by decide) (fun _ _ => rfl) rfl

/-- C4, as stated, fails.  Where a pointer has 8 bytes the line `> out a | b | c | d` has 9
tokens, and `tokenize` writes past the 8 elements of its array before the parser is called.
And on `< in a`, in `simple_cmd` for `a`, the debug loop prints `arg_list[2]`, which was never
written: when it holds neither `NULL` nor a string the print is undefined. -/
theorem C4_counterexample :
    (main_parse sample_env 8 initial_state "> out a | b | c | d").is_undefined = true ∧
    (main_parse junk_env 8 initial_state "< in a").is_undefined = true :=
  ⟨by decide, by decide⟩

/-- C4, amended: for every pipeline `p` of literals and `|` and every redirect group `r` among
`< i`, `> o`, `>> o`, `< i > o`, `< i >> o`, `> o < i`, `>> o < i` with literal `i` and `o`,
each of the lines `r p` and `p r` that `tokenize` stores inside its array (fewer than
`64 / sizeof(char *)` tokens) is accepted, when the slots of `arg_list` that were never
written hold `NULL` or strings, and gives exactly one pipeline with the stages of `p`, whose
input path is `i` exactly when `< i` is present, whose output path is `o` exactly when an
output redirect is present, and whose `append` is 1 exactly when the output operator is
`>>`. -/
theorem C4_redirect_line_model (env : Env) (ptr_size : Nat) (s : State)
    (p : List (List String)) (r : Redirect)
    (hp : literal_pipeline p) (hr : r.literal)
    (hclean : clean_args env)
    (hsize : s.pipeline_data_list_size = 0) :
    (∀ line, tokenize ptr_size line = .tokens (r.tokens ++ pipeline_tokens p) →
      ∃ s1, main_parse env ptr_size s line = .ret 1 s1 ∧
        command_model s1 =
          [{ commands := p.map argv_of
             input_path := r.input
             output_path := r.output
             append := if r.is_append = true then 1 else 0
             chain_condition := .DONT_SKIP_NEXT
             background := 0 }]) ∧
    (∀ line, tokenize ptr_size line = .tokens (pipeline_tokens p ++ r.tokens) →
      ∃ s1, main_parse env ptr_size s line = .ret 1 s1 ∧
        command_model s1 =
          [{ commands := p.map argv_of
             input_path := r.input
             output_path := r.output
             append := if r.is_append = true then 1 else 0
             chain_condition := .DONT_SKIP_NEXT
             background := 0 }]) := by
  constructor
  · intro line htok
    have hL := tokenize_le ptr_size line _ htok
    obtain ⟨mt1, pd1, pdl1, h1, h2⟩ := shell_cmd_received env s (.redirect_first r p) false []
      (by simp) ⟨hr, hp⟩ hsize hclean (by simpa [line_tokens, CmdForm.tokens] using hL)
    simp only [List.length_nil, Nat.zero_add] at h1 h2
    rw [main_parse_tokens env ptr_size s line _ htok]
    refine ⟨_, by simpa [line_tokens, CmdForm.tokens] using h1, ?_⟩
    rw [command_model_state_at, h2]
    simp [line_model, CmdForm.expected, CmdForm.stages, CmdForm.input, CmdForm.output,
      CmdForm.is_append]
  · intro line htok
    have hL := tokenize_le ptr_size line _ htok
    obtain ⟨mt1, pd1, pdl1, h1, h2⟩ := shell_cmd_received env s (.redirect_last p r) false []
      (by simp) ⟨hp, hr⟩ hsize hclean (by simpa [line_tokens, CmdForm.tokens] using hL)
    simp only [List.length_nil, Nat.zero_add] at h1 h2
    rw [main_parse_tokens env ptr_size s line _ htok]
    refine ⟨_, by simpa [line_tokens, CmdForm.tokens] using h1, ?_⟩
    rw [command_model_state_at, h2]
    simp [line_model, CmdForm.expected, CmdForm.stages, CmdForm.input, CmdForm.output,
      CmdForm.is_append]

/-- The theorem of C4 at the pipeline `sort | uniq` and the group `< in >> out`, a pointer
having 8 bytes. -/
theorem C4_redirect_line_model_witness :
    (∃ s1, main_parse sample_env 8 initial_state "< in >> out sort | uniq" = .ret 1 s1 ∧
      command_model s1 =
        [{ commands := [["sort"], ["uniq"]].map argv_of
           input_path := (Redirect.inp_app "in" "out").input
           output_path := (Redirect.inp_app "in" "out").output
           append := if (Redirect.inp_app "in" "out").is_append = true then 1 else 0
           chain_condition := .DONT_SKIP_NEXT
           background := 0 }]) ∧
    (∃ s1, main_parse sample_env 8 initial_state "sort | uniq < in >> out" = .ret 1 s1 ∧
      command_model s1 =
        [{ commands := [["sort"], ["uniq"]].map argv_of
           input_path := (Redirect.inp_app "in" "out").input
           output_path := (Redirect.inp_app "in" "out").output
           append := if (Redirect.inp_app "in" "out").is_append = true then 1 else 0
           chain_condition := .DONT_SKIP_NEXT
           background := 0 }]) :=
  ⟨(C4_redirect_line_model sample_env 8 initial_state [["sort"], ["uniq"]]
      (Redirect.inp_app "in" "out") (by decide) (by decide) (fun _ _ => rfl) rfl).1
      "< in >> out sort | uniq" (by decide),
    (C4_redirect_line_model sample_env 8 initial_state [["sort"], ["uniq"]]
      (Redirect.inp_app "in" "out") (by decide) (by decide) (fun _ _ => rfl) rfl).2
      "sort | uniq < in >> out" (by decide)⟩

/-! ## The calls made for one pipeline -/

theorem forked_run_events (cs : List Argv) :
    ∀ (bg pid : Nat), (forked (run_events cs bg pid)).map Prod.snd = cs ∧
      (forked (run_events cs bg pid)).map Prod.fst = List.range' pid cs.length := by
  induction cs with
  | nil => intro bg pid; simp [run_events, forked]
  | cons c cs ih =>
    intro bg pid
    obtain ⟨h1, h2⟩ := ih bg (pid + 1)
    cases hb : (cs.isEmpty && decide (bg = 0)) <;>
      simp [run_events, forked, hb, h1, h2, List.range'_succ]

theorem blocking_waits_run_events (cs : List Argv) :
    ∀ (pid : Nat), blocking_waits (run_events cs 0 pid)
      = if cs = [] then [] else [pid + cs.length - 1] := by
  induction cs with
  | nil => intro pid; simp [run_events, blocking_waits]
  | cons c cs ih =>
    intro pid
    cases cs with
    | nil => simp [run_events, blocking_waits]
    | cons d ds =>
      have h := ih (pid + 1)
      simp only [reduceCtorEq, if_false] at h
      simp only [run_events, List.isEmpty_cons, Bool.false_and, blocking_waits] at h ⊢
      rw [h]
      simp
      omega

theorem dispatches_run_events (cs : List Argv) :
    ∀ (bg pid : Nat), dispatches (run_events cs bg pid) = [] := by
  induction cs with
  | nil => intro bg pid; simp [run_events, dispatches]
  | cons c cs ih => intro bg pid; simp [run_events, dispatches, ih]

theorem dispatches_append (a b : List Event) :
    dispatches (a ++ b) = dispatches a ++ dispatches b := by
  induction a with
  | nil => simp [dispatches]
  | cons e rest ih => cases e <;> simp [dispatches, ih]

theorem length_arr_take {α : Type} (a : Nat → α) (n : Nat) : (arr_take a n).length = n := by
  simp [arr_take]

/-- C10: for a pipeline that is not in the background and has `n ≥ 1` stages, every `fork`
succeeding, `execute_pipeline` returns; it creates exactly `n` children, one per stage and in
stage order, each running the command of its stage; the only blocking `waitpid` is the one for
the last child; the value returned is 1 if the status of the last child is 0 and 0 otherwise;
the statuses of the other children do not matter: an environment that agrees on the status of
the last child gives the same value. -/
theorem C10_foreground_pipeline (env : Env) (p : PipelineData) (fd : Int) (s : State)
    (hbg : p.run_in_background = 0) (hn : 1 ≤ p.cmd_list_size)
    (hfork : ∀ pid, env.fork_ok pid = true) :
    ∃ s1 evs,
      execute_pipeline env p fd s
        = .ret (if env.wait_status (s.next_pid + p.cmd_list_size - 1) = 0 then 1 else 0) s1 ∧
      s1.trace = s.trace ++ evs ∧
      (forked evs).map Prod.snd = arr_take p.cmd_list p.cmd_list_size ∧
      (forked evs).map Prod.fst = List.range' s.next_pid p.cmd_list_size ∧
      (forked evs).length = p.cmd_list_size ∧
      blocking_waits evs = [s.next_pid + p.cmd_list_size - 1] ∧
      ∀ env2 : Env, (∀ pid, env2.fork_ok pid = true) →
        env2.wait_status (s.next_pid + p.cmd_list_size - 1)
          = env.wait_status (s.next_pid + p.cmd_list_size - 1) →
        (execute_pipeline env2 p fd s).value = (execute_pipeline env p fd s).value := by
  have hne : p.cmd_list_size ≠ 0 := by omega
  have hres : ∀ e : Env, run_result e p.cmd_list_size p.run_in_background s.next_pid
      = if e.wait_status (s.next_pid + p.cmd_list_size - 1) = 0 then 1 else 0 := by
    intro e; simp [run_result, hne, hbg]
  obtain ⟨h1, h2⟩ := forked_run_events (arr_take p.cmd_list p.cmd_list_size) 0 s.next_pid
  have h3 := blocking_waits_run_events (arr_take p.cmd_list p.cmd_list_size) s.next_pid
  have hnil : arr_take p.cmd_list p.cmd_list_size ≠ [] := by
    intro h
    have := length_arr_take p.cmd_list p.cmd_list_size
    rw [h] at this
    simp at this
    omega
  rw [length_arr_take] at h2
  rw [if_neg hnil, length_arr_take] at h3
  refine ⟨after_run p s, run_events (arr_take p.cmd_list p.cmd_list_size) 0 s.next_pid,
    ?_, ?_, h1, h2, ?_, h3, ?_⟩
  · rw [execute_pipeline_run env p fd s hfork, hres]
  · simp [after_run, hbg]
  · have := congrArg List.length h1
    simpa [length_arr_take] using this
  · intro env2 hfork2 hst
    rw [execute_pipeline_run env p fd s hfork, execute_pipeline_run env2 p fd s hfork2,
      hres, hres, hst]

/-- The theorem of C10 at the record of the pipeline `ls | wc`. -/
theorem C10_foreground_pipeline_witness :
    ∃ s1 evs,
      execute_pipeline sample_env sample_pipeline (-1) initial_state
        = .ret (if sample_env.wait_status
            (initial_state.next_pid + sample_pipeline.cmd_list_size - 1) = 0 then 1 else 0) s1 ∧
      s1.trace = initial_state.trace ++ evs ∧
      (forked evs).map Prod.snd = arr_take sample_pipeline.cmd_list sample_pipeline.cmd_list_size ∧
      (forked evs).map Prod.fst
        = List.range' initial_state.next_pid sample_pipeline.cmd_list_size ∧
      (forked evs).length = sample_pipeline.cmd_list_size ∧
      blocking_waits evs = [initial_state.next_pid + sample_pipeline.cmd_list_size - 1] ∧
      ∀ env2 : Env, (∀ pid, env2.fork_ok pid = true) →
        env2.wait_status (initial_state.next_pid + sample_pipeline.cmd_list_size - 1)
          = sample_env.wait_status
              (initial_state.next_pid + sample_pipeline.cmd_list_size - 1) →
        (execute_pipeline env2 sample_pipeline (-1) initial_state).value
          = (execute_pipeline sample_env sample_pipeline (-1) initial_state).value :=
  C10_foreground_pipeline sample_env sample_pipeline (-1) initial_state rfl (by decide)
    (fun _ => rfl)

/-! ## The loop of `execute_pipelines` -/

theorem execute_pipelines_loop_step (env : Env) (hfork : ∀ pid, env.fork_ok pid = true)
    (fuel i : Nat) (s : State) (hi : i < s.pipeline_data_list_size) :
    execute_pipelines_loop env (fuel + 1) i s
      = execute_pipelines_loop env fuel
          (next_index (s.pipeline_data_list i).run_condition
            (run_result env (s.pipeline_data_list i).cmd_list_size
              (s.pipeline_data_list i).run_in_background s.next_pid) i)
          (after_dispatch env i s) := by
  simp only [execute_pipelines_loop, hi, if_true, execute_pipeline_run env _ _ s hfork, bind_ret]
  rfl

theorem execute_pipelines_loop_done (env : Env) (fuel i : Nat) (s : State)
    (hi : ¬ i < s.pipeline_data_list_size) :
    execute_pipelines_loop env (fuel + 1) i s = .ret 0 s := by
  simp [execute_pipelines_loop, hi]

theorem next_index_eq (c : RunCondition) (r i : Nat) :
    next_index c r i = if skip_trigger c r then i + 2 else i + 1 := by
  cases c <;> by_cases h : r = 0 <;> simp [next_index, skip_trigger, h]

theorem dispatch_ok_nil (n : Nat) (cond : Nat → RunCondition) (i : Nat) (hi : ¬ i < n) :
    dispatch_ok n cond i [] := by
  refine ⟨by simp, by simp, fun h => absurd h hi, ?_⟩
  intro j hj hj1
  omega

theorem dispatch_ok_cons (n : Nat) (cond : Nat → RunCondition) (i r k : Nat)
    (l : List (Nat × Nat)) (hi : i < n)
    (hk : k = if skip_trigger (cond i) r then i + 2 else i + 1)
    (hl : dispatch_ok n cond k l) : dispatch_ok n cond i ((i, r) :: l) := by
  obtain ⟨h1, h2, h3, h4⟩ := hl
  have hki : i < k := by rw [hk]; split <;> omega
  have hidx : ∀ a ∈ l.map Prod.fst, k ≤ a := by
    intro a ha
    obtain ⟨x, hx, rfl⟩ := List.mem_map.mp ha
    exact (h2 x hx).1
  have hnot : ∀ a, a < k → a ∉ l.map Prod.fst := fun a ha hmem => by
    have := hidx a hmem
    omega
  have hpair : ∀ a r1, a < k → (a, r1) ∉ l := fun a r1 ha hmem =>
    hnot a ha (List.mem_map.mpr ⟨(a, r1), hmem, rfl⟩)
  refine ⟨?_, ?_, ?_, ?_⟩
  · simp only [List.map_cons, List.pairwise_cons]
    exact ⟨fun a ha => by have := hidx a ha; omega, h1⟩
  · intro x hx
    rcases List.mem_cons.mp hx with rfl | hx
    · exact ⟨Nat.le_refl _, hi⟩
    · have := h2 x hx
      omega
  · intro _; simp
  · intro j hj hj1
    have hmem : j + 1 ∈ ((i, r) :: l).map Prod.fst ↔ j + 1 ∈ l.map Prod.fst := by
      simp only [List.map_cons, List.mem_cons]
      constructor
      · rintro (h | h)
        · omega
        · exact h
      · exact fun h => Or.inr h
    rw [hmem]
    by_cases hji : j = i
    · subst hji
      by_cases ht : skip_trigger (cond j) r
      · rw [if_pos ht] at hk
        constructor
        · intro _; exact ⟨r, by simp, ht⟩
        · intro _; exact hnot _ (by omega)
      · rw [if_neg ht] at hk
        constructor
        · intro hno
          exact absurd (hk ▸ h3 (by omega)) hno
        · rintro ⟨r1, hr1, ht1⟩
          rcases List.mem_cons.mp hr1 with heq | hin
          · have : r1 = r := by simpa using heq
            exact absurd (this ▸ ht1) ht
          · exact absurd hin (hpair _ _ (by omega))
    · have hgt : i < j := by omega
      have hex : (∃ r1, (j, r1) ∈ (i, r) :: l ∧ skip_trigger (cond j) r1) ↔
          ∃ r1, (j, r1) ∈ l ∧ skip_trigger (cond j) r1 := by
        constructor
        · rintro ⟨r1, hr1, ht1⟩
          rcases List.mem_cons.mp hr1 with heq | hin
          · have : j = i := by simpa using congrArg Prod.fst heq
            omega
          · exact ⟨r1, hin, ht1⟩
        · rintro ⟨r1, hr1, ht1⟩
          exact ⟨r1, List.mem_cons_of_mem _ hr1, ht1⟩
      rw [hex]
      by_cases hkj : k ≤ j
      · exact h4 j hkj hj1
      · have hk2 : k = i + 2 ∧ j = i + 1 := by
          rw [hk] at hkj hki ⊢; split at hkj <;> split <;> omega
        obtain ⟨hk2, hj2⟩ := hk2
        constructor
        · intro hno
          have hkk : j + 1 = k := by omega
          rw [hkk] at hno
          exact absurd (h3 (by omega)) hno
        · rintro ⟨r1, hr1, _⟩
          exact absurd hr1 (hpair _ _ (by omega))

theorem after_dispatch_frame (env : Env) (i : Nat) (s : State) :
    (after_dispatch env i s).pipeline_data_list = s.pipeline_data_list ∧
    (after_dispatch env i s).pipeline_data_list_size = s.pipeline_data_list_size ∧
    (after_dispatch env i s).trace = s.trace ++
      (run_events (arr_take (s.pipeline_data_list i).cmd_list
          (s.pipeline_data_list i).cmd_list_size) (s.pipeline_data_list i).run_in_background
          s.next_pid ++
        [Event.pipeline i (run_result env (s.pipeline_data_list i).cmd_list_size
          (s.pipeline_data_list i).run_in_background s.next_pid)]) := by
  simp [after_dispatch, after_run]

/-- The loop of `execute_pipelines` from index `i` on returns, leaves the list as it is, and
its calls obey the invariant `dispatch_ok`. -/
theorem execute_pipelines_loop_ok (env : Env) (hfork : ∀ pid, env.fork_ok pid = true)
    (fuel : Nat) :
    ∀ (i : Nat) (s : State), s.pipeline_data_list_size - i < fuel →
      ∃ s1 evs, execute_pipelines_loop env fuel i s = .ret 0 s1 ∧
        s1.trace = s.trace ++ evs ∧
        dispatch_ok s.pipeline_data_list_size
          (fun j => (s.pipeline_data_list j).run_condition) i (dispatches evs) := by
  induction fuel with
  | zero =>
    intro i s h
    exact absurd h (by omega)
  | succ fuel ih =>
    intro i s h
    by_cases hi : i < s.pipeline_data_list_size
    · obtain ⟨hf1, hf2, hf3⟩ := after_dispatch_frame env i s
      have hk := next_index_eq (s.pipeline_data_list i).run_condition
        (run_result env (s.pipeline_data_list i).cmd_list_size
          (s.pipeline_data_list i).run_in_background s.next_pid) i
      obtain ⟨s1, evs, h1, h2, h3⟩ := ih
        (next_index (s.pipeline_data_list i).run_condition
          (run_result env (s.pipeline_data_list i).cmd_list_size
            (s.pipeline_data_list i).run_in_background s.next_pid) i)
        (after_dispatch env i s) (by rw [hf2, hk]; split <;> omega)
      rw [hf1, hf2] at h3
      refine ⟨s1, (run_events (arr_take (s.pipeline_data_list i).cmd_list
          (s.pipeline_data_list i).cmd_list_size) (s.pipeline_data_list i).run_in_background
          s.next_pid ++
        [Event.pipeline i (run_result env (s.pipeline_data_list i).cmd_list_size
          (s.pipeline_data_list i).run_in_background s.next_pid)]) ++ evs, ?_, ?_, ?_⟩
      · rw [execute_pipelines_loop_step env hfork fuel i s hi, h1]
      · rw [h2, hf3, List.append_assoc]
      · rw [dispatches_append, dispatches_append, dispatches_run_events]
        exact dispatch_ok_cons _ _ i _ _ _ hi hk h3
    · refine ⟨s, [], execute_pipelines_loop_done env fuel i s hi, by simp, ?_⟩
      exact dispatch_ok_nil _ _ i hi

/-- C5: every `fork` succeeding, `execute_pipelines` returns, and the calls of
`execute_pipeline` it makes have strictly increasing indices below the size of the list (so
each pipeline is run at most once, in order); pipeline 0 is run whenever the list is not
empty; pipeline `i + 1` is left out exactly when pipeline `i` was run and either its run
condition is `SKIP_NEXST_ON_FAILURE` and its result 0, or its run condition is
`SKIP_NEXST_ON_SUCCSESS` and its result not 0; no two adjacent pipelines are left out. -/
theorem C5_dispatch_order (env : Env) (s : State) (hfork : ∀ pid, env.fork_ok pid = true) :
    ∃ s1 evs, execute_pipelines env s = .ret 0 s1 ∧ s1.trace = s.trace ++ evs ∧
      ((dispatches evs).map Prod.fst).Pairwise (fun a b => a < b) ∧
      (∀ x ∈ dispatches evs, x.1 < s.pipeline_data_list_size) ∧
      (0 < s.pipeline_data_list_size → 0 ∈ (dispatches evs).map Prod.fst) ∧
      (∀ i, i + 1 < s.pipeline_data_list_size →
        (i + 1 ∉ (dispatches evs).map Prod.fst ↔
          ∃ r, (i, r) ∈ dispatches evs ∧
            skip_trigger (s.pipeline_data_list i).run_condition r)) ∧
      (∀ i, i + 2 < s.pipeline_data_list_size →
        i + 1 ∉ (dispatches evs).map Prod.fst → i + 2 ∈ (dispatches evs).map Prod.fst) := by
  obtain ⟨s1, evs, h1, h2, h3, h4, h5, h6⟩ :=
    execute_pipelines_loop_ok env hfork (s.pipeline_data_list_size + 1) 0 s (by omega)
  refine ⟨s1, evs, h1, h2, h3, fun x hx => (h4 x hx).2, h5, fun i hi => h6 i (Nat.zero_le _) hi,
    ?_⟩
  intro i hi hno
  by_contra hno2
  obtain ⟨r, hr, _⟩ := (h6 (i + 1) (Nat.zero_le _) hi).mp hno2
  exact hno (List.mem_map.mpr ⟨(i + 1, r), hr, rfl⟩)

/-- The theorem of C5 at the CommandModel of `a && b && c`, every child failing. -/
theorem C5_dispatch_order_witness :
    ∃ s1 evs, execute_pipelines failing_env (parsed failing_env ["a", "&&", "b", "&&", "c"])
        = .ret 0 s1 ∧
      s1.trace = (parsed failing_env ["a", "&&", "b", "&&", "c"]).trace ++ evs ∧
      ((dispatches evs).map Prod.fst).Pairwise (fun a b => a < b) ∧
      (∀ x ∈ dispatches evs,
        x.1 < (parsed failing_env ["a", "&&", "b", "&&", "c"]).pipeline_data_list_size) ∧
      (0 < (parsed failing_env ["a", "&&", "b", "&&", "c"]).pipeline_data_list_size →
        0 ∈ (dispatches evs).map Prod.fst) ∧
      (∀ i, i + 1 < (parsed failing_env ["a", "&&", "b", "&&", "c"]).pipeline_data_list_size →
        (i + 1 ∉ (dispatches evs).map Prod.fst ↔
          ∃ r, (i, r) ∈ dispatches evs ∧
            skip_trigger
              ((parsed failing_env ["a", "&&", "b", "&&", "c"]).pipeline_data_list i).run_condition
              r)) ∧
      (∀ i, i + 2 < (parsed failing_env ["a", "&&", "b", "&&", "c"]).pipeline_data_list_size →
        i + 1 ∉ (dispatches evs).map Prod.fst → i + 2 ∈ (dispatches evs).map Prod.fst) :=
  C5_dispatch_order failing_env (parsed failing_env ["a", "&&", "b", "&&", "c"]) (fun _ => rfl)

/-- The example of C5: in `a && b && c` with `a` failing, `a` and `c` are run and `b` is not,
although `c` stands behind the `&&` of `b`. -/
theorem dispatch_example :
    forked (main_line failing_env initial_state ["a", "&&", "b", "&&", "c"]).trace
      = [(0, argv_of ["a"]), (1, argv_of ["c"])] ∧
    dispatches (main_line failing_env initial_state ["a", "&&", "b", "&&", "c"]).trace
      = [(0, 0), (2, 0)] := by
  decide

/-! ## A line of two pipelines joined by `&&` or `||` -/

theorem spec_fields (p : PipelineData) (f : CmdForm) (c : RunCondition) (b : Nat)
    (h : p.spec = f.expected c b) :
    p.cmd_list_size = f.stages.length ∧
    arr_take p.cmd_list p.cmd_list_size = f.stages.map argv_of ∧
    p.run_condition = c ∧ p.run_in_background = b := by
  simp only [PipelineData.spec, CmdForm.expected, PipelineSpec.mk.injEq] at h
  obtain ⟨h1, _, _, _, h5, h6⟩ := h
  have hl := congrArg List.length h1
  rw [length_arr_take, List.length_map] at hl
  exact ⟨hl, h1, h5, h6⟩

/-- What `execute_pipelines` does on a list of two pipelines, every `fork` succeeding. -/
theorem pair_run (env : Env) (hfork : ∀ pid, env.fork_ok pid = true) (s1 : State)
    (hsz : s1.pipeline_data_list_size = 2) :
    ∃ s2, execute_pipelines env s1 = .ret 0 s2 ∧
      s2.trace = s1.trace ++
        (run_events (arr_take (s1.pipeline_data_list 0).cmd_list
            (s1.pipeline_data_list 0).cmd_list_size) (s1.pipeline_data_list 0).run_in_background
            s1.next_pid ++
          [Event.pipeline 0 (run_result env (s1.pipeline_data_list 0).cmd_list_size
            (s1.pipeline_data_list 0).run_in_background s1.next_pid)]) ++
        (if skip_trigger (s1.pipeline_data_list 0).run_condition
            (run_result env (s1.pipeline_data_list 0).cmd_list_size
              (s1.pipeline_data_list 0).run_in_background s1.next_pid) then []
        else
          run_events (arr_take (s1.pipeline_data_list 1).cmd_list
            (s1.pipeline_data_list 1).cmd_list_size) (s1.pipeline_data_list 1).run_in_background
            (s1.next_pid + (s1.pipeline_data_list 0).cmd_list_size) ++
          [Event.pipeline 1 (run_result env (s1.pipeline_data_list 1).cmd_list_size
            (s1.pipeline_data_list 1).run_in_background
            (s1.next_pid + (s1.pipeline_data_list 0).cmd_list_size))]) := by
  obtain ⟨hf1, hf2, hf3⟩ := after_dispatch_frame env 0 s1
  have hpid : (after_dispatch env 0 s1).next_pid
      = s1.next_pid + (s1.pipeline_data_list 0).cmd_list_size := rfl
  rw [execute_pipelines, hsz, execute_pipelines_loop_step env hfork 2 0 s1 (by omega),
    next_index_eq]
  by_cases ht : skip_trigger (s1.pipeline_data_list 0).run_condition
      (run_result env (s1.pipeline_data_list 0).cmd_list_size
        (s1.pipeline_data_list 0).run_in_background s1.next_pid)
  · rw [if_pos ht, if_pos ht,
      execute_pipelines_loop_done env 1 (0 + 2) _ (by rw [hf2, hsz]; omega)]
    exact ⟨_, rfl, by rw [hf3]; simp⟩
  · obtain ⟨hg1, hg2, hg3⟩ := after_dispatch_frame env 1 (after_dispatch env 0 s1)
    rw [if_neg ht, if_neg ht,
      execute_pipelines_loop_step env hfork 1 (0 + 1) _ (by rw [hf2, hsz]; omega),
      execute_pipelines_loop_done env 0 _ _ (by
        rw [hg2, hf2, hsz, next_index_eq]; split <;> omega)]
    refine ⟨_, rfl, ?_⟩
    simp only [Nat.zero_add] at hg3 ⊢
    rw [hg3, hf3, hf1, hpid]

/-- Parsing and running `A o B`: `A` is run first, and `B` is run exactly when the result of
`A` does not trigger the run condition that `o` gives to `A`. -/
theorem pair_line (env : Env) (s : State) (a b : List (List String)) (o : Sep)
    (ha : literal_pipeline a) (hb : literal_pipeline b)
    (hfork : ∀ pid, env.fork_ok pid = true) (hsize : s.pipeline_data_list_size = 0)
    (hclean : clean_args env)
    (hL : (pipeline_tokens a ++ o.token :: pipeline_tokens b).length ≤ 63) :
    ∃ s2, main_line env s (pipeline_tokens a ++ o.token :: pipeline_tokens b) = .ret 1 s2 ∧
      s2.trace = s.trace ++
        (run_events (a.map argv_of) o.background s.next_pid ++
          [Event.pipeline 0 (run_result env a.length o.background s.next_pid)]) ++
        (if skip_trigger o.cond (run_result env a.length o.background s.next_pid) then []
        else
          run_events (b.map argv_of) 0 (s.next_pid + a.length) ++
          [Event.pipeline 1 (run_result env b.length 0 (s.next_pid + a.length))]) := by
  obtain ⟨mt1, pd1, pdl1, h1, h2⟩ := shell_cmd_received env s (.plain b) false [(.plain a, o)]
    (by intro x hx; simp at hx; subst hx; exact ha) hb hsize hclean
    (by simpa [line_tokens, CmdForm.tokens] using hL)
  simp only [List.length_singleton, line_tokens, CmdForm.tokens, Bool.false_eq_true, if_false,
    List.append_nil] at h1
  have h3 : (pdl1 0).spec = (CmdForm.plain a).expected o.cond o.background ∧
      (pdl1 1).spec = (CmdForm.plain b).expected .DONT_SKIP_NEXT 0 := by
    simpa [arr_take, List.range_succ, line_model] using h2
  obtain ⟨ha1, ha2, ha3, ha4⟩ := spec_fields _ _ _ _ h3.1
  obtain ⟨hb1, hb2, hb3, hb4⟩ := spec_fields _ _ _ _ h3.2
  obtain ⟨s2, hr, ht⟩ := pair_run env hfork
    (state_at (pipeline_tokens a ++ o.token :: pipeline_tokens b) [] mt1 none pd1 pdl1 (1 + 1)
      s.trace s.next_pid) rfl
  refine ⟨clear_all s2, ?_, ?_⟩
  · rw [main_line, h1]
    simp [bind_ret, hr]
  · have e0 : (state_at (pipeline_tokens a ++ o.token :: pipeline_tokens b) [] mt1 none pd1 pdl1
        (1 + 1) s.trace s.next_pid).pipeline_data_list = pdl1 := rfl
    have e1 : (state_at (pipeline_tokens a ++ o.token :: pipeline_tokens b) [] mt1 none pd1 pdl1
        (1 + 1) s.trace s.next_pid).next_pid = s.next_pid := rfl
    have e2 : (state_at (pipeline_tokens a ++ o.token :: pipeline_tokens b) [] mt1 none pd1 pdl1
        (1 + 1) s.trace s.next_pid).trace = s.trace := rfl
    rw [e0, e1, e2, ha2, hb2, ha1, ha3, ha4, hb1, hb4] at ht
    simp only [CmdForm.stages] at ht
    have e3 : (clear_all s2).trace = s2.trace := rfl
    rw [e3, ht]

theorem run_result_foreground (env : Env) (n pid : Nat) (hn : n ≠ 0) :
    run_result env n 0 pid = if env.wait_status (pid + n - 1) = 0 then 1 else 0 := by
  simp [run_result, hn]

theorem length_ne_zero_of_literal (p : List (List String)) (hp : literal_pipeline p) :
    p.length ≠ 0 := by
  intro h
  exact hp.1 (List.length_eq_zero.mp h)

/-- C1, as stated, fails.  Where a pointer has 8 bytes the line `a | b | c | d && e` has 9
tokens, and `tokenize` writes past the 8 elements of its array before anything is parsed or
run.  And on `a && b`, in `simple_cmd` for `b`, the debug loop prints `arg_list[2]`, which was
never written: when it holds neither `NULL` nor a string the print is undefined, and nothing
is run. -/
theorem C1_counterexample :
    (main_round sample_env 8 initial_state "a | b | c | d && e").is_undefined = true ∧
    (main_round junk_env 8 initial_state "a && b").is_undefined = true :=
  ⟨by decide, by decide⟩

/-- C1, amended: for pipelines `A` and `B` of literals and `|`, a line `A && B` or `A || B`
that `tokenize` stores inside its array (fewer than `64 / sizeof(char *)` tokens), the slots
of `arg_list` that were never written holding `NULL` or strings and every `fork` succeeding,
is parsed with success and run: the stages of `A` are started first and the status of its last
child decides its result; for `A && B` the stages of `B` are started exactly when that status
is 0, for `A || B` exactly when it is not 0; nothing else is started. -/
theorem C1_conditional_pair (env : Env) (ptr_size : Nat) (s : State) (a b : List (List String))
    (ha : literal_pipeline a) (hb : literal_pipeline b)
    (hfork : ∀ pid, env.fork_ok pid = true) (hclean : clean_args env)
    (hsize : s.pipeline_data_list_size = 0) :
    (∀ line, tokenize ptr_size line = .tokens (pipeline_tokens a ++ "&&" :: pipeline_tokens b) →
      ∃ s2, main_round env ptr_size s line = .ret 1 s2 ∧
        s2.trace = s.trace ++
          (run_events (a.map argv_of) 0 s.next_pid ++
            [Event.pipeline 0
              (if env.wait_status (s.next_pid + a.length - 1) = 0 then 1 else 0)]) ++
          (if env.wait_status (s.next_pid + a.length - 1) = 0 then
            run_events (b.map argv_of) 0 (s.next_pid + a.length) ++
            [Event.pipeline 1
              (if env.wait_status (s.next_pid + a.length + b.length - 1) = 0 then 1 else 0)]
          else [])) ∧
    (∀ line, tokenize ptr_size line = .tokens (pipeline_tokens a ++ "||" :: pipeline_tokens b) →
      ∃ s2, main_round env ptr_size s line = .ret 1 s2 ∧
        s2.trace = s.trace ++
          (run_events (a.map argv_of) 0 s.next_pid ++
            [Event.pipeline 0
              (if env.wait_status (s.next_pid + a.length - 1) = 0 then 1 else 0)]) ++
          (if env.wait_status (s.next_pid + a.length - 1) = 0 then []
          else
            run_events (b.map argv_of) 0 (s.next_pid + a.length) ++
            [Event.pipeline 1
              (if env.wait_status (s.next_pid + a.length + b.length - 1) = 0
                then 1 else 0)])) := by
  have hna := length_ne_zero_of_literal a ha
  have hnb := length_ne_zero_of_literal b hb
  have hra := run_result_foreground env a.length s.next_pid hna
  have hrb := run_result_foreground env b.length (s.next_pid + a.length) hnb
  constructor
  · intro line htok
    obtain ⟨s2, h1, h2⟩ := pair_line env s a b .and_then ha hb hfork hsize hclean
      (tokenize_le ptr_size line _ htok)
    rw [main_round_tokens env ptr_size s line _ htok]
    refine ⟨s2, h1, ?_⟩
    simp only [Sep.background, Sep.cond, hra, hrb] at h2
    rw [h2]
    by_cases hst : env.wait_status (s.next_pid + a.length - 1) = 0
    · simp [hst, skip_trigger]
    · simp [hst, skip_trigger]
  · intro line htok
    obtain ⟨s2, h1, h2⟩ := pair_line env s a b .or_else ha hb hfork hsize hclean
      (tokenize_le ptr_size line _ htok)
    rw [main_round_tokens env ptr_size s line _ htok]
    refine ⟨s2, h1, ?_⟩
    simp only [Sep.background, Sep.cond, hra, hrb] at h2
    rw [h2]
    by_cases hst : env.wait_status (s.next_pid + a.length - 1) = 0
    · simp [hst, skip_trigger]
    · simp [hst, skip_trigger]

/-- The theorem of C1 at `make | tee log` and `echo done`, a pointer having 8 bytes. -/
theorem C1_conditional_pair_witness :
    (∃ s2, main_round sample_env 8 initial_state "make | tee log && echo done" = .ret 1 s2 ∧
      s2.trace = initial_state.trace ++
        (run_events ([["make"], ["tee", "log"]].map argv_of) 0 initial_state.next_pid ++
          [Event.pipeline 0
            (if sample_env.wait_status
              (initial_state.next_pid + [["make"], ["tee", "log"]].length - 1) = 0
            then 1 else 0)]) ++
        (if sample_env.wait_status
            (initial_state.next_pid + [["make"], ["tee", "log"]].length - 1) = 0 then
          run_events ([["echo", "done"]].map argv_of) 0
            (initial_state.next_pid + [["make"], ["tee", "log"]].length) ++
          [Event.pipeline 1
            (if sample_env.wait_status
              (initial_state.next_pid + [["make"], ["tee", "log"]].length
                + [["echo", "done"]].length - 1) = 0
            then 1 else 0)]
        else [])) ∧
    (∃ s2, main_round sample_env 8 initial_state "make | tee log || echo done" = .ret 1 s2 ∧
      s2.trace = initial_state.trace ++
        (run_events ([["make"], ["tee", "log"]].map argv_of) 0 initial_state.next_pid ++
          [Event.pipeline 0
            (if sample_env.wait_status
              (initial_state.next_pid + [["make"], ["tee", "log"]].length - 1) = 0
            then 1 else 0)]) ++
        (if sample_env.wait_status
            (initial_state.next_pid + [["make"], ["tee", "log"]].length - 1) = 0 then []
        else
          run_events ([["echo", "done"]].map argv_of) 0
            (initial_state.next_pid + [["make"], ["tee", "log"]].length) ++
          [Event.pipeline 1
            (if sample_env.wait_status
              (initial_state.next_pid + [["make"], ["tee", "log"]].length
                + [["echo", "done"]].length - 1) = 0
            then 1 else 0)])) :=
  ⟨(C1_conditional_pair sample_env 8 initial_state [["make"], ["tee", "log"]]
      [["echo", "done"]] (by decide) (by decide) (fun _ => rfl) (fun _ _ => rfl) rfl).1
      "make | tee log && echo done" (by decide),
    (C1_conditional_pair sample_env 8 initial_state [["make"], ["tee", "log"]]
      [["echo", "done"]] (by decide) (by decide) (fun _ => rfl) (fun _ _ => rfl) rfl).2
      "make | tee log || echo done" (by decide)⟩

/-! ## An invariant of the parser on arbitrary lines -/

theorem all_bind {α β : Type} (P : State → Prop) (r : Res α) (f : α → State → Res β)
    (hr : r.all P) (hf : ∀ a s, P s → (f a s).all P) : (r.bind f).all P := by
  cases r with
  | ret a s => exact hf a s hr
  | synerr e g s => exact hr
  | forkerr s => exact hr
  | undefined => trivial
  | out_of_fuel => trivial

theorem str_to_symbol_ne_epsilon (t : String) : str_to_symbol t ≠ .EPSILON := by
  unfold str_to_symbol
  repeat' split
  all_goals decide

theorem str_to_symbol_eq_lt_brace (t : String) (h : str_to_symbol t = .LT_BRACE) : t = "(" := by
  unfold str_to_symbol at h
  repeat' split at h
  all_goals first | assumption | exact absurd h (by decide)

theorem str_to_symbol_eq_semicolon (t : String) (h : str_to_symbol t = .SEMICOLON) :
    t = ";" := by
  unfold str_to_symbol at h
  repeat' split at h
  all_goals first | assumption | exact absurd h (by decide)

theorem str_to_symbol_eq_amp (t : String) (h : str_to_symbol t = .AMP) : t = "&" := by
  unfold str_to_symbol at h
  repeat' split at h
  all_goals first | assumption | exact absurd h (by decide)

theorem parse_inv_congr (env : Env) (toks : List String) (tr0 : List Event) (s s1 : State)
    (h : parse_inv env toks tr0 s) (h1 : s1.tokens = s.tokens) (h2 : s1.symbol = s.symbol)
    (h3 : s1.next_token = s.next_token) (h4 : s1.trace = s.trace) :
    parse_inv env toks tr0 s1 := by
  unfold parse_inv lookahead_ok at *
  rw [h1, h2, h3, h4]
  exact h

theorem inv_next_symbol (env : Env) (toks : List String) (tr0 : List Event) (s : State)
    (h : parse_inv env toks tr0 s) : parse_inv env toks tr0 (next_symbol s) := by
  obtain ⟨ht, ⟨hl1, hl2, hl3⟩, hev⟩ := h
  cases hget : s.tokens[s.next_token]? with
  | none =>
    have e : next_symbol s = { s with symbol := .EPSILON } := by
      unfold next_symbol; rw [token_at_nat, hget]
    have hge : s.tokens.length ≤ s.next_token := List.getElem?_eq_none_iff.mp hget
    rw [e]
    exact ⟨ht, ⟨hl1, fun _ => Nat.le_antisymm hl1 hge, fun hne => absurd rfl hne⟩, hev⟩
  | some t =>
    have e : next_symbol s
        = { s with symbol := str_to_symbol t, next_token := s.next_token + 1 } := by
      unfold next_symbol; rw [token_at_nat, hget]
    obtain ⟨hlt, hval⟩ := List.getElem?_eq_some_iff.mp hget
    rw [e]
    refine ⟨ht, ⟨hlt, fun he => absurd he (str_to_symbol_ne_epsilon t),
      fun _ => ⟨t, ?_, rfl⟩⟩, hev⟩
    exact hval ▸ List.getElem_mem hlt

theorem inv_match (env : Env) (toks : List String) (tr0 : List Event) (sym : Symbol)
    (s : State) (h : parse_inv env toks tr0 s) : parse_inv env toks tr0 (match_ sym s).2 := by
  unfold match_
  split
  · exact inv_next_symbol env toks tr0 _ (parse_inv_congr env toks tr0 s _ h rfl rfl rfl rfl)
  · exact parse_inv_congr env toks tr0 s _ h rfl rfl rfl rfl

theorem inv_expect (env : Env) (toks : List String) (tr0 : List Event) (sym : Symbol)
    (s : State) (h : parse_inv env toks tr0 s) :
    (expect sym s).all (parse_inv env toks tr0) := by
  unfold expect
  dsimp only
  split
  · exact inv_match env toks tr0 sym s h
  · exact inv_match env toks tr0 sym s h

theorem inv_simple_cmd_loop (env : Env) (toks : List String) (tr0 : List Event) (fuel : Nat) :
    ∀ (args : List CString) (s : State), parse_inv env toks tr0 s →
      (simple_cmd_loop fuel args s).all (parse_inv env toks tr0) := by
  induction fuel with
  | zero => intro args s _; trivial
  | succ fuel ih =>
    intro args s h
    have hm := inv_match env toks tr0 .LITERAL s h
    unfold simple_cmd_loop
    dsimp only
    split
    · split
      · exact ih _ _ hm
      · trivial
    · split
      · exact hm
      · trivial

theorem inv_simple_cmd (env : Env) (toks : List String) (tr0 : List Event) (s : State)
    (h : parse_inv env toks tr0 s) : (simple_cmd env s).all (parse_inv env toks tr0) := by
  have hm := inv_match env toks tr0 .LITERAL s h
  unfold simple_cmd
  dsimp only
  split
  · refine all_bind _ _ _ (inv_simple_cmd_loop env toks tr0 _ _ _ hm) ?_
    intro args s1 h1
    split
    · exact parse_inv_congr env toks tr0 s1 _ h1 rfl rfl rfl rfl
    · trivial
  · exact hm

theorem inv_pipeline_fuel (env : Env) (toks : List String) (tr0 : List Event) (fuel : Nat) :
    ∀ (s : State), parse_inv env toks tr0 s →
      (pipeline_fuel env fuel s).all (parse_inv env toks tr0) := by
  induction fuel with
  | zero => intro s _; trivial
  | succ fuel ih =>
    intro s h
    unfold pipeline_fuel
    dsimp only
    refine all_bind _ _ _ (inv_simple_cmd env toks tr0 s h) ?_
    intro r s1 h1
    have hp : parse_inv env toks tr0 (push_cmd s1) :=
      parse_inv_congr env toks tr0 s1 _ h1 rfl rfl rfl rfl
    have hm := inv_match env toks tr0 .PIPE _ hp
    split
    · split
      · split
        · refine all_bind _ _ _ (ih _ hm) ?_
          intro _ s2 h2
          exact h2
        · exact hm
      · trivial
    · exact h1

theorem inv_redirect_set (env : Env) (toks : List String) (tr0 : List Event) (sym : Symbol)
    (s : State) (g : State → PipelineData) (h : parse_inv env toks tr0 s) :
    ((expect sym s).bind fun r s1 =>
      if r ≠ 0 then .ret 1 { s1 with pipeline_data := g s1 } else .ret 0 s1).all
      (parse_inv env toks tr0) := by
  refine all_bind _ _ _ (inv_expect env toks tr0 sym s h) ?_
  intro r s1 h1
  split
  · exact parse_inv_congr env toks tr0 s1 _ h1 rfl rfl rfl rfl
  · exact h1

theorem inv_o_redirect (env : Env) (toks : List String) (tr0 : List Event) (s : State)
    (h : parse_inv env toks tr0 s) : (o_redirect s).all (parse_inv env toks tr0) := by
  have hm := inv_match env toks tr0 .GRATER s h
  have hm2 := inv_match env toks tr0 .DOUBLE_GRATER _ hm
  unfold o_redirect
  dsimp only
  split
  · exact inv_redirect_set env toks tr0 .LITERAL _ _ hm
  · split
    · exact inv_redirect_set env toks tr0 .LITERAL _ _ hm2
    · exact hm2

theorem inv_i_redirect (env : Env) (toks : List String) (tr0 : List Event) (s : State)
    (h : parse_inv env toks tr0 s) : (i_redirect s).all (parse_inv env toks tr0) := by
  have hm := inv_match env toks tr0 .SMALLER s h
  unfold i_redirect
  dsimp only
  split
  · exact inv_redirect_set env toks tr0 .LITERAL _ _ hm
  · exact hm

theorem inv_io_redirect (env : Env) (toks : List String) (tr0 : List Event) (s : State)
    (h : parse_inv env toks tr0 s) : (io_redirect s).all (parse_inv env toks tr0) := by
  unfold io_redirect
  refine all_bind _ _ _ (inv_i_redirect env toks tr0 s h) ?_
  intro i s1 h1
  split
  · refine all_bind _ _ _ (inv_o_redirect env toks tr0 s1 h1) ?_
    intro _ s2 h2
    exact h2
  · refine all_bind _ _ _ (inv_o_redirect env toks tr0 s1 h1) ?_
    intro o s2 h2
    split
    · refine all_bind _ _ _ (inv_i_redirect env toks tr0 s2 h2) ?_
      intro _ s3 h3
      exact h3
    · exact h2

theorem parse_inv_extend (env : Env) (toks : List String) (tr0 : List Event) (s s1 : State)
    (new : List Event) (h : parse_inv env toks tr0 s) (hb : "(" ∈ toks)
    (hnew : ∀ e ∈ new, subshell_event env e)
    (h1 : s1.tokens = s.tokens) (h2 : s1.symbol = s.symbol)
    (h3 : s1.next_token = s.next_token) (h4 : s1.trace = s.trace ++ new) :
    parse_inv env toks tr0 s1 := by
  obtain ⟨ht, hl, evs, he1, he2, _⟩ := h
  refine ⟨by rw [h1, ht], ?_, evs ++ new, by rw [h4, he1, List.append_assoc], ?_,
    fun hno => absurd hb hno⟩
  · unfold lookahead_ok at *
    rw [h1, h2, h3]
    exact hl
  · intro e hmem
    rcases List.mem_append.mp hmem with hm | hm
    · exact he2 e hm
    · exact hnew e hm

theorem inv_run_exernal_shell (env : Env) (toks : List String) (tr0 : List Event)
    (str : String) (s : State) (h : parse_inv env toks tr0 s) (hb : "(" ∈ toks) :
    (run_exernal_shell env str s).all (parse_inv env toks tr0) := by
  unfold run_exernal_shell execute_pipeline
  simp only [external_pipeline, execute_pipeline_loop, Nat.lt_add_one, if_true]
  split
  · simp only [Nat.sub_self, decide_True, and_self, if_true]
    refine parse_inv_extend env toks tr0 s _
      [Event.write str, Event.fork s.next_pid (some [env.prog_name]) 0,
        Event.waitpid s.next_pid true] h hb ?_ rfl rfl rfl (by simp [arr_set])
    intro e he
    simp only [List.mem_cons, List.mem_singleton, List.not_mem_nil, or_false] at he
    rcases he with rfl | rfl | rfl <;> simp [subshell_event]
  · refine parse_inv_extend env toks tr0 s _ [Event.write str] h hb ?_ rfl rfl rfl rfl
    intro e he
    simp only [List.mem_singleton] at he
    subst he
    trivial

theorem inv_cmd_loop (env : Env) (toks : List String) (tr0 : List Event) (fuel : Nat) :
    ∀ (str : String) (s : State), parse_inv env toks tr0 s →
      (cmd_loop fuel str s).all (parse_inv env toks tr0) := by
  induction fuel with
  | zero => intro str s _; trivial
  | succ fuel ih =>
    intro str s h
    have hm := inv_match env toks tr0 .EPSILON s h
    have hm2 := inv_match env toks tr0 .RT_BRACE _ hm
    have hn := inv_next_symbol env toks tr0 _ hm2
    unfold cmd_loop
    dsimp only
    repeat' split
    all_goals first
      | exact hm
      | exact hm2
      | exact ih _ _ hn
      | trivial

theorem match_hit_symbol (sym : Symbol) (s : State) (h : (match_ sym s).1 ≠ 0) :
    s.symbol = sym := by
  unfold match_ at h
  split at h
  · rename_i he; exact he.symm
  · exact absurd rfl h

theorem inv_cmd (env : Env) (toks : List String) (tr0 : List Event) (s : State)
    (h : parse_inv env toks tr0 s) : (cmd env s).all (parse_inv env toks tr0) := by
  have hm := inv_match env toks tr0 .LT_BRACE s h
  unfold cmd
  dsimp only
  split
  · rename_i hhit
    have hsym := match_hit_symbol _ _ hhit
    obtain ⟨ht, ⟨_, _, hl3⟩, _⟩ := h
    obtain ⟨t, htm, hts⟩ := hl3 (by rw [hsym]; decide)
    have hb : "(" ∈ toks := by
      rw [← ht, ← str_to_symbol_eq_lt_brace t (by rw [← hts, hsym])]
      exact htm
    refine all_bind _ _ _ (inv_cmd_loop env toks tr0 _ _ _ hm) ?_
    intro str s1 h1
    exact inv_run_exernal_shell env toks tr0 str s1 h1 hb
  · refine all_bind _ _ _ (inv_io_redirect env toks tr0 _ hm) ?_
    intro io s1 h1
    split
    · refine all_bind _ _ _ (inv_pipeline_fuel env toks tr0 _ s1 h1) ?_
      intro p s2 h2
      split <;> exact h2
    · refine all_bind _ _ _ (inv_pipeline_fuel env toks tr0 _ s1 h1) ?_
      intro p s2 h2
      split
      · refine all_bind _ _ _ (inv_io_redirect env toks tr0 s2 h2) ?_
        intro _ s3 h3
        exact h3
      · exact h2

theorem inv_conditional_cmd_fuel (env : Env) (toks : List String) (tr0 : List Event)
    (fuel : Nat) :
    ∀ (s : State), parse_inv env toks tr0 s →
      (conditional_cmd_fuel env fuel s).all (parse_inv env toks tr0) := by
  induction fuel with
  | zero => intro s _; trivial
  | succ fuel ih =>
    intro s h
    unfold conditional_cmd_fuel
    refine all_bind _ _ _ (inv_cmd env toks tr0 _
      (parse_inv_congr env toks tr0 s _ h rfl rfl rfl rfl)) ?_
    intro c s1 h1
    have hp : parse_inv env toks tr0 (push_pipeline s1) :=
      parse_inv_congr env toks tr0 s1 _ h1 rfl rfl rfl rfl
    have hm := inv_match env toks tr0 .DOUBLE_AMP _ hp
    have hm2 := inv_match env toks tr0 .DOUBLE_PIPE _ hm
    dsimp only
    split
    · split
      · split
        · exact ih _ (parse_inv_congr env toks tr0 _ _ hm rfl rfl rfl rfl)
        · split
          · exact ih _ (parse_inv_congr env toks tr0 _ _ hm2 rfl rfl rfl rfl)
          · exact hm2
      · trivial
    · exact h1

theorem inv_shell_cmd_tail (env : Env) (toks : List String) (tr0 : List Event) (result : Nat)
    (s : State) (h : parse_inv env toks tr0 s) :
    (shell_cmd_tail result s).all (parse_inv env toks tr0) := by
  have hm := inv_match env toks tr0 .AMP s h
  unfold shell_cmd_tail
  dsimp only
  split
  · split
    · split
      · trivial
      · exact parse_inv_congr env toks tr0 _ _ hm rfl rfl rfl rfl
    · exact inv_expect env toks tr0 .EPSILON _ hm
  · exact h

theorem inv_shell_cmd_fuel (env : Env) (toks : List String) (tr0 : List Event) (fuel : Nat) :
    ∀ (s : State), parse_inv env toks tr0 s →
      (shell_cmd_fuel env fuel s).all (parse_inv env toks tr0) := by
  induction fuel with
  | zero => intro s _; trivial
  | succ fuel ih =>
    intro s h
    rw [shell_cmd_fuel_succ]
    refine all_bind _ _ _ (inv_conditional_cmd_fuel env toks tr0 _ s h) ?_
    intro c s1 h1
    have hm := inv_match env toks tr0 .SEMICOLON s1 h1
    have hm2 := inv_match env toks tr0 .AMP _ hm
    unfold shell_cmd_rest
    dsimp only
    split
    · refine all_bind _ _ _ ?_ (fun r s2 h2 => inv_shell_cmd_tail env toks tr0 r s2 h2)
      split
      · exact ih _ hm
      · split
        · split
          · trivial
          · exact ih _ (parse_inv_congr env toks tr0 _ _ hm2 rfl rfl rfl rfl)
        · exact hm2
    · exact h1

theorem lookahead_ok_state_at (pre suf : List String) (mt : CString) (al : Argv)
    (pd : PipelineData) (pdl : Nat → PipelineData) (n : Nat) (tr : List Event) (pid : Nat) :
    lookahead_ok (state_at pre suf mt al pd pdl n tr pid) := by
  cases suf with
  | nil =>
    refine ⟨by simp [state_at, look_len], fun _ => by simp [state_at, look_len],
      fun h => absurd rfl h⟩
  | cons t rest =>
    refine ⟨by simp [state_at, look_len], fun h => absurd h (str_to_symbol_ne_epsilon t),
      fun _ => ⟨t, by simp [state_at], rfl⟩⟩

theorem inv_primed (env : Env) (s : State) (toks : List String) :
    parse_inv env toks s.trace (primed s toks) := by
  rw [primed_eq]
  exact ⟨rfl, lookahead_ok_state_at _ _ _ _ _ _ _ _ _, [], by simp [state_at], by simp,
    fun _ => rfl⟩

theorem inv_shell_cmd (env : Env) (s : State) (toks : List String) :
    (shell_cmd env (primed s toks)).all (parse_inv env toks s.trace) :=
  inv_shell_cmd_fuel env toks s.trace _ _ (inv_primed env s toks)

/-! ## Acceptance and leftover tokens -/

theorem match_no_token (env : Env) (toks : List String) (tr0 : List Event) (sym : Symbol)
    (s : State) (h : parse_inv env toks tr0 s) (hno : ∀ t ∈ toks, str_to_symbol t ≠ sym)
    (hne : sym ≠ .EPSILON) : (match_ sym s).1 = 0 := by
  by_contra hhit
  have hsym := match_hit_symbol _ _ hhit
  obtain ⟨ht, ⟨_, _, hl3⟩, _⟩ := h
  obtain ⟨t, htm, hts⟩ := hl3 (by rw [hsym]; exact hne)
  exact hno t (ht ▸ htm) (by rw [← hts, hsym])

theorem match_epsilon_state (env : Env) (toks : List String) (tr0 : List Event) (s : State)
    (h : parse_inv env toks tr0 s) (hsym : s.symbol = .EPSILON) :
    (match_ .EPSILON s).2.symbol = .EPSILON ∧ (match_ .EPSILON s).2.next_token = toks.length := by
  have hm := inv_match env toks tr0 .EPSILON s h
  obtain ⟨ht, ⟨_, hl2, _⟩, _⟩ := h
  have hlen := hl2 hsym
  have hsym2 : (match_ .EPSILON s).2.symbol = .EPSILON := by
    unfold match_
    rw [if_pos hsym.symm]
    unfold next_symbol
    dsimp only
    rw [token_at_nat, hlen]
    simp
  obtain ⟨ht2, ⟨_, hm2, _⟩, _⟩ := hm
  exact ⟨hsym2, by rw [hm2 hsym2, ht2]⟩

theorem shell_cmd_rest_no_sep (env : Env) (toks : List String) (tr0 : List Event) (fuel : Nat)
    (c : Nat) (s : State) (r : Nat) (s1 : State) (h : parse_inv env toks tr0 s)
    (hs : ";" ∉ toks) (ha : "&" ∉ toks)
    (hret : shell_cmd_rest env fuel c s = .ret r s1) (hr : r ≠ 0) :
    s1.symbol = .EPSILON ∧ s1.next_token = toks.length := by
  have hsemi : ∀ t ∈ toks, str_to_symbol t ≠ .SEMICOLON := fun t ht he =>
    hs (str_to_symbol_eq_semicolon t he ▸ ht)
  have hamp : ∀ t ∈ toks, str_to_symbol t ≠ .AMP := fun t ht he =>
    ha (str_to_symbol_eq_amp t he ▸ ht)
  have hi1 := inv_match env toks tr0 .SEMICOLON s h
  have hm1 := match_no_token env toks tr0 .SEMICOLON s h hsemi (by decide)
  have hi2 := inv_match env toks tr0 .AMP _ hi1
  have hm2 := match_no_token env toks tr0 .AMP _ hi1 hamp (by decide)
  have hi3 := inv_match env toks tr0 .AMP _ hi2
  have hm3 := match_no_token env toks tr0 .AMP _ hi2 hamp (by decide)
  by_cases hc : c ≠ 0
  · simp only [shell_cmd_rest, hc, hm1, hm2, ne_eq, not_true_eq_false, not_false_eq_true,
      if_true, if_false, bind_ret, shell_cmd_tail, one_ne_zero, hm3, expect] at hret
    split at hret
    · rename_i hhit
      have hsym := match_hit_symbol _ _ hhit
      obtain ⟨h5, h6⟩ := match_epsilon_state env toks tr0 _ hi3 hsym
      simp only [Res.ret.injEq] at hret
      rw [← hret.2]
      exact ⟨h5, h6⟩
    · simp at hret
  · simp only [shell_cmd_rest, hc, if_false, Res.ret.injEq] at hret
    exact absurd hret.1.symm hr

/-- Whenever `shell_cmd` returns success for a line that has no `;` and no `&` token, every
token of the line has been consumed: the lookahead is `EPSILON` and the token position is the
length of the line. -/
theorem accepted_line_consumed (env : Env) (s : State) (toks : List String) (r : Nat)
    (s1 : State) (hs : ";" ∉ toks) (ha : "&" ∉ toks)
    (hret : shell_cmd env (primed s toks) = .ret r s1) (hr : r ≠ 0) :
    s1.symbol = .EPSILON ∧ s1.next_token = toks.length := by
  have hp := inv_primed env s toks
  have hc := inv_conditional_cmd_fuel env toks s.trace ((primed s toks).tokens.length + 1) _ hp
  rw [shell_cmd, shell_cmd_fuel_succ, conditional_cmd] at hret
  cases hcc : conditional_cmd_fuel env ((primed s toks).tokens.length + 1) (primed s toks) with
  | ret c s2 =>
    rw [hcc] at hret hc
    exact shell_cmd_rest_no_sep env toks s.trace _ c s2 r s1 hc hs ha hret hr
  | synerr e g s2 => rw [hcc] at hret; simp [Res.bind] at hret
  | forkerr s2 => rw [hcc] at hret; simp [Res.bind] at hret
  | undefined => rw [hcc] at hret; simp [Res.bind] at hret
  | out_of_fuel => rw [hcc] at hret; simp [Res.bind] at hret

/-- C7 fails on the line `a ; |`: the nested `shell_cmd` behind `;` returns 0 at the `|`, the
outer one returns 1 all the same, with the lookahead still at the unconsumed `|` (token
position 3 of 3, symbol `PIPE`), and `main` runs `a`. -/
theorem C7_leftover_accepted :
    tokenize 8 "a ; |" = .tokens ["a", ";", "|"] ∧
    (main_parse sample_env 8 initial_state "a ; |").value = some 1 ∧
    (main_parse sample_env 8 initial_state "a ; |").state.map
      (fun s => (s.symbol, s.next_token)) = some (Symbol.PIPE, 3) ∧
    (main_round sample_env 8 initial_state "a ; |").trace
      = [Event.fork 0 (some [some "a"]) 0, Event.waitpid 0 true, Event.pipeline 0 1] :=
  ⟨by decide, by decide, by decide, by decide⟩

/-! ## What has run when a line ends in a syntax error -/

theorem execute_pipeline_loop_not_synerr (env : Env) (p : PipelineData) (fuel : Nat) :
    ∀ (i : Nat) (s : State), (execute_pipeline_loop env p fuel i s).is_synerr = false := by
  induction fuel with
  | zero => intro i s; rfl
  | succ fuel ih =>
    intro i s
    unfold execute_pipeline_loop
    dsimp only
    repeat' split
    all_goals first
      | rfl
      | exact ih _ _

theorem bind_not_synerr {α β : Type} (r : Res α) (f : α → State → Res β)
    (hr : r.is_synerr = false) (hf : ∀ a s, (f a s).is_synerr = false) :
    (r.bind f).is_synerr = false := by
  cases r with
  | ret a s => exact hf a s
  | synerr e g s => exact absurd hr (by simp [Res.is_synerr])
  | forkerr s => rfl
  | undefined => rfl
  | out_of_fuel => rfl

theorem execute_pipelines_loop_not_synerr (env : Env) (fuel : Nat) :
    ∀ (i : Nat) (s : State), (execute_pipelines_loop env fuel i s).is_synerr = false := by
  induction fuel with
  | zero => intro i s; rfl
  | succ fuel ih =>
    intro i s
    unfold execute_pipelines_loop
    split
    · exact bind_not_synerr _ _ (execute_pipeline_loop_not_synerr env _ _ _ _)
        (fun _ _ => ih _ _)
    · rfl

theorem dispatches_subshell (env : Env) (evs : List Event)
    (h : ∀ e ∈ evs, subshell_event env e) : dispatches evs = [] := by
  induction evs with
  | nil => rfl
  | cons e rest ih =>
    have he := h e (by simp)
    have hrest := ih (fun x hx => h x (by simp [hx]))
    cases e with
    | write str => simpa [dispatches] using hrest
    | fork pid c bg => simpa [dispatches] using hrest
    | waitpid pid b => simpa [dispatches] using hrest
    | pipeline i r => exact absurd he (by simp [subshell_event])

/-- C8, as stated, fails: on `( ls ) x` the subshell for `ls` is forked and waited for while
`cmd` parses the group, and only then `expect(EPSILON)` meets `x` and ends the line in a
syntax error. -/
theorem C8_counterexample :
    (main_line sample_env initial_state ["(", "ls", ")", "x"]).is_synerr = true ∧
    (main_line sample_env initial_state ["(", "ls", ")", "x"]).trace =
      [Event.write "ls", Event.fork 0 (some [some "my_shell"]) 0, Event.waitpid 0 true] := by
  decide

/-- C8, amended: whenever a line ends in the syntax error of `expect`, `execute_pipelines` has
not been called for it, and the only calls made are those of `run_exernal_shell` for the
parenthesized groups that `cmd` has met; for a line without a `(` token nothing at all has
been started. -/
theorem C8_syntax_error_trace (env : Env) (s : State) (toks : List String)
    (e g : Symbol) (s1 : State) (herr : main_line env s toks = .synerr e g s1) :
    ∃ evs, s1.trace = s.trace ++ evs ∧ (∀ ev ∈ evs, subshell_event env ev) ∧
      dispatches evs = [] ∧ ("(" ∉ toks → evs = []) := by
  have hinv := inv_shell_cmd env s toks
  unfold main_line at herr
  cases hsc : shell_cmd env (primed s toks) with
  | ret r s2 =>
    rw [hsc, bind_ret] at herr
    have hns : ((if r ≠ 0 then execute_pipelines env s2 else Res.ret 0 s2).bind
        fun _ s3 => Res.ret r (clear_all s3)).is_synerr = false := by
      refine bind_not_synerr _ _ ?_ (fun _ _ => rfl)
      split
      · exact execute_pipelines_loop_not_synerr env _ _ _
      · rfl
    rw [herr] at hns
    exact absurd hns (by simp [Res.is_synerr])
  | synerr e2 g2 s2 =>
    rw [hsc] at herr hinv
    simp only [Res.bind, Res.synerr.injEq] at herr
    obtain ⟨_, _, evs, h1, h2, h3⟩ := hinv
    rw [← herr.2.2]
    exact ⟨evs, h1, h2, dispatches_subshell env evs h2, h3⟩
  | forkerr s2 => rw [hsc] at herr; simp [Res.bind] at herr
  | undefined => rw [hsc] at herr; simp [Res.bind] at herr
  | out_of_fuel => rw [hsc] at herr; simp [Res.bind] at herr

/-- The theorem of C8 at the line `a ; ls >`, which ends in `expected LITERAL, found
EPSILON`. -/
theorem C8_syntax_error_trace_witness :
    ∃ evs, ((main_line sample_env initial_state ["a", ";", "ls", ">"]).state.getD
        initial_state).trace = initial_state.trace ++ evs ∧
      (∀ ev ∈ evs, subshell_event sample_env ev) ∧
      dispatches evs = [] ∧ ("(" ∉ ["a", ";", "ls", ">"] → evs = []) :=
  C8_syntax_error_trace sample_env initial_state ["a", ";", "ls", ">"] .LITERAL .EPSILON
    ((main_line sample_env initial_state ["a", ";", "ls", ">"]).state.getD initial_state) rfl

/-! ## Lines the code treats against its grammar -/

theorem pipeline_fuel_trailing (env : Env) (hclean : clean_args env) (cs : List (List String)) :
    ∀ (c : List String) (fuel : Nat) (pre suf : List String) (mt : CString) (al : Argv)
      (pd : PipelineData) (pdl : Nat → PipelineData) (n : Nat) (tr : List Event) (pid : Nat),
      literal_stage c → (∀ d ∈ cs, literal_stage d) →
      c.length ≤ 63 → (∀ d ∈ cs, d.length ≤ 63) →
      look suf ≠ .LITERAL →
      pd.cmd_list_size + cs.length < 64 → cs.length + 1 < fuel →
      (pre ++ (c ++ rest_tokens cs ++ "|" :: suf)).length ≤ 64 →
      pipeline_fuel env fuel
          (state_at pre (c ++ rest_tokens cs ++ "|" :: suf) mt al pd pdl n tr pid)
        = .ret 1 (state_at (pre ++ (c ++ rest_tokens cs) ++ ["|"]) suf none none
            ((c :: cs).foldl pd_push pd) pdl n tr pid) := by
  induction cs with
  | nil =>
    intro c fuel pre suf mt al pd pdl n tr pid hc _ hlen _ hsuf hcap hfuel hL
    obtain ⟨f, rfl⟩ : ∃ f, fuel = f + 2 := ⟨fuel - 2, by simp at hfuel; omega⟩
    have hcap2 : pd.cmd_list_size < 64 := by simpa using hcap
    have hs := simple_cmd_literals env c pre ("|" :: suf) mt al pd pdl n tr pid hc hlen
      (look_cons_ne _ _ _ (by decide)) hclean (by simpa [rest_tokens] using hL)
    have e : push_cmd (state_at (pre ++ c) ("|" :: suf) none (argv_of c) pd pdl n tr pid)
        = state_at (pre ++ c) ("|" :: suf) none none (pd_push pd c) pdl n tr pid := rfl
    have e2 : (state_at (pre ++ c) ("|" :: suf) none (argv_of c) pd pdl n tr
        pid).pipeline_data = pd := rfl
    have hm := match_hit .PIPE (pre ++ c) "|" suf none none (pd_push pd c) pdl n tr pid
      (by decide)
    have hmiss := simple_cmd_miss env (pre ++ c ++ ["|"]) suf (some "|") none (pd_push pd c)
      pdl n tr pid hsuf
    simp only [rest_tokens, List.append_nil]
    rw [pipeline_fuel, hs, bind_ret]
    simp only [e, e2, hcap2, if_true, ne_eq, one_ne_zero, not_false_eq_true, hm]
    rw [pipeline_fuel, hmiss, bind_ret]
    simp [bind_ret]
  | cons d ds ih =>
    intro c fuel pre suf mt al pd pdl n tr pid hc hcs hlen hlens hsuf hcap hfuel hL
    obtain ⟨f, rfl⟩ : ∃ f, fuel = f + 1 := ⟨fuel - 1, by simp at hfuel; omega⟩
    have hcap2 : pd.cmd_list_size < 64 := by simp at hcap; omega
    have hrec := ih d f (pre ++ c ++ ["|"]) suf (some "|") none (pd_push pd c) pdl n tr pid
      (hcs d (by simp)) (fun x hx => hcs x (by simp [hx])) (hlens d (by simp))
      (fun x hx => hlens x (by simp [hx])) hsuf
      (by simp [pd_push] at hcap ⊢; omega) (by simp at hfuel; omega)
      (by simp [rest_tokens] at hL ⊢; omega)
    have hs := simple_cmd_literals env c pre ("|" :: (d ++ rest_tokens ds ++ "|" :: suf)) mt al
      pd pdl n tr pid hc hlen (look_cons_ne _ _ _ (by decide)) hclean
      (by simp [rest_tokens] at hL ⊢; omega)
    have e : push_cmd (state_at (pre ++ c) ("|" :: (d ++ rest_tokens ds ++ "|" :: suf)) none
          (argv_of c) pd pdl n tr pid)
        = state_at (pre ++ c) ("|" :: (d ++ rest_tokens ds ++ "|" :: suf)) none none
          (pd_push pd c) pdl n tr pid := rfl
    have e2 : (state_at (pre ++ c) ("|" :: (d ++ rest_tokens ds ++ "|" :: suf)) none (argv_of c)
        pd pdl n tr pid).pipeline_data = pd := rfl
    have hm := match_hit .PIPE (pre ++ c) "|" (d ++ rest_tokens ds ++ "|" :: suf) none none
      (pd_push pd c) pdl n tr pid (by decide)
    have etok : c ++ rest_tokens (d :: ds) ++ "|" :: suf
        = c ++ "|" :: (d ++ rest_tokens ds ++ "|" :: suf) := by
      simp [rest_tokens]
    rw [etok, pipeline_fuel, hs, bind_ret]
    simp only [e, e2, hcap2, if_true, ne_eq, one_ne_zero, not_false_eq_true, hm]
    rw [hrec]
    simp [bind_ret, rest_tokens]

/-- What `execute_pipelines` does on a list of one pipeline, every `fork` succeeding. -/
theorem single_run (env : Env) (hfork : ∀ pid, env.fork_ok pid = true) (s1 : State)
    (hsz : s1.pipeline_data_list_size = 1) :
    ∃ s2, execute_pipelines env s1 = .ret 0 s2 ∧
      s2.trace = s1.trace ++
        (run_events (arr_take (s1.pipeline_data_list 0).cmd_list
            (s1.pipeline_data_list 0).cmd_list_size) (s1.pipeline_data_list 0).run_in_background
            s1.next_pid ++
          [Event.pipeline 0 (run_result env (s1.pipeline_data_list 0).cmd_list_size
            (s1.pipeline_data_list 0).run_in_background s1.next_pid)]) := by
  obtain ⟨hf1, hf2, hf3⟩ := after_dispatch_frame env 0 s1
  rw [execute_pipelines, hsz, execute_pipelines_loop_step env hfork 1 0 s1 (by omega),
    execute_pipelines_loop_done env 0 _ _ (by
      rw [hf2, hsz, next_index_eq]; split <;> omega)]
  exact ⟨_, rfl, hf3⟩

/-- Every pipeline of literals followed by a `|` and nothing else, within the capacities of
the arrays and with clean blocks, is accepted, stored without the `|`, and run. -/
theorem trailing_pipe_line (env : Env) (s : State) (p : List (List String))
    (hp : literal_pipeline p) (hcap : within_capacity p)
    (hfork : ∀ pid, env.fork_ok pid = true) (hsize : s.pipeline_data_list_size = 0)
    (hclean : clean_args env) (hL : (pipeline_tokens p ++ ["|"]).length ≤ 64) :
    ∃ s2, main_line env s (pipeline_tokens p ++ ["|"]) = .ret 1 s2 ∧
      s2.trace = s.trace ++
        (run_events (p.map argv_of) 0 s.next_pid ++
          [Event.pipeline 0 (run_result env p.length 0 s.next_pid)]) := by
  obtain ⟨hne, hall⟩ := hp
  obtain ⟨hlen, hlens⟩ := hcap
  cases p with
  | nil => exact absurd rfl hne
  | cons c cs =>
    have hrest := length_rest_tokens cs
    have hb := match_miss .LT_BRACE [] (pipeline_tokens (c :: cs) ++ ["|"]) s.matched_token
      s.arg_list (init_pipeline s.pipeline_data) s.pipeline_data_list 0 s.trace s.next_pid
      (by rw [look_pipeline_tokens _ _ ⟨hne, hall⟩]; decide)
    have hio := io_redirect_miss [] (pipeline_tokens (c :: cs) ++ ["|"]) none
      s.arg_list (init_pipeline s.pipeline_data) s.pipeline_data_list 0 s.trace s.next_pid
      (by rw [look_pipeline_tokens _ _ ⟨hne, hall⟩]; decide)
      (by rw [look_pipeline_tokens _ _ ⟨hne, hall⟩]; decide)
      (by rw [look_pipeline_tokens _ _ ⟨hne, hall⟩]; decide)
    have hpl := pipeline_fuel_trailing env hclean cs c
      ((state_at [] (pipeline_tokens (c :: cs) ++ ["|"]) none s.arg_list
        (init_pipeline s.pipeline_data) s.pipeline_data_list 0 s.trace
        s.next_pid).tokens.length + 1)
      [] [] none s.arg_list (init_pipeline s.pipeline_data) s.pipeline_data_list 0 s.trace
      s.next_pid (hall c (by simp)) (fun d hd => hall d (by simp [hd])) (hlens c (by simp))
      (fun d hd => hlens d (by simp [hd])) (by decide) (by simp [init_pipeline] at hlen ⊢; omega)
      (by simp [state_at, pipeline_tokens]; omega)
      (by simp [pipeline_tokens] at hL ⊢; omega)
    have hio2 := io_redirect_miss ([] ++ (c ++ rest_tokens cs) ++ ["|"]) [] none none
      ((c :: cs).foldl pd_push (init_pipeline s.pipeline_data)) s.pipeline_data_list 0 s.trace
      s.next_pid (by decide) (by decide) (by decide)
    have hspec := spec_foldl_pd_push (c :: cs) (init_pipeline s.pipeline_data) rfl
    generalize (c :: cs).foldl pd_push (init_pipeline s.pipeline_data) = pdF at hpl hio2 hspec
    have hm1 := match_miss .DOUBLE_AMP ([] ++ (c ++ rest_tokens cs) ++ ["|"]) [] none none pdF
      (arr_set s.pipeline_data_list 0 pdF) (0 + 1) s.trace s.next_pid (by decide)
    have hm2 := match_miss .DOUBLE_PIPE ([] ++ (c ++ rest_tokens cs) ++ ["|"]) [] none none pdF
      (arr_set s.pipeline_data_list 0 pdF) (0 + 1) s.trace s.next_pid (by decide)
    have hcmd : cmd env (state_at [] (pipeline_tokens (c :: cs) ++ ["|"]) s.matched_token
        s.arg_list (init_pipeline s.pipeline_data) s.pipeline_data_list 0 s.trace s.next_pid)
        = .ret 1 (state_at ([] ++ (c ++ rest_tokens cs) ++ ["|"]) [] none none pdF
            s.pipeline_data_list 0 s.trace s.next_pid) := by
      simp only [cmd, hb, hio, bind_ret, pipeline]
      simp only [pipeline_tokens, List.append_nil] at hpl ⊢
      rw [hpl]
      simp only [bind_ret, hio2]
      simp
    have hcond : conditional_cmd env (state_at [] (pipeline_tokens (c :: cs) ++ ["|"])
        s.matched_token s.arg_list s.pipeline_data s.pipeline_data_list 0 s.trace s.next_pid)
        = .ret 1 (state_at ([] ++ (c ++ rest_tokens cs) ++ ["|"]) [] none none pdF
            (arr_set s.pipeline_data_list 0 pdF) (0 + 1) s.trace s.next_pid) := by
      have e : ({ state_at [] (pipeline_tokens (c :: cs) ++ ["|"]) s.matched_token s.arg_list
            s.pipeline_data s.pipeline_data_list 0 s.trace s.next_pid with
          pipeline_data := init_pipeline (state_at [] (pipeline_tokens (c :: cs) ++ ["|"])
            s.matched_token s.arg_list s.pipeline_data s.pipeline_data_list 0 s.trace
            s.next_pid).pipeline_data } : State)
          = state_at [] (pipeline_tokens (c :: cs) ++ ["|"]) s.matched_token s.arg_list
            (init_pipeline s.pipeline_data) s.pipeline_data_list 0 s.trace s.next_pid := rfl
      have e3 : push_pipeline (state_at ([] ++ (c ++ rest_tokens cs) ++ ["|"]) [] none none pdF
          s.pipeline_data_list 0 s.trace s.next_pid)
          = state_at ([] ++ (c ++ rest_tokens cs) ++ ["|"]) [] none none pdF
            (arr_set s.pipeline_data_list 0 pdF) (0 + 1) s.trace s.next_pid := rfl
      have e4 : (state_at ([] ++ (c ++ rest_tokens cs) ++ ["|"]) [] none none pdF
          s.pipeline_data_list 0 s.trace s.next_pid).pipeline_data_list_size = 0 := rfl
      simp only [conditional_cmd, conditional_cmd_fuel, e, hcmd, bind_ret, e3, e4, hm1, hm2]
      simp
    obtain ⟨s2, hr, ht⟩ := single_run env hfork
      (state_at ([] ++ (c ++ rest_tokens cs) ++ ["|"]) []
        (token_at ([] ++ (c ++ rest_tokens cs) ++ ["|"])
          ((([] ++ (c ++ rest_tokens cs) ++ ["|"]).length : Int) - 1)) none pdF
        (arr_set s.pipeline_data_list 0 pdF) (0 + 1) s.trace s.next_pid) rfl
    refine ⟨clear_all s2, ?_, ?_⟩
    · rw [main_line, primed_eq, hsize, shell_cmd, shell_cmd_fuel_succ, hcond, bind_ret,
        shell_cmd_rest_end, bind_ret, if_pos (by decide : (1 : Nat) ≠ 0), hr, bind_ret]
    · have e5 : (clear_all s2).trace = s2.trace := rfl
      simp only [PipelineData.spec, PipelineSpec.mk.injEq] at hspec
      obtain ⟨h1, _, _, _, _, h6⟩ := hspec
      have hl := congrArg List.length h1
      rw [length_arr_take, List.length_map] at hl
      rw [e5, ht]
      simp only [state_at, arr_set_same]
      rw [h1, hl, h6]
      rfl

/-- C6 at the line `ls |`: no syntax error is raised, `shell_cmd` returns 1 and `main` runs
the pipeline: `ls` is forked and waited for. -/
theorem C6_trailing_pipe_runs :
    (main_line sample_env initial_state ["ls", "|"]).is_synerr = false ∧
    (main_line sample_env initial_state ["ls", "|"]).value = some 1 ∧
    (main_line sample_env initial_state ["ls", "|"]).trace =
      [Event.fork 0 (some [some "ls"]) 0, Event.waitpid 0 true, Event.pipeline 0 1] := by
  decide

/-- C9 at four lines.  With a subshell of status 0, `( true ) && echo hi` does not run `echo`
and `( true ) || echo hi` runs it; with a subshell of status 256 neither
`( false ) && echo hi` nor `( false ) || echo hi` runs `echo`, because `cmd` returns 0 and the
line is not executed. -/
theorem C9_subshell_chain :
    forked (main_line sample_env initial_state ["(", "true", ")", "&&", "echo", "hi"]).trace
      = [(0, some [some "my_shell"])] ∧
    forked (main_line sample_env initial_state ["(", "true", ")", "||", "echo", "hi"]).trace
      = [(0, some [some "my_shell"]), (1, some [some "echo", some "hi"])] ∧
    forked (main_line failing_env initial_state ["(", "false", ")", "&&", "echo", "hi"]).trace
      = [(0, some [some "my_shell"])] ∧
    forked (main_line failing_env initial_state ["(", "false", ")", "||", "echo", "hi"]).trace
      = [(0, some [some "my_shell"])] ∧
    (main_line failing_env initial_state ["(", "false", ")", "||", "echo", "hi"]).value
      = some 0 :=
  ⟨by decide, by decide, by decide, by decide, by decide⟩

/-! ## Pipelines in the background -/

theorem blocking_waits_append (a b : List Event) :
    blocking_waits (a ++ b) = blocking_waits a ++ blocking_waits b := by
  induction a with
  | nil => simp [blocking_waits]
  | cons e rest ih =>
    cases e with
    | waitpid pid b => cases b <;> simp [blocking_waits, ih]
    | _ => simp [blocking_waits, ih]

theorem blocking_waits_background (cs : List Argv) :
    ∀ (bg pid : Nat), bg ≠ 0 → blocking_waits (run_events cs bg pid) = [] := by
  induction cs with
  | nil => intro bg pid _; simp [run_events, blocking_waits]
  | cons c cs ih =>
    intro bg pid hbg
    simp [run_events, blocking_waits, hbg, ih bg (pid + 1) hbg]

/-! ## Parenthesized groups -/

theorem utf8ByteSize_append (a b : String) :
    (a ++ b).utf8ByteSize = a.utf8ByteSize + b.utf8ByteSize := by
  cases a; cases b
  simp [String.utf8ByteSize, String.append, String.utf8Len_append]

theorem utf8ByteSize_go_le (ts : List String) :
    ∀ (acc : String), acc.utf8ByteSize ≤ (String.intercalate.go acc " " ts).utf8ByteSize := by
  induction ts with
  | nil => intro acc; exact Nat.le_refl _
  | cons t ts ih =>
    intro acc
    have h := ih (acc ++ " " ++ t)
    rw [utf8ByteSize_append, utf8ByteSize_append] at h
    simp only [String.intercalate.go]
    omega

theorem str_to_symbol_eq_rt_brace (t : String) (h : str_to_symbol t = .RT_BRACE) : t = ")" := by
  unfold str_to_symbol at h
  repeat' split at h
  all_goals first | assumption | exact absurd h (by decide)

theorem next_symbol_state_at (pre : List String) (t : String) (suf : List String)
    (mt : CString) (al : Argv) (pd : PipelineData) (pdl : Nat → PipelineData) (n : Nat)
    (tr : List Event) (pid : Nat) :
    next_symbol (state_at pre (t :: suf) mt al pd pdl n tr pid)
      = state_at (pre ++ [t]) suf mt al pd pdl n tr pid := by
  simp only [state_at, look_len, next_symbol, token_at_next]
  cases suf with
  | nil => simp [look, look_len]
  | cons u rest => simp [look, look_len]

theorem cmd_loop_step (fuel : Nat) (str t : String) (pre suf : List String)
    (mt : CString) (al : Argv) (pd : PipelineData) (pdl : Nat → PipelineData) (n : Nat)
    (tr : List Event) (pid : Nat) (ht : t ≠ ")") :
    cmd_loop (fuel + 1) str (state_at pre (t :: suf) mt al pd pdl n tr pid)
      = if ((if str.utf8ByteSize ≠ 0 then str ++ " " else str) ++ t).utf8ByteSize < 1024 then
          cmd_loop fuel ((if str.utf8ByteSize ≠ 0 then str ++ " " else str) ++ t)
            (state_at (pre ++ [t]) suf none al pd pdl n tr pid)
        else .undefined := by
  have h1 : look (t :: suf) ≠ .EPSILON := str_to_symbol_ne_epsilon t
  have h2 : look (t :: suf) ≠ .RT_BRACE := fun e => ht (str_to_symbol_eq_rt_brace t e)
  have e1 := match_miss .EPSILON pre (t :: suf) mt al pd pdl n tr pid h1
  have e2 := match_miss .RT_BRACE pre (t :: suf) none al pd pdl n tr pid h2
  have e3 : token_at (state_at pre (t :: suf) none al pd pdl n tr pid).tokens
      (((state_at pre (t :: suf) none al pd pdl n tr pid).next_token : Int) - 1) = some t :=
    token_at_cur pre t suf
  simp only [cmd_loop, e1, e2, e3, next_symbol_state_at]
  simp

theorem cmd_loop_close (fuel : Nat) (str : String) (pre rest : List String)
    (mt : CString) (al : Argv) (pd : PipelineData) (pdl : Nat → PipelineData) (n : Nat)
    (tr : List Event) (pid : Nat) :
    cmd_loop (fuel + 1) str (state_at pre (")" :: rest) mt al pd pdl n tr pid)
      = .ret str (state_at (pre ++ [")"]) rest (some ")") al pd pdl n tr pid) := by
  have h1 : look (")" :: rest) ≠ .EPSILON := str_to_symbol_ne_epsilon ")"
  have e1 := match_miss .EPSILON pre (")" :: rest) mt al pd pdl n tr pid h1
  have e2 := match_hit .RT_BRACE pre ")" rest none al pd pdl n tr pid (by decide)
  simp only [cmd_loop, e1, e2]
  simp

theorem cmd_loop_end (fuel : Nat) (str : String) (pre : List String)
    (mt : CString) (al : Argv) (pd : PipelineData) (pdl : Nat → PipelineData) (n : Nat)
    (tr : List Event) (pid : Nat) :
    cmd_loop (fuel + 1) str (state_at pre [] mt al pd pdl n tr pid)
      = .ret str
          (state_at pre [] (token_at pre ((pre.length : Int) - 1)) al pd pdl n tr pid) := by
  simp only [cmd_loop, match_eps]
  simp

theorem cmd_loop_tokens (ts : List String) :
    ∀ (fuel : Nat) (str : String) (pre suf : List String)
      (mt : CString) (al : Argv) (pd : PipelineData) (pdl : Nat → PipelineData) (n : Nat)
      (tr : List Event) (pid : Nat),
      (∀ t ∈ ts, t ≠ ")") → str.utf8ByteSize ≠ 0 →
      (String.intercalate.go str " " ts).utf8ByteSize < 1024 →
      cmd_loop (fuel + ts.length) str (state_at pre (ts ++ suf) mt al pd pdl n tr pid)
        = cmd_loop fuel (String.intercalate.go str " " ts)
            (state_at (pre ++ ts) suf (if ts = [] then mt else none) al pd pdl n tr pid) := by
  induction ts with
  | nil => intro fuel str pre suf mt al pd pdl n tr pid _ _ _; simp [String.intercalate.go]
  | cons t ts ih =>
    intro fuel str pre suf mt al pd pdl n tr pid hclose hstr hfit
    have hfit1 : (str ++ " " ++ t).utf8ByteSize < 1024 :=
      Nat.lt_of_le_of_lt (utf8ByteSize_go_le ts _) hfit
    have hne1 : (str ++ " " ++ t).utf8ByteSize ≠ 0 := by
      rw [utf8ByteSize_append, utf8ByteSize_append]; omega
    have e : fuel + (t :: ts).length = (fuel + ts.length) + 1 := by simp; omega
    rw [e, List.cons_append, cmd_loop_step _ _ _ _ _ _ _ _ _ _ _ _ (hclose t (by simp)),
      if_pos hstr, if_pos hfit1,
      ih fuel _ (pre ++ [t]) suf none al pd pdl n tr pid
        (fun u hu => hclose u (by simp [hu])) hne1 hfit]
    simp [String.intercalate.go]

theorem run_exernal_shell_run (env : Env) (str : String) (s : State)
    (hfork : env.fork_ok s.next_pid = true) :
    run_exernal_shell env str s
      = .ret (if env.wait_status s.next_pid = 0 then 1 else 0)
          { s with
            next_pid := s.next_pid + 1
            trace := s.trace ++ [Event.write str, Event.fork s.next_pid (some [env.prog_name]) 0,
              Event.waitpid s.next_pid true] } := by
  simp [run_exernal_shell, execute_pipeline, external_pipeline, execute_pipeline_loop, hfork,
    arr_set]

theorem cmd_loop_group (ts : List String) (fuel : Nat) (pre suf : List String)
    (mt : CString) (al : Argv) (pd : PipelineData) (pdl : Nat → PipelineData) (n : Nat)
    (tr : List Event) (pid : Nat)
    (hclose : ∀ t ∈ ts, t ≠ ")") (hne : ∀ t ∈ ts, t ≠ "")
    (hfit : (" ".intercalate ts).utf8ByteSize < 1024) :
    cmd_loop (fuel + ts.length) "" (state_at pre (ts ++ suf) mt al pd pdl n tr pid)
      = cmd_loop fuel (" ".intercalate ts)
          (state_at (pre ++ ts) suf (if ts = [] then mt else none) al pd pdl n tr pid) := by
  cases ts with
  | nil => simp [String.intercalate]
  | cons t ts =>
    have hfit0 : (String.intercalate.go t " " ts).utf8ByteSize < 1024 := hfit
    have hfit1 : t.utf8ByteSize < 1024 := Nat.lt_of_le_of_lt (utf8ByteSize_go_le ts t) hfit0
    have ht : t.utf8ByteSize ≠ 0 := by
      intro h
      apply hne t (by simp)
      cases t with
      | mk data =>
        cases data with
        | nil => rfl
        | cons c cs =>
          simp [String.utf8ByteSize, String.utf8ByteSize.go] at h
          have := Char.utf8Size_pos c
          omega
    have e : fuel + (t :: ts).length = (fuel + ts.length) + 1 := by simp; omega
    have e0 : ("" : String).utf8ByteSize = 0 := rfl
    have e1 : "" ++ t = t := String.empty_append t
    rw [e, List.cons_append, cmd_loop_step _ _ _ _ _ _ _ _ _ _ _ _ (hclose t (by simp))]
    simp only [e0, ne_eq, not_true_eq_false, if_false, e1, if_pos hfit1]
    rw [cmd_loop_tokens ts fuel t (pre ++ [t]) suf none al pd pdl n tr pid
      (fun u hu => hclose u (by simp [hu])) ht hfit0]
    simp [String.intercalate]

theorem length_lt_fuel (pre ts suf : List String) :
    ∃ f, (pre ++ "(" :: (ts ++ suf)).length + 1 = (f + 1) + ts.length := by
  refine ⟨pre.length + suf.length + 1, ?_⟩
  simp; omega

set_option maxRecDepth 100000 in
/-- C14, as stated, fails: for the group `( t t )` with `t` a token of 600 bytes, the joined
text has 1201 bytes and `cmd` writes past the 1024 bytes of its buffer. -/
theorem C14_counterexample :
    (cmd sample_env
      (primed initial_state ["(", long_token, long_token, ")"])).is_undefined = true := by
  decide

/-- The buffer of `cmd` is not cleared: when `malloc` returns a buffer holding the C string
`x`, the group `( ls )` hands `x ls` to the subshell. -/
theorem capture_dirty_buffer :
    (cmd dirty_env (primed initial_state ["(", "ls", ")"])).trace
      = [Event.write "x ls", Event.fork 0 (some [some "my_shell"]) 0, Event.waitpid 0 true] := by
  decide

/-- What `cmd` does on a closed group `( t1 ... tn )` that fits the buffer. -/
theorem cmd_group (env : Env) (ts rest pre : List String)
    (mt : CString) (al : Argv) (pd : PipelineData) (pdl : Nat → PipelineData) (n : Nat)
    (tr : List Event) (pid : Nat)
    (hclose : ∀ t ∈ ts, t ≠ ")") (hne : ∀ t ∈ ts, t ≠ "")
    (hbuf : env.malloc_str = "") (hfit : (" ".intercalate ts).utf8ByteSize < 1024)
    (hfork : env.fork_ok pid = true) :
    cmd env (state_at pre ("(" :: (ts ++ ")" :: rest)) mt al pd pdl n tr pid)
      = .ret (if env.wait_status pid = 0 then 1 else 0)
          (state_at (pre ++ "(" :: (ts ++ [")"])) rest (some ")") al pd pdl n
            (tr ++ [Event.write (" ".intercalate ts), Event.fork pid (some [env.prog_name]) 0,
              Event.waitpid pid true])
            (pid + 1)) := by
  obtain ⟨f, hf⟩ := length_lt_fuel pre ts (")" :: rest)
  have hm := match_hit .LT_BRACE pre "(" (ts ++ ")" :: rest) mt al pd pdl n tr pid (by decide)
  have hlen : (state_at pre ("(" :: (ts ++ ")" :: rest)) mt al pd pdl n tr pid).tokens.length + 1
      = (f + 1) + ts.length := hf
  unfold cmd
  simp only [hm, hlen, hbuf]
  rw [if_pos (by decide), cmd_loop_group ts (f + 1) _ _ _ al pd pdl n tr pid hclose hne hfit,
    cmd_loop_close, bind_ret, run_exernal_shell_run env _ _ hfork]
  simp [state_at]

/-- C14, amended: for tokens `( t1 ... tn ) rest` in which no `ti` is `)` (a `ti` may be `(`)
and every `ti` is non-empty, when the joined text is shorter than 1024 bytes, the buffer
`malloc` returns starts with a NUL byte and the `fork` succeeds, `cmd` writes exactly
`t1 ... tn` joined by single spaces (the empty string when `n = 0`) to the pipe of a subshell,
has consumed the tokens up to and including the first `)`, and leaves the lookahead at the
first token of `rest`; it returns 1 exactly when the status of the subshell is 0. -/
theorem C14_group_capture (env : Env) (ts rest pre : List String)
    (mt : CString) (al : Argv) (pd : PipelineData) (pdl : Nat → PipelineData) (n : Nat)
    (tr : List Event) (pid : Nat)
    (hclose : ∀ t ∈ ts, t ≠ ")") (hne : ∀ t ∈ ts, t ≠ "")
    (hbuf : env.malloc_str = "") (hfit : (" ".intercalate ts).utf8ByteSize < 1024)
    (hfork : env.fork_ok pid = true) :
    cmd env (state_at pre ("(" :: (ts ++ ")" :: rest)) mt al pd pdl n tr pid)
      = .ret (if env.wait_status pid = 0 then 1 else 0)
          (state_at (pre ++ "(" :: (ts ++ [")"])) rest (some ")") al pd pdl n
            (tr ++ [Event.write (" ".intercalate ts), Event.fork pid (some [env.prog_name]) 0,
              Event.waitpid pid true])
            (pid + 1)) :=
  cmd_group env ts rest pre mt al pd pdl n tr pid hclose hne hbuf hfit hfork

/-- The theorem of C14 at the tokens `( ls ( -l ) && x`: the capture stops at the first `)`
and holds the inner `(`. -/
theorem C14_group_capture_witness :
    cmd sample_env
        (state_at [] ("(" :: (["ls", "(", "-l"] ++ ")" :: ["&&", "x"])) none none
          initial_state.pipeline_data initial_state.pipeline_data_list 0 [] 0)
      = .ret (if sample_env.wait_status 0 = 0 then 1 else 0)
          (state_at ([] ++ "(" :: (["ls", "(", "-l"] ++ [")"])) ["&&", "x"] (some ")") none
            initial_state.pipeline_data initial_state.pipeline_data_list 0
            ([] ++ [Event.write (" ".intercalate ["ls", "(", "-l"]),
              Event.fork 0 (some [sample_env.prog_name]) 0, Event.waitpid 0 true])
            (0 + 1)) :=
  C14_group_capture sample_env ["ls", "(", "-l"] ["&&", "x"] [] none none
    initial_state.pipeline_data initial_state.pipeline_data_list 0 [] 0
    (by decide) (by decide) rfl (by decide) rfl

/-- A group that is not closed: `cmd` reaches the end of the input, and runs the subshell on
the text collected so far. -/
theorem cmd_unterminated (env : Env) (ts pre : List String)
    (mt : CString) (al : Argv) (pd : PipelineData) (pdl : Nat → PipelineData) (n : Nat)
    (tr : List Event) (pid : Nat)
    (hclose : ∀ t ∈ ts, t ≠ ")") (hne : ∀ t ∈ ts, t ≠ "")
    (hbuf : env.malloc_str = "") (hfit : (" ".intercalate ts).utf8ByteSize < 1024)
    (hfork : env.fork_ok pid = true) :
    ∃ last, cmd env (state_at pre ("(" :: ts) mt al pd pdl n tr pid)
      = .ret (if env.wait_status pid = 0 then 1 else 0)
          (state_at (pre ++ "(" :: ts) [] last al pd pdl n
            (tr ++ [Event.write (" ".intercalate ts), Event.fork pid (some [env.prog_name]) 0,
              Event.waitpid pid true])
            (pid + 1)) := by
  obtain ⟨f, hf⟩ := length_lt_fuel pre ts []
  have hm := match_hit .LT_BRACE pre "(" ts mt al pd pdl n tr pid (by decide)
  have hlen : (state_at pre ("(" :: ts) mt al pd pdl n tr pid).tokens.length + 1
      = (f + 1) + ts.length := by
    have := hf
    simp only [List.append_nil] at this
    exact this
  have hg := cmd_loop_group ts (f + 1) (pre ++ ["("]) [] (some "(") al pd pdl n tr pid
    hclose hne hfit
  simp only [List.append_nil] at hg
  unfold cmd
  simp only [hm, hlen, hbuf]
  rw [if_pos (by decide), hg, cmd_loop_end, bind_ret, run_exernal_shell_run env _ _ hfork]
  refine ⟨token_at (pre ++ ["("] ++ ts) (((pre ++ ["("] ++ ts).length : Int) - 1), ?_⟩
  simp [state_at]

/-- C13 at the line `( ls`: no syntax error is raised; the text `ls` is written to the pipe of
a subshell, which is forked and waited for; `shell_cmd` returns 1 and `main` goes on to
`execute_pipelines`. -/
theorem C13_unterminated_group :
    (main_line sample_env initial_state ["(", "ls"]).is_synerr = false ∧
    (main_line sample_env initial_state ["(", "ls"]).value = some 1 ∧
    (main_line sample_env initial_state ["(", "ls"]).trace =
      [Event.write "ls", Event.fork 0 (some [some "my_shell"]) 0, Event.waitpid 0 true,
        Event.pipeline 0 0] :=
  ⟨by decide, by decide, by decide⟩

/-! ## The frame of `match` and the classes of tokens -/

/-- C15, as stated, fails: on the line `a b`, after `match(LITERAL)` has recorded `a` as the
matched token, the failing `match(PIPE)` returns 0 and resets the matched token to `NULL`. -/
theorem C15_counterexample :
    (match_ .LITERAL (primed initial_state ["a", "b"])).2.matched_token = some "a" ∧
    (match_ .PIPE (match_ .LITERAL (primed initial_state ["a", "b"])).2).1 = 0 ∧
    (match_ .PIPE (match_ .LITERAL (primed initial_state ["a", "b"])).2).2.matched_token
      = none :=
  ⟨by decide, by decide, by decide⟩

theorem match_hit_general (sym : Symbol) (s : State) (h : sym = s.symbol) :
    (match_ sym s).1 = 1 ∧
    (match_ sym s).2.matched_token = token_at s.tokens ((s.next_token : Int) - 1) ∧
    (∀ u, token_at s.tokens s.next_token = some u →
      (match_ sym s).2.symbol = str_to_symbol u ∧
        (match_ sym s).2.next_token = s.next_token + 1) ∧
    (token_at s.tokens s.next_token = none →
      (match_ sym s).2.symbol = .EPSILON ∧ (match_ sym s).2.next_token = s.next_token) := by
  unfold match_
  rw [if_pos h]
  refine ⟨rfl, ?_, ?_, ?_⟩
  · unfold next_symbol
    dsimp only
    split <;> rfl
  · intro u hu
    simp [next_symbol, hu]
  · intro hu
    simp [next_symbol, hu]

theorem token_at_before (l : List String) (n : Nat) (h : 1 ≤ n) :
    token_at l ((n : Int) - 1) = l[n - 1]? := by
  obtain ⟨m, rfl⟩ : ∃ m, n = m + 1 := ⟨n - 1, by omega⟩
  rw [token_at_pred]
  simp

theorem match_hit_inside (sym : Symbol) (s : State) (h : sym = s.symbol) :
    (match_ sym s).1 = 1 ∧
    (∀ t, 1 ≤ s.next_token → s.tokens[s.next_token - 1]? = some t →
      (match_ sym s).2.matched_token = some t) ∧
    (∀ u, s.tokens[s.next_token]? = some u →
      (match_ sym s).2.symbol = str_to_symbol u ∧
        (match_ sym s).2.next_token = s.next_token + 1) ∧
    (s.next_token = s.tokens.length →
      (match_ sym s).2.symbol = .EPSILON ∧ (match_ sym s).2.next_token = s.next_token) := by
  obtain ⟨h1, h2, h3, h4⟩ := match_hit_general sym s h
  rw [token_at_nat] at h3 h4
  refine ⟨h1, fun t hn ht => by rw [h2, token_at_before _ _ hn, ht], h3, fun hl => h4 ?_⟩
  rw [hl]
  exact List.getElem?_eq_none (Nat.le_refl _)

theorem match_eps_inside (pre : List String) (hne : pre ≠ [])
    (mt : CString) (al : Argv) (pd : PipelineData) (pdl : Nat → PipelineData) (n : Nat)
    (tr : List Event) (pid : Nat) :
    match_ .EPSILON (state_at pre [] mt al pd pdl n tr pid)
      = (1, state_at pre [] (some (pre.getLast hne)) al pd pdl n tr pid) := by
  rw [match_eps]
  have hl : 1 ≤ pre.length := List.length_pos.mpr hne
  rw [token_at_before _ _ hl, List.getLast_eq_getElem, List.getElem?_eq_getElem (by omega)]

/-- The functions `next_symbol` and `match` never lower the token position. -/
theorem match_position_mono (sym : Symbol) (s : State) :
    s.next_token ≤ (next_symbol s).next_token ∧ s.next_token ≤ (match_ sym s).2.next_token := by
  have hn : ∀ t : State, t.next_token ≤ (next_symbol t).next_token := by
    intro t
    unfold next_symbol
    split
    · exact Nat.le_succ _
    · exact Nat.le_refl _
  refine ⟨hn s, ?_⟩
  unfold match_
  split
  · exact hn { s with matched_token := token_at s.tokens ((s.next_token : Int) - 1) }
  · exact Nat.le_refl _

/-- After priming on a line with at least one token the token position is 1. -/
theorem primed_position (s : State) (t : String) (rest : List String) :
    (primed s (t :: rest)).next_token = 1 := by
  rw [primed_eq]
  rfl

/-- On a line without tokens `shell_cmd` returns 0, every `match` having failed. -/
theorem empty_line_parse (env : Env) (s : State) :
    shell_cmd env (primed s []) = .ret 0 (state_at [] [] none s.arg_list
      (init_pipeline s.pipeline_data) s.pipeline_data_list s.pipeline_data_list_size s.trace
      s.next_pid) := by
  rw [primed_eq, shell_cmd]
  exact shell_cmd_fuel_end env _ [] _ _ _ _ _ _ _

/-- C15, amended.  In every state, `match` of the lookahead symbol returns 1.  Where its
reads stay inside the token array it does what the claim says: when at least one token has
been read and `tokens[next_token - 1]` is a token `t`, it records `t` as the matched token;
when `tokens[next_token]` is a token it moves the lookahead to the class of that token and
advances the position by one, and at the terminating `NULL` it sets the lookahead to `EPSILON`
and leaves the position.  With the lookahead in step at a token `t` this records `t`, the
token consumed, and leaves the lookahead at the next token; at the end of a line that has
tokens `match(EPSILON)` stays there and records the last token.  Nothing is said of the
matched token at token position 0, where `match` reads `tokens[-1]`.  In every state, `match`
of a symbol that is not the lookahead returns 0 and changes nothing but the matched token,
which becomes `NULL`. -/
theorem C15_match_frame :
    (∀ (sym : Symbol) (s : State), sym = s.symbol →
      (match_ sym s).1 = 1 ∧
      (∀ t, 1 ≤ s.next_token → s.tokens[s.next_token - 1]? = some t →
        (match_ sym s).2.matched_token = some t) ∧
      (∀ u, s.tokens[s.next_token]? = some u →
        (match_ sym s).2.symbol = str_to_symbol u ∧
          (match_ sym s).2.next_token = s.next_token + 1) ∧
      (s.next_token = s.tokens.length →
        (match_ sym s).2.symbol = .EPSILON ∧ (match_ sym s).2.next_token = s.next_token)) ∧
    (∀ (t : String) (pre suf : List String) (mt : CString) (al : Argv) (pd : PipelineData)
      (pdl : Nat → PipelineData) (n : Nat) (tr : List Event) (pid : Nat),
      match_ (str_to_symbol t) (state_at pre (t :: suf) mt al pd pdl n tr pid)
        = (1, state_at (pre ++ [t]) suf (some t) al pd pdl n tr pid)) ∧
    (∀ (pre : List String) (hne : pre ≠ []) (mt : CString) (al : Argv) (pd : PipelineData)
      (pdl : Nat → PipelineData) (n : Nat) (tr : List Event) (pid : Nat),
      match_ .EPSILON (state_at pre [] mt al pd pdl n tr pid)
        = (1, state_at pre [] (some (pre.getLast hne)) al pd pdl n tr pid)) ∧
    (∀ (sym : Symbol) (s : State), sym ≠ s.symbol →
      match_ sym s = (0, { s with matched_token := none })) := by
  refine ⟨match_hit_inside,
    fun t pre suf mt al pd pdl n tr pid => match_hit _ pre t suf mt al pd pdl n tr pid rfl,
    fun pre hne mt al pd pdl n tr pid => match_eps_inside pre hne mt al pd pdl n tr pid, ?_⟩
  intro sym s h
  simp [match_, h]

/-- C18: for each of the ten operator strings `str_to_symbol` returns a symbol other than
`LITERAL` whose entry in `symbol_str` is the string itself; for every other string it returns
`LITERAL`; it never returns `EPSILON`. -/
theorem C18_str_to_symbol_exact (str : String) :
    (str ∈ ["|", ";", "&", "&&", "||", "<", ">", ">>", "(", ")"] →
      symbol_str (str_to_symbol str) = str ∧ str_to_symbol str ≠ .LITERAL) ∧
    (str ∉ ["|", ";", "&", "&&", "||", "<", ">", ">>", "(", ")"] →
      str_to_symbol str = .LITERAL) ∧
    str_to_symbol str ≠ .EPSILON := by
  refine ⟨?_, ?_, str_to_symbol_ne_epsilon str⟩
  · intro h
    simp only [List.mem_cons, List.mem_singleton, List.not_mem_nil, or_false] at h
    rcases h with rfl | rfl | rfl | rfl | rfl | rfl | rfl | rfl | rfl | rfl <;> decide
  · intro h
    simp only [List.mem_cons, List.mem_singleton, List.not_mem_nil, or_false, not_or] at h
    obtain ⟨h1, h2, h3, h4, h5, h6, h7, h8, h9, h10⟩ := h
    simp [str_to_symbol, h1, h2, h3, h4, h5, h6, h7, h8, h9, h10]

/-! ## The tokenizer and the text of a group -/

theorem data_intercalate_go (ts : List String) :
    ∀ acc : String, (String.intercalate.go acc " " ts).data
      = acc.data ++ ts.flatMap fun u => ' ' :: u.data := by
  induction ts with
  | nil => intro acc; simp [String.intercalate.go]
  | cons t ts ih =>
    intro acc
    simp only [String.intercalate.go, ih, String.data_append, List.flatMap_cons]
    simp

theorem data_intercalate (ts : List String) : (" ".intercalate ts).data = rest_chars ts := by
  cases ts with
  | nil => rfl
  | cons t ts => exact data_intercalate_go ts t

theorem takeWhile_run (p : Char → Bool) (l tail : List Char) (hl : ∀ c ∈ l, p c = true)
    (ht : ∀ c, tail.head? = some c → p c = false) : (l ++ tail).takeWhile p = l := by
  induction l with
  | nil =>
    cases tail with
    | nil => rfl
    | cons c cs => simp [List.takeWhile, ht c rfl]
  | cons c cs ih =>
    simp [List.takeWhile, hl c (by simp)]
    exact ih (fun x hx => hl x (by simp [hx]))

theorem dropWhile_run (p : Char → Bool) (l tail : List Char) (hl : ∀ c ∈ l, p c = true)
    (ht : ∀ c, tail.head? = some c → p c = false) : (l ++ tail).dropWhile p = tail := by
  induction l with
  | nil =>
    cases tail with
    | nil => rfl
    | cons c cs => simp [List.dropWhile, ht c rfl]
  | cons c cs ih =>
    simp [List.dropWhile, hl c (by simp)]
    exact ih (fun x hx => hl x (by simp [hx]))

theorem strtok_token (t : String) (tail : List Char) (ht : plain_token t)
    (htail : ∀ c, tail.head? = some c → is_delimiter c = true) :
    strtok (t.data ++ tail) = some (t, tail.drop 1) := by
  obtain ⟨hne, hplain⟩ := ht
  cases t with
  | mk data =>
    cases data with
    | nil => exact absurd rfl hne
    | cons c cs =>
      have hc : is_delimiter c = false := hplain c (by simp)
      have e1 : ((c :: cs) ++ tail).dropWhile is_delimiter = (c :: cs) ++ tail := by
        simp [List.dropWhile, hc]
      have e2 := takeWhile_run (fun x => !is_delimiter x) (c :: cs) tail
        (fun x hx => by simp [hplain x hx]) (fun x hx => by simp [htail x hx])
      have e3 := dropWhile_run (fun x => !is_delimiter x) (c :: cs) tail
        (fun x hx => by simp [hplain x hx]) (fun x hx => by simp [htail x hx])
      simp only [strtok, e1]
      simp only [List.cons_append] at e2 e3 ⊢
      simp only [e2, e3]

theorem strtok_rest_chars (t : String) (ts : List String) (ht : plain_token t) :
    strtok (rest_chars (t :: ts)) = some (t, rest_chars ts) := by
  have h := strtok_token t (ts.flatMap fun u => ' ' :: u.data) ht (by
    intro c hc
    cases ts with
    | nil => simp at hc
    | cons u us =>
      simp at hc
      subst hc
      decide)
  rw [rest_chars, h]
  cases ts with
  | nil => rfl
  | cons u us => simp [rest_chars]

theorem tokenize_loop_tokens (slots : Nat) (ts : List String) :
    ∀ (fuel : Nat) (acc : List String), (∀ t ∈ ts, plain_token t) →
      acc.length + ts.length < slots → ts.length < fuel →
      tokenize_loop slots fuel (strtok (rest_chars ts)) acc = .tokens (acc ++ ts) := by
  induction ts with
  | nil =>
    intro fuel acc _ hcap hfuel
    obtain ⟨f, rfl⟩ : ∃ f, fuel = f + 1 := ⟨fuel - 1, by simp at hfuel; omega⟩
    have e : strtok (rest_chars []) = none := rfl
    rw [e]
    simp at hcap
    simp [tokenize_loop, hcap]
  | cons t ts ih =>
    intro fuel acc hts hcap hfuel
    obtain ⟨f, rfl⟩ : ∃ f, fuel = f + 1 := ⟨fuel - 1, by simp at hfuel; omega⟩
    simp only [List.length_cons] at hcap hfuel
    rw [strtok_rest_chars t ts (hts t (by simp))]
    have hlt : acc.length < slots := by omega
    simp only [tokenize_loop, hlt, if_true]
    rw [ih f (acc ++ [t]) (fun u hu => hts u (by simp [hu])) (by simp; omega) (by omega)]
    simp

theorem length_le_rest_chars (ts : List String) (hts : ∀ t ∈ ts, plain_token t) :
    ts.length ≤ (rest_chars ts).length := by
  have hflat : ∀ us : List String,
      us.length ≤ (us.flatMap fun u => ' ' :: u.data).length := by
    intro us
    induction us with
    | nil => simp
    | cons u us ih => simp at ih ⊢; omega
  cases ts with
  | nil => simp
  | cons t ts =>
    have h1 := hflat ts
    have h2 : 1 ≤ t.data.length := by
      obtain ⟨hne, _⟩ := hts t (by simp)
      cases t with
      | mk data =>
        cases data with
        | nil => exact absurd rfl hne
        | cons c cs => simp
    simp only [rest_chars, List.length_cons, List.length_append]
    omega

/-- The round trip of `tokenize` on tokens joined by single spaces, within the array. -/
theorem tokenize_join (ptr_size : Nat) (ts : List String) (hts : ∀ t ∈ ts, plain_token t)
    (hcap : ts.length < TOKENS_BUFSIZE / ptr_size) :
    tokenize ptr_size (" ".intercalate ts) = .tokens ts := by
  have hlen : ts.length < (" ".intercalate ts).length + 1 := by
    have := length_le_rest_chars ts hts
    rw [← data_intercalate] at this
    exact Nat.lt_succ_of_le this
  unfold tokenize
  rw [data_intercalate, tokenize_loop_tokens _ ts _ [] hts (by simpa using hcap) hlen]
  simp

theorem tokenize_loop_overrun (slots : Nat) (ts : List String) :
    ∀ (fuel : Nat) (acc : List String), (∀ t ∈ ts, plain_token t) →
      slots ≤ acc.length + ts.length → ts.length < fuel →
      tokenize_loop slots fuel (strtok (rest_chars ts)) acc = .overrun := by
  induction ts with
  | nil =>
    intro fuel acc _ hcap hfuel
    obtain ⟨f, rfl⟩ : ∃ f, fuel = f + 1 := ⟨fuel - 1, by simp at hfuel; omega⟩
    have e : strtok (rest_chars []) = none := rfl
    rw [e]
    simp at hcap
    have hn : ¬ acc.length < slots := by omega
    simp [tokenize_loop, hn]
  | cons t ts ih =>
    intro fuel acc hts hcap hfuel
    obtain ⟨f, rfl⟩ : ∃ f, fuel = f + 1 := ⟨fuel - 1, by simp at hfuel; omega⟩
    simp only [List.length_cons] at hcap hfuel
    rw [strtok_rest_chars t ts (hts t (by simp))]
    simp only [tokenize_loop]
    split
    · exact ih f (acc ++ [t]) (fun u hu => hts u (by simp [hu])) (by simp; omega) (by omega)
    · rfl

/-- A line of at least `64 / sizeof(char *)` tokens overruns the array of `tokenize`. -/
theorem tokenize_join_overrun (ptr_size : Nat) (ts : List String)
    (hts : ∀ t ∈ ts, plain_token t) (hcap : TOKENS_BUFSIZE / ptr_size ≤ ts.length) :
    tokenize ptr_size (" ".intercalate ts) = .overrun := by
  have hlen : ts.length < (" ".intercalate ts).length + 1 := by
    have := length_le_rest_chars ts hts
    rw [← data_intercalate] at this
    exact Nat.lt_succ_of_le this
  unfold tokenize
  rw [data_intercalate, tokenize_loop_overrun _ ts _ [] hts (by simpa using hcap) hlen]

theorem main_parse_overrun (env : Env) (ptr_size : Nat) (s : State) (ts : List String)
    (hts : ∀ t ∈ ts, plain_token t) (hlen : 64 ≤ ts.length) :
    main_parse env ptr_size s (" ".intercalate ts) = .undefined := by
  have h2 : TOKENS_BUFSIZE / ptr_size ≤ 64 := Nat.div_le_self 64 ptr_size
  simp [main_parse, tokenize_join_overrun ptr_size ts hts (by omega)]

/-- C19, as stated, fails: where a pointer has 8 bytes the array of `tokenize` has 8
elements, and for a line of 8 tokens the terminating `NULL` is written past its end; where a
pointer has 4 bytes the same happens for 16 tokens. -/
theorem C19_counterexample :
    tokenize 8 (" ".intercalate ["a", "b", "c", "d", "e", "f", "g", "h"]) = .overrun ∧
    tokenize 4 (" ".intercalate (List.replicate 16 "a")) = .overrun :=
  ⟨by decide, by decide⟩

theorem plain_token_ne_empty (ts : List String) (hts : ∀ t ∈ ts, plain_token t) :
    ∀ t ∈ ts, t ≠ "" := fun t ht => (hts t ht).1

/-- C19, amended: for every list of tokens, each non-empty and without space, tab, carriage
return and newline, that has fewer than `64 / sizeof(char *)` elements, `tokenize` of the
tokens joined by single spaces returns exactly that list, in order.  Hence, when such tokens
stand in a group `( t1 ... tn )` that `cmd` captures (no `ti` is `)`, the text is shorter than
1024 bytes, the buffer `malloc` returns starts with a NUL byte, the `fork` succeeds), the text
written to the subshell is tokenized into exactly `t1 ... tn`. -/
theorem C19_subshell_round_trip (ptr_size : Nat) (ts : List String)
    (hts : ∀ t ∈ ts, plain_token t) (hcap : ts.length < TOKENS_BUFSIZE / ptr_size) :
    tokenize ptr_size (" ".intercalate ts) = .tokens ts ∧
    ∀ (env : Env) (pre rest : List String) (mt : CString) (al : Argv) (pd : PipelineData)
      (pdl : Nat → PipelineData) (n : Nat) (tr : List Event) (pid : Nat),
      (∀ t ∈ ts, t ≠ ")") → env.malloc_str = "" → (" ".intercalate ts).utf8ByteSize < 1024 →
      env.fork_ok pid = true →
      ∃ str,
        (cmd env (state_at pre ("(" :: (ts ++ ")" :: rest)) mt al pd pdl n tr pid)).trace
          = tr ++ [Event.write str, Event.fork pid (some [env.prog_name]) 0,
              Event.waitpid pid true] ∧
        tokenize ptr_size str = .tokens ts := by
  have hround := tokenize_join ptr_size ts hts hcap
  refine ⟨hround, ?_⟩
  intro env pre rest mt al pd pdl n tr pid hclose hbuf hfit hfork
  refine ⟨" ".intercalate ts, ?_, hround⟩
  rw [cmd_group env ts rest pre mt al pd pdl n tr pid hclose (plain_token_ne_empty ts hts) hbuf
    hfit hfork]
  rfl

/-- The theorem of C19 at the tokens `ls -l | wc`, a pointer having 8 bytes. -/
theorem C19_subshell_round_trip_witness :
    tokenize 8 (" ".intercalate ["ls", "-l", "|", "wc"]) = .tokens ["ls", "-l", "|", "wc"] ∧
    ∀ (env : Env) (pre rest : List String) (mt : CString) (al : Argv) (pd : PipelineData)
      (pdl : Nat → PipelineData) (n : Nat) (tr : List Event) (pid : Nat),
      (∀ t ∈ ["ls", "-l", "|", "wc"], t ≠ ")") → env.malloc_str = "" →
      (" ".intercalate ["ls", "-l", "|", "wc"]).utf8ByteSize < 1024 →
      env.fork_ok pid = true →
      ∃ str,
        (cmd env (state_at pre ("(" :: (["ls", "-l", "|", "wc"] ++ ")" :: rest)) mt al pd pdl n
            tr pid)).trace
          = tr ++ [Event.write str, Event.fork pid (some [env.prog_name]) 0,
              Event.waitpid pid true] ∧
        tokenize 8 str = .tokens ["ls", "-l", "|", "wc"] :=
  C19_subshell_round_trip 8 ["ls", "-l", "|", "wc"] (by decide) (by decide)

theorem length_dropWhile_le (p : Char → Bool) (l : List Char) :
    (l.dropWhile p).length ≤ l.length := by
  induction l with
  | nil => simp
  | cons c cs ih =>
    simp only [List.dropWhile]
    split
    · simp only [List.length_cons]; omega
    · exact Nat.le_refl _

theorem head_dropWhile (p : Char → Bool) (l : List Char) (c : Char) (cs : List Char)
    (h : l.dropWhile p = c :: cs) : p c = false := by
  induction l with
  | nil => simp at h
  | cons d ds ih =>
    simp only [List.dropWhile] at h
    split at h
    · exact ih h
    · rename_i hd
      simp only [List.cons.injEq] at h
      rw [← h.1]
      simpa using hd

theorem strtok_shorter (r : List Char) (token : String) (rest : List Char)
    (h : strtok r = some (token, rest)) : rest.length < r.length := by
  unfold strtok at h
  split at h
  · exact absurd h (by simp)
  · rename_i c cs hd
    have hc := head_dropWhile is_delimiter r c cs hd
    have h1 := length_dropWhile_le is_delimiter r
    rw [hd] at h1
    simp only [Option.some.injEq, Prod.mk.injEq] at h
    have h2 : ((c :: cs).dropWhile fun x => !is_delimiter x)
        = cs.dropWhile fun x => !is_delimiter x := by
      simp [List.dropWhile, hc]
    have h3 := length_dropWhile_le (fun x => !is_delimiter x) cs
    rw [← h.2, h2, List.length_drop]
    simp only [List.length_cons] at h1
    omega

theorem tokenize_loop_halts (slots : Nat) (fuel : Nat) :
    ∀ (r : List Char) (toks : List String), r.length < fuel →
      tokenize_loop slots fuel (strtok r) toks ≠ .out_of_fuel := by
  induction fuel with
  | zero => intro r toks h; omega
  | succ fuel ih =>
    intro r toks h
    cases hs : strtok r with
    | none =>
      simp only [tokenize_loop]
      split <;> simp
    | some x =>
      obtain ⟨token, rest⟩ := x
      have hlt := strtok_shorter r token rest hs
      simp only [tokenize_loop]
      split
      · exact ih rest _ (by omega)
      · simp

/-- The loop of `tokenize` ends for every line: each call of `strtok` leaves a shorter rest. -/
theorem tokenize_halts (ptr_size : Nat) (line : String) :
    tokenize ptr_size line ≠ .out_of_fuel :=
  tokenize_loop_halts _ _ line.data [] (Nat.lt_succ_self _)

/-! ## Lines past the capacities of the arrays -/

set_option maxRecDepth 100000 in
/-- C12 fails on the line `a | a | ... | a` of 65 stages and on the line `a ; a ; ... ; a` of
65 pipelines (129 tokens each, joined by single spaces): whatever the size of a pointer, the
globals and the environment, the line is not rejected; `tokenize` writes its tokens past the
end of the 64 bytes of its array, and the behaviour of the program is undefined before the
parser is called. -/
theorem C12_overlong_line (env : Env) (ptr_size : Nat) (s : State) :
    main_parse env ptr_size s (" ".intercalate (pipeline_tokens (List.replicate 65 ["a"])))
      = .undefined ∧
    main_parse env ptr_size s
      (" ".intercalate (chain_tokens (List.replicate 64 ([["a"]], Sep.semicolon)) [["a"]] false))
      = .undefined :=
  ⟨main_parse_overrun env ptr_size s _ (by decide) (by decide),
    main_parse_overrun env ptr_size s _ (by decide) (by decide)⟩

/-! ## Termination of the parser -/

theorem halts_bind {α β : Type} (P Q : State → Prop) (r : Res α) (f : α → State → Res β)
    (hr : r.ends P) (hf : ∀ a s, P s → (f a s).ends Q) (hpq : ∀ s, P s → Q s) :
    (r.bind f).ends Q := by
  cases r with
  | ret a s => exact hf a s hr
  | synerr e g s => exact hpq s hr
  | forkerr s => exact hpq s hr
  | undefined => trivial
  | out_of_fuel => exact hr

theorem halts_mono {α : Type} (P Q : State → Prop) (r : Res α) (hr : r.ends P)
    (hpq : ∀ s, P s → Q s) : r.ends Q := by
  cases r with
  | ret a s => exact hpq s hr
  | synerr e g s => exact hpq s hr
  | forkerr s => exact hpq s hr
  | undefined => trivial
  | out_of_fuel => exact hr

theorem progress_refl (s : State) : progress s s := ⟨rfl, Nat.le_refl _⟩

theorem progress_trans (s0 s1 s2 : State) (h1 : progress s0 s1) (h2 : progress s1 s2) :
    progress s0 s2 := ⟨h2.1.trans h1.1, Nat.le_trans h2.2 h1.2⟩

theorem progress_congr (s0 s s1 : State) (h : progress s0 s) (h1 : s1.tokens = s.tokens)
    (h2 : s1.symbol = s.symbol) (h3 : s1.next_token = s.next_token) : progress s0 s1 := by
  unfold progress unconsumed at *
  rw [h1, h2, h3]
  exact h

theorem unconsumed_next_symbol (s : State) :
    (next_symbol s).tokens = s.tokens ∧
    unconsumed (next_symbol s) + (if s.symbol = .EPSILON then 0 else 1) = unconsumed s := by
  cases hget : s.tokens[s.next_token]? with
  | none =>
    have e : next_symbol s = { s with symbol := .EPSILON } := by
      unfold next_symbol; rw [token_at_nat, hget]
    have hge : s.tokens.length ≤ s.next_token := List.getElem?_eq_none_iff.mp hget
    rw [e]
    refine ⟨rfl, ?_⟩
    simp only [unconsumed, if_true]
    omega
  | some t =>
    have e : next_symbol s
        = { s with symbol := str_to_symbol t, next_token := s.next_token + 1 } := by
      unfold next_symbol; rw [token_at_nat, hget]
    obtain ⟨hlt, _⟩ := List.getElem?_eq_some_iff.mp hget
    rw [e]
    refine ⟨rfl, ?_⟩
    simp only [unconsumed, if_neg (str_to_symbol_ne_epsilon t)]
    split <;> omega

theorem unconsumed_next_symbol_of (s0 s : State) (h1 : s.tokens = s0.tokens)
    (h2 : s.symbol = s0.symbol) (h3 : s.next_token = s0.next_token) :
    (next_symbol s).tokens = s0.tokens ∧
    unconsumed (next_symbol s) + (if s0.symbol = .EPSILON then 0 else 1) = unconsumed s0 := by
  have h := unconsumed_next_symbol s
  have e : unconsumed s = unconsumed s0 := by
    unfold unconsumed
    rw [h1, h2, h3]
  rw [h1, h2, e] at h
  exact h

theorem match_state_hit (sym : Symbol) (s : State) (h : sym = s.symbol) :
    ∃ s1, match_ sym s = (1, next_symbol s1) ∧ s1.tokens = s.tokens ∧ s1.symbol = s.symbol ∧
      s1.next_token = s.next_token :=
  ⟨{ s with matched_token := token_at s.tokens ((s.next_token : Int) - 1) },
    by simp [match_, h], rfl, rfl, rfl⟩

theorem match_state_miss (sym : Symbol) (s : State) (h : ¬ (match_ sym s).1 ≠ 0) :
    sym ≠ s.symbol ∧ (match_ sym s).2.tokens = s.tokens ∧
      (match_ sym s).2.symbol = s.symbol ∧ (match_ sym s).2.next_token = s.next_token := by
  by_cases he : sym = s.symbol
  · exact absurd (by simp [match_, he]) h
  · exact ⟨he, by simp [match_, he], by simp [match_, he], by simp [match_, he]⟩

theorem progress_match (sym : Symbol) (s : State) : progress s (match_ sym s).2 := by
  by_cases he : sym = s.symbol
  · obtain ⟨s1, e, h1, h2, h3⟩ := match_state_hit sym s he
    obtain ⟨h4, h5⟩ := unconsumed_next_symbol_of s s1 h1 h2 h3
    rw [e]
    exact ⟨h4, by dsimp only; omega⟩
  · have e : match_ sym s = (0, { s with matched_token := none }) := by simp [match_, he]
    rw [e]
    exact ⟨rfl, Nat.le_refl _⟩

theorem unconsumed_match_hit (sym : Symbol) (s : State) (hs : s.symbol ≠ .EPSILON)
    (h : (match_ sym s).1 ≠ 0) : unconsumed (match_ sym s).2 + 1 = unconsumed s := by
  obtain ⟨s1, e, h1, h2, h3⟩ := match_state_hit sym s (match_hit_symbol sym s h).symm
  obtain ⟨_, h5⟩ := unconsumed_next_symbol_of s s1 h1 h2 h3
  rw [if_neg hs] at h5
  rw [e]
  exact h5

theorem unconsumed_match_lt (sym : Symbol) (s : State) (hs : sym ≠ .EPSILON)
    (h : (match_ sym s).1 ≠ 0) : unconsumed (match_ sym s).2 < unconsumed s := by
  have hsym := match_hit_symbol sym s h
  have := unconsumed_match_hit sym s (by rw [hsym]; exact hs) h
  omega

theorem halts_expect (sym : Symbol) (s : State) : (expect sym s).ends (progress s) := by
  unfold expect
  dsimp only
  split
  · exact progress_match sym s
  · exact progress_match sym s

theorem halts_simple_cmd_loop (fuel : Nat) :
    ∀ (args : List CString) (s : State), unconsumed s < fuel →
      (simple_cmd_loop fuel args s).ends (progress s) := by
  induction fuel with
  | zero => intro args s h; omega
  | succ fuel ih =>
    intro args s h
    have hm := progress_match .LITERAL s
    unfold simple_cmd_loop
    dsimp only
    split
    · rename_i hhit
      have hlt := unconsumed_match_lt .LITERAL s (by decide) hhit
      split
      · exact halts_mono _ _ _ (ih _ _ (by omega)) (fun s1 h1 => progress_trans _ _ _ hm h1)
      · trivial
    · split
      · exact hm
      · trivial

theorem unconsumed_le (s : State) : unconsumed s ≤ s.tokens.length + 1 := by
  unfold unconsumed
  split <;> omega

theorem halts_simple_cmd (env : Env) (s : State) : (simple_cmd env s).ends (progress s) := by
  have hm := progress_match .LITERAL s
  unfold simple_cmd
  dsimp only
  split
  · rename_i hhit
    have hlt := unconsumed_match_lt .LITERAL s (by decide) hhit
    have hle := unconsumed_le s
    refine halts_bind (progress s) _ _ _
      (halts_mono _ _ _ (halts_simple_cmd_loop _ _ _ (by omega))
        (fun s1 h1 => progress_trans _ _ _ hm h1)) ?_ (fun _ h => h)
    intro args s1 h1
    split
    · exact progress_congr s s1 _ h1 rfl rfl rfl
    · trivial
  · exact hm

theorem halts_pipeline_fuel (env : Env) (fuel : Nat) :
    ∀ (s : State), unconsumed s < fuel → (pipeline_fuel env fuel s).ends (progress s) := by
  induction fuel with
  | zero => intro s h; omega
  | succ fuel ih =>
    intro s h
    unfold pipeline_fuel
    dsimp only
    refine halts_bind (progress s) _ _ _ (halts_simple_cmd env s) ?_ (fun _ h => h)
    intro r s1 h1
    have hp : progress s (push_cmd s1) := progress_congr s s1 _ h1 rfl rfl rfl
    have hm := progress_trans _ _ _ hp (progress_match .PIPE (push_cmd s1))
    split
    · split
      · split
        · rename_i hhit
          have hlt := unconsumed_match_lt .PIPE (push_cmd s1) (by decide) hhit
          have hle := hp.2
          refine halts_bind (progress s) _ _ _
            (halts_mono _ _ _ (ih _ (by omega)) (fun s2 h2 => progress_trans _ _ _ hm h2))
            ?_ (fun _ h => h)
          intro _ s2 h2
          exact h2
        · exact hm
      · trivial
    · exact h1

theorem halts_pipeline (env : Env) (s : State) (h : unconsumed s ≤ s.tokens.length) :
    (pipeline env s).ends (progress s) :=
  halts_pipeline_fuel env _ s (by omega)

theorem halts_redirect_set (sym : Symbol) (s : State) (g : State → PipelineData) :
    ((expect sym s).bind fun r s1 =>
      if r ≠ 0 then .ret 1 { s1 with pipeline_data := g s1 } else .ret 0 s1).ends
      (progress s) := by
  refine halts_bind (progress s) _ _ _ (halts_expect sym s) ?_ (fun _ h => h)
  intro r s1 h1
  split
  · exact progress_congr s s1 _ h1 rfl rfl rfl
  · exact h1

theorem halts_o_redirect (s : State) : (o_redirect s).ends (progress s) := by
  have hm := progress_match .GRATER s
  have hm2 := progress_trans _ _ _ hm (progress_match .DOUBLE_GRATER (match_ .GRATER s).2)
  unfold o_redirect
  dsimp only
  split
  · exact halts_mono _ _ _ (halts_redirect_set .LITERAL _ _)
      (fun s1 h1 => progress_trans _ _ _ hm h1)
  · split
    · exact halts_mono _ _ _ (halts_redirect_set .LITERAL _ _)
        (fun s1 h1 => progress_trans _ _ _ hm2 h1)
    · exact hm2

theorem halts_i_redirect (s : State) : (i_redirect s).ends (progress s) := by
  have hm := progress_match .SMALLER s
  unfold i_redirect
  dsimp only
  split
  · exact halts_mono _ _ _ (halts_redirect_set .LITERAL _ _)
      (fun s1 h1 => progress_trans _ _ _ hm h1)
  · exact hm

theorem halts_io_redirect (s : State) : (io_redirect s).ends (progress s) := by
  unfold io_redirect
  refine halts_bind (progress s) _ _ _ (halts_i_redirect s) ?_ (fun _ h => h)
  intro i s1 h1
  split
  · refine halts_bind (progress s) _ _ _
      (halts_mono _ _ _ (halts_o_redirect s1) (fun s2 h2 => progress_trans _ _ _ h1 h2)) ?_
      (fun _ h => h)
    intro _ s2 h2
    exact h2
  · refine halts_bind (progress s) _ _ _
      (halts_mono _ _ _ (halts_o_redirect s1) (fun s2 h2 => progress_trans _ _ _ h1 h2)) ?_
      (fun _ h => h)
    intro o s2 h2
    split
    · refine halts_bind (progress s) _ _ _
        (halts_mono _ _ _ (halts_i_redirect s2) (fun s3 h3 => progress_trans _ _ _ h2 h3)) ?_
        (fun _ h => h)
      intro _ s3 h3
      exact h3
    · exact h2

theorem halts_run_exernal_shell (env : Env) (str : String) (s : State) :
    (run_exernal_shell env str s).ends (progress s) := by
  unfold run_exernal_shell execute_pipeline
  simp only [external_pipeline, execute_pipeline_loop, Nat.lt_add_one, if_true]
  split
  · simp only [Nat.sub_self, decide_True, and_self, if_true]
    exact progress_congr s s _ (progress_refl s) rfl rfl rfl
  · exact progress_congr s s _ (progress_refl s) rfl rfl rfl

theorem halts_cmd_loop (fuel : Nat) :
    ∀ (str : String) (s : State), unconsumed s < fuel →
      (cmd_loop fuel str s).ends (progress s) := by
  induction fuel with
  | zero => intro str s h; omega
  | succ fuel ih =>
    intro str s h
    have hm := progress_match .EPSILON s
    have hm2 := progress_trans _ _ _ hm (progress_match .RT_BRACE (match_ .EPSILON s).2)
    unfold cmd_loop
    dsimp only
    split
    · exact hm
    · rename_i hmiss
      split
      · exact hm2
      · rename_i hmiss2
        obtain ⟨hne, _, hsy, _⟩ := match_state_miss .EPSILON s hmiss
        obtain ⟨_, _, hsy2, _⟩ := match_state_miss .RT_BRACE _ hmiss2
        have hsym : (match_ .RT_BRACE (match_ .EPSILON s).2).2.symbol ≠ .EPSILON := by
          rw [hsy2, hsy]
          exact fun e => hne e.symm
        obtain ⟨hn1, hn2⟩ := unconsumed_next_symbol (match_ .RT_BRACE (match_ .EPSILON s).2).2
        rw [if_neg hsym] at hn2
        have hle := hm2.2
        have hrec : ∀ str1 : String,
            (cmd_loop fuel str1
              (next_symbol (match_ .RT_BRACE (match_ .EPSILON s).2).2)).ends (progress s) := by
          intro str1
          refine halts_mono _ _ _ (ih str1 _ (by omega)) ?_
          intro s1 h1
          exact progress_trans _ _ _ hm2 (progress_trans _ _ _ ⟨hn1, by omega⟩ h1)
        repeat' split
        all_goals first
          | trivial
          | exact hrec _

theorem halts_cmd (env : Env) (s : State) (h : unconsumed s ≤ s.tokens.length) :
    (cmd env s).ends (progress s) := by
  have hm := progress_match .LT_BRACE s
  unfold cmd
  dsimp only
  split
  · refine halts_bind (progress s) _ _ _
      (halts_mono _ _ _ (halts_cmd_loop _ _ _ (by have := hm.2; omega))
        (fun s1 h1 => progress_trans _ _ _ hm h1)) ?_ (fun _ h => h)
    intro str s1 h1
    exact halts_mono _ _ _ (halts_run_exernal_shell env str s1)
      (fun s2 h2 => progress_trans _ _ _ h1 h2)
  · have hpipe : ∀ s1, progress s s1 → (pipeline env s1).ends (progress s) := by
      intro s1 h1
      refine halts_mono _ _ _ (halts_pipeline env s1 ?_) (fun s2 h2 => progress_trans _ _ _ h1 h2)
      have := h1.2
      rw [h1.1]
      omega
    refine halts_bind (progress s) _ _ _
      (halts_mono _ _ _ (halts_io_redirect _) (fun s1 h1 => progress_trans _ _ _ hm h1)) ?_
      (fun _ h => h)
    intro io s1 h1
    split
    · refine halts_bind (progress s) _ _ _ (hpipe s1 h1) ?_ (fun _ h => h)
      intro p s2 h2
      split <;> exact h2
    · refine halts_bind (progress s) _ _ _ (hpipe s1 h1) ?_ (fun _ h => h)
      intro p s2 h2
      split
      · refine halts_bind (progress s) _ _ _
          (halts_mono _ _ _ (halts_io_redirect s2) (fun s3 h3 => progress_trans _ _ _ h2 h3)) ?_
          (fun _ h => h)
        intro _ s3 h3
        exact h3
      · exact h2

theorem halts_conditional_cmd_fuel (env : Env) (fuel : Nat) :
    ∀ (s : State), unconsumed s ≤ s.tokens.length → unconsumed s < fuel →
      (conditional_cmd_fuel env fuel s).ends (progress s) := by
  induction fuel with
  | zero => intro s _ h; omega
  | succ fuel ih =>
    intro s hlen h
    unfold conditional_cmd_fuel
    have h0 : progress s { s with pipeline_data := init_pipeline s.pipeline_data } :=
      progress_congr s s _ (progress_refl s) rfl rfl rfl
    refine halts_bind (progress s) _ _ _
      (halts_mono _ _ _ (halts_cmd env { s with pipeline_data := init_pipeline s.pipeline_data }
        hlen) (fun s1 h1 => progress_trans _ _ _ h0 h1)) ?_ (fun _ h => h)
    intro c s1 h1
    have hp : progress s (push_pipeline s1) := progress_congr s s1 _ h1 rfl rfl rfl
    have hm := progress_trans _ _ _ hp (progress_match .DOUBLE_AMP (push_pipeline s1))
    have hm2 := progress_trans _ _ _ hm
      (progress_match .DOUBLE_PIPE (match_ .DOUBLE_AMP (push_pipeline s1)).2)
    have hrec : ∀ (cnd : RunCondition) (s2 : State), progress s s2 → unconsumed s2 < fuel →
        (conditional_cmd_fuel env fuel (set_run_condition cnd s2)).ends (progress s) := by
      intro cnd s2 h2 hlt
      have h3 : progress s (set_run_condition cnd s2) := progress_congr s s2 _ h2 rfl rfl rfl
      have e : unconsumed (set_run_condition cnd s2) = unconsumed s2 := rfl
      refine halts_mono _ _ _ (ih _ ?_ (by rw [e]; exact hlt))
        (fun s3 h4 => progress_trans _ _ _ h3 h4)
      have := h3.2
      rw [h3.1]
      omega
    dsimp only
    split
    · split
      · split
        · rename_i hhit
          have hlt := unconsumed_match_lt .DOUBLE_AMP (push_pipeline s1) (by decide) hhit
          exact hrec _ _ hm (by have := hp.2; omega)
        · split
          · rename_i hhit
            have hlt := unconsumed_match_lt .DOUBLE_PIPE _ (by decide) hhit
            exact hrec _ _ hm2 (by have := hm.2; omega)
          · exact hm2
      · trivial
    · exact h1

theorem halts_shell_cmd_tail (result : Nat) (s : State) :
    (shell_cmd_tail result s).ends (progress s) := by
  have hm := progress_match .AMP s
  unfold shell_cmd_tail
  dsimp only
  split
  · split
    · split
      · trivial
      · exact progress_congr s _ _ hm rfl rfl rfl
    · exact halts_mono _ _ _ (halts_expect .EPSILON _) (fun s1 h1 => progress_trans _ _ _ hm h1)
  · exact progress_refl s

theorem halts_shell_cmd_fuel (env : Env) (fuel : Nat) :
    ∀ (s : State), unconsumed s ≤ s.tokens.length → unconsumed s < fuel →
      (shell_cmd_fuel env fuel s).ends (progress s) := by
  induction fuel with
  | zero => intro s _ h; omega
  | succ fuel ih =>
    intro s hlen h
    rw [shell_cmd_fuel_succ]
    refine halts_bind (progress s) _ _ _
      (halts_conditional_cmd_fuel env _ s hlen (by omega)) ?_ (fun _ h => h)
    intro c s1 h1
    have hm := progress_trans _ _ _ h1 (progress_match .SEMICOLON s1)
    have hm2 := progress_trans _ _ _ hm (progress_match .AMP (match_ .SEMICOLON s1).2)
    have hrec : ∀ (s2 : State), progress s s2 → unconsumed s2 < fuel →
        (shell_cmd_fuel env fuel s2).ends (progress s) := by
      intro s2 h2 hlt
      refine halts_mono _ _ _ (ih _ ?_ hlt) (fun s3 h4 => progress_trans _ _ _ h2 h4)
      have := h2.2
      rw [h2.1]
      omega
    unfold shell_cmd_rest
    dsimp only
    split
    · refine halts_bind (progress s) _ _ _ ?_
        (fun r s2 h2 => halts_mono _ _ _ (halts_shell_cmd_tail r s2)
          (fun s3 h3 => progress_trans _ _ _ h2 h3)) (fun _ h => h)
      split
      · rename_i hhit
        have hlt := unconsumed_match_lt .SEMICOLON s1 (by decide) hhit
        exact hrec _ hm (by have := h1.2; omega)
      · split
        · rename_i hhit
          have hlt := unconsumed_match_lt .AMP _ (by decide) hhit
          split
          · trivial
          · exact hrec _ (progress_congr s _ _ hm2 rfl rfl rfl) (by
              have e : unconsumed (set_run_in_background
                  (match_ .AMP (match_ .SEMICOLON s1).2).2)
                  = unconsumed (match_ .AMP (match_ .SEMICOLON s1).2).2 := rfl
              have := hm.2
              omega)
        · exact hm2
    · exact h1

theorem unconsumed_state_at (pre suf : List String) (mt : CString) (al : Argv)
    (pd : PipelineData) (pdl : Nat → PipelineData) (n : Nat) (tr : List Event) (pid : Nat) :
    unconsumed (state_at pre suf mt al pd pdl n tr pid) = suf.length := by
  cases suf with
  | nil => simp [unconsumed, state_at, look, look_len]
  | cons t rest =>
    simp [unconsumed, state_at, look, look_len, str_to_symbol_ne_epsilon]
    omega

/-- From a primed state `shell_cmd` never runs out of fuel, and consumes tokens only. -/
theorem halts_shell_cmd (env : Env) (s : State) (toks : List String) :
    (shell_cmd env (primed s toks)).ends (progress (primed s toks)) := by
  have hu : unconsumed (primed s toks) = toks.length := by
    rw [primed_eq, unconsumed_state_at]
  have ht : (primed s toks).tokens = toks := by rw [primed_eq]; rfl
  exact halts_shell_cmd_fuel env _ _ (by rw [hu, ht]) (by rw [hu, ht]; omega)

/-- C20, as stated, fails: when the `fork` of the subshell fails, `shell_cmd` on `( a )` ends
neither in a return nor in a syntax error, but in the `exit(-1)` behind `perror`. -/
theorem C20_counterexample :
    (shell_cmd no_fork_env (primed initial_state ["(", "a", ")"])).is_forkerr = true ∧
    (shell_cmd no_fork_env (primed initial_state ["(", "a", ")"])).value = none ∧
    (shell_cmd no_fork_env (primed initial_state ["(", "a", ")"])).is_synerr = false :=
  ⟨by decide, by decide, by decide⟩

/-- C20, amended: for every token sequence, whatever the globals and the environment (in
which a blocking `waitpid` returns), `shell_cmd` ends within the fuel the embedding gives
it: it returns (with no more tokens left than the line has), or the process exits in `expect`
or after a failed `fork`, or the behaviour is undefined (an array is overrun, or the debug
loop of `simple_cmd` prints a slot that holds no string).  The reason is the count of the tokens not
yet consumed: every successful `match` of a symbol other than `EPSILON`, and every
`next_symbol` at a token, lowers it by exactly one, and each recursive call and each round of
the capture loop comes behind one of them. -/
theorem C20_parser_terminates (env : Env) (s : State) (toks : List String) :
    ((∃ r s1, shell_cmd env (primed s toks) = .ret r s1 ∧ unconsumed s1 ≤ toks.length) ∨
      (∃ e g s1, shell_cmd env (primed s toks) = .synerr e g s1) ∨
      (∃ s1, shell_cmd env (primed s toks) = .forkerr s1) ∨
      shell_cmd env (primed s toks) = .undefined) ∧
    (∀ (sym : Symbol) (st : State), sym ≠ .EPSILON → (match_ sym st).1 ≠ 0 →
      unconsumed (match_ sym st).2 + 1 = unconsumed st) ∧
    (∀ st : State, st.symbol ≠ .EPSILON → unconsumed (next_symbol st) + 1 = unconsumed st) := by
  have h := halts_shell_cmd env s toks
  have hu : unconsumed (primed s toks) = toks.length := by
    rw [primed_eq, unconsumed_state_at]
  refine ⟨?_, ?_, ?_⟩
  · cases hr : shell_cmd env (primed s toks) with
    | ret r s1 =>
      rw [hr] at h
      exact Or.inl ⟨r, s1, rfl, by have := h.2; omega⟩
    | synerr e g s1 => exact Or.inr (Or.inl ⟨e, g, s1, rfl⟩)
    | forkerr s1 => exact Or.inr (Or.inr (Or.inl ⟨s1, rfl⟩))
    | undefined => exact Or.inr (Or.inr (Or.inr rfl))
    | out_of_fuel => rw [hr] at h; exact absurd h (by simp [Res.ends])
  · intro sym st hsym hhit
    have hs := match_hit_symbol sym st hhit
    exact unconsumed_match_hit sym st (by rw [hs]; exact hsym) hhit
  · intro st hst
    have := (unconsumed_next_symbol st).2
    rw [if_neg hst] at this
    exact this

/-! ## The commands stored by the parser -/

theorem returns_bind {α β : Type} (P : α → State → Prop) (Q : β → State → Prop) (r : Res α)
    (f : α → State → Res β) (hr : r.returns P) (hf : ∀ a s, P a s → (f a s).returns Q) :
    (r.bind f).returns Q := by
  cases r with
  | ret a s => exact hf a s hr
  | synerr e g s => trivial
  | forkerr s => trivial
  | undefined => trivial
  | out_of_fuel => trivial

theorem returns_mono {α : Type} (P Q : α → State → Prop) (r : Res α) (hr : r.returns P)
    (hpq : ∀ a s, P a s → Q a s) : r.returns Q := by
  cases r with
  | ret a s => exact hpq a s hr
  | synerr e g s => trivial
  | forkerr s => trivial
  | undefined => trivial
  | out_of_fuel => trivial

theorem cursor_ok_congr (toks : List String) (s s1 : State) (h : cursor_ok toks s)
    (h1 : s1.tokens = s.tokens) (h2 : s1.symbol = s.symbol) (h3 : s1.next_token = s.next_token) :
    cursor_ok toks s1 := by
  unfold cursor_ok at *
  rw [h1, h2, h3]
  exact h

theorem building_ok_congr (toks : List String) (s s1 : State) (h : building_ok toks s)
    (h1 : s1.tokens = s.tokens) (h2 : s1.symbol = s.symbol) (h3 : s1.next_token = s.next_token)
    (h4 : s1.pipeline_data = s.pipeline_data) (h5 : s1.pipeline_data_list = s.pipeline_data_list)
    (h6 : s1.pipeline_data_list_size = s.pipeline_data_list_size) : building_ok toks s1 := by
  obtain ⟨hc, hp, hm⟩ := h
  refine ⟨cursor_ok_congr toks s s1 hc h1 h2 h3, by rw [h4]; exact hp, ?_⟩
  unfold model_ok command_model at *
  rw [h5, h6]
  exact hm

theorem stored_ok_congr (toks : List String) (s s1 : State) (h : stored_ok toks s)
    (h1 : s1.tokens = s.tokens) (h2 : s1.symbol = s.symbol) (h3 : s1.next_token = s.next_token)
    (h5 : s1.pipeline_data_list = s.pipeline_data_list)
    (h6 : s1.pipeline_data_list_size = s.pipeline_data_list_size) : stored_ok toks s1 := by
  obtain ⟨hc, hm⟩ := h
  refine ⟨cursor_ok_congr toks s s1 hc h1 h2 h3, ?_⟩
  unfold model_ok command_model at *
  rw [h5, h6]
  exact hm

theorem cursor_ok_next_symbol (toks : List String) (s : State) (h : s.tokens = toks) :
    cursor_ok toks (next_symbol s) := by
  cases hget : s.tokens[s.next_token]? with
  | none =>
    have e : next_symbol s = { s with symbol := .EPSILON } := by
      unfold next_symbol; rw [token_at_nat, hget]
    rw [e]
    exact ⟨h, fun hne => absurd rfl hne⟩
  | some t =>
    have e : next_symbol s
        = { s with symbol := str_to_symbol t, next_token := s.next_token + 1 } := by
      unfold next_symbol; rw [token_at_nat, hget]
    rw [e]
    refine ⟨h, fun _ => ⟨t, ?_, rfl⟩⟩
    dsimp only
    rw [token_at_pred, hget]

theorem next_symbol_frame (s : State) :
    (next_symbol s).matched_token = s.matched_token ∧
    (next_symbol s).arg_list = s.arg_list ∧
    (next_symbol s).pipeline_data = s.pipeline_data ∧
    (next_symbol s).pipeline_data_list = s.pipeline_data_list ∧
    (next_symbol s).pipeline_data_list_size = s.pipeline_data_list_size := by
  unfold next_symbol
  split <;> exact ⟨rfl, rfl, rfl, rfl, rfl⟩

theorem match_frame (sym : Symbol) (s : State) :
    (match_ sym s).2.arg_list = s.arg_list ∧
    (match_ sym s).2.pipeline_data = s.pipeline_data ∧
    (match_ sym s).2.pipeline_data_list = s.pipeline_data_list ∧
    (match_ sym s).2.pipeline_data_list_size = s.pipeline_data_list_size := by
  unfold match_
  split
  · obtain ⟨_, h2, h3, h4, h5⟩ := next_symbol_frame
      { s with matched_token := token_at s.tokens ((s.next_token : Int) - 1) }
    exact ⟨h2, h3, h4, h5⟩
  · exact ⟨rfl, rfl, rfl, rfl⟩

theorem cursor_ok_match (toks : List String) (sym : Symbol) (s : State)
    (h : cursor_ok toks s) : cursor_ok toks (match_ sym s).2 := by
  unfold match_
  split
  · exact cursor_ok_next_symbol toks _ h.1
  · exact cursor_ok_congr toks s _ h rfl rfl rfl

theorem building_ok_match (toks : List String) (sym : Symbol) (s : State)
    (h : building_ok toks s) : building_ok toks (match_ sym s).2 := by
  obtain ⟨_, h3, h4, h5⟩ := match_frame sym s
  obtain ⟨hc, hp, hm⟩ := h
  refine ⟨cursor_ok_match toks sym s hc, by rw [h3]; exact hp, ?_⟩
  unfold model_ok command_model at *
  rw [h4, h5]
  exact hm

theorem stored_ok_match (toks : List String) (sym : Symbol) (s : State)
    (h : stored_ok toks s) : stored_ok toks (match_ sym s).2 := by
  obtain ⟨_, _, h4, h5⟩ := match_frame sym s
  obtain ⟨hc, hm⟩ := h
  refine ⟨cursor_ok_match toks sym s hc, ?_⟩
  unfold model_ok command_model at *
  rw [h4, h5]
  exact hm

theorem token_at_mem (l : List String) (i : Int) (t : String) (h : token_at l i = some t) :
    t ∈ l := by
  unfold token_at at h
  split at h
  · exact absurd h (by simp)
  · exact List.getElem?_mem h

theorem match_literal (toks : List String) (s : State) (h : cursor_ok toks s)
    (hhit : (match_ .LITERAL s).1 ≠ 0) : literal_arg toks (match_ .LITERAL s).2.matched_token := by
  have hsym := match_hit_symbol .LITERAL s hhit
  obtain ⟨ht, hcur⟩ := h
  obtain ⟨t, htok, hcls⟩ := hcur (by rw [hsym]; decide)
  have e : (match_ .LITERAL s).2.matched_token = some t := by
    unfold match_
    rw [if_pos hsym.symm]
    rw [(next_symbol_frame _).1]
    exact htok
  rw [e]
  exact ⟨ht ▸ token_at_mem _ _ _ htok, by rw [← hcls, hsym]⟩

theorem ok_expect (toks : List String) (sym : Symbol) (s : State) (h : building_ok toks s) :
    (expect sym s).returns (fun _ s1 => building_ok toks s1) := by
  unfold expect
  dsimp only
  split
  · exact building_ok_match toks sym s h
  · trivial

theorem ok_simple_cmd_loop (toks : List String) (fuel : Nat) :
    ∀ (args : List CString) (s : State), building_ok toks s → args ≠ [] →
      (∀ a ∈ args, literal_arg toks a) →
      (simple_cmd_loop fuel args s).returns
        (fun args1 s1 => building_ok toks s1 ∧ literal_command toks (some args1)) := by
  induction fuel with
  | zero => intro args s _ _ _; trivial
  | succ fuel ih =>
    intro args s h hne hall
    have hm := building_ok_match toks .LITERAL s h
    unfold simple_cmd_loop
    dsimp only
    split
    · rename_i hhit
      have hl := match_literal toks s h.1 hhit
      split
      · refine ih _ _ hm (by simp) ?_
        intro a ha
        rcases List.mem_append.mp ha with ha | ha
        · exact hall a ha
        · rw [List.mem_singleton.mp ha]; exact hl
      · trivial
    · split
      · exact ⟨hm, hne, hall⟩
      · trivial

theorem ok_simple_cmd (env : Env) (toks : List String) (s : State) (h : building_ok toks s) :
    (simple_cmd env s).returns
      (fun r s1 => building_ok toks s1 ∧ (r ≠ 0 → literal_command toks s1.arg_list)) := by
  have hm := building_ok_match toks .LITERAL s h
  unfold simple_cmd
  dsimp only
  split
  · rename_i hhit
    have hl := match_literal toks s h.1 hhit
    refine returns_bind _ _ _ _ (ok_simple_cmd_loop toks _ _ _ hm (by simp) ?_) ?_
    · intro a ha
      rw [List.mem_singleton.mp ha]; exact hl
    · intro args s1 h1
      split
      · exact ⟨building_ok_congr toks s1 _ h1.1 rfl rfl rfl rfl rfl rfl, fun _ => h1.2⟩
      · trivial
  · exact ⟨hm, fun hr => absurd rfl hr⟩

theorem building_ok_push_cmd (toks : List String) (s : State) (h : building_ok toks s)
    (ha : literal_command toks s.arg_list) : building_ok toks (push_cmd s) := by
  obtain ⟨hc, hp, hm⟩ := h
  refine ⟨cursor_ok_congr toks s _ hc rfl rfl rfl, ?_, hm⟩
  intro c hcm
  simp only [push_cmd, PipelineData.spec, arr_take_set_self] at hcm
  rcases List.mem_append.mp hcm with hcm | hcm
  · exact hp c hcm
  · rw [List.mem_singleton.mp hcm]; exact ha

theorem ok_pipeline_fuel (env : Env) (toks : List String) (fuel : Nat) :
    ∀ (s : State), building_ok toks s →
      (pipeline_fuel env fuel s).returns (fun _ s1 => building_ok toks s1) := by
  induction fuel with
  | zero => intro s _; trivial
  | succ fuel ih =>
    intro s h
    unfold pipeline_fuel
    dsimp only
    refine returns_bind _ _ _ _ (ok_simple_cmd env toks s h) ?_
    intro r s1 h1
    split
    · rename_i hr
      have hp := building_ok_push_cmd toks s1 h1.1 (h1.2 hr)
      have hm := building_ok_match toks .PIPE _ hp
      split
      · split
        · refine returns_bind _ _ _ _ (ih _ hm) ?_
          intro _ s2 h2
          exact h2
        · exact hm
      · trivial
    · exact h1.1

theorem ok_redirect_set (toks : List String) (sym : Symbol) (s : State)
    (g : State → PipelineData) (hg : ∀ s1, (g s1).spec.commands = s1.pipeline_data.spec.commands)
    (h : building_ok toks s) :
    ((expect sym s).bind fun r s1 =>
      if r ≠ 0 then .ret 1 { s1 with pipeline_data := g s1 } else .ret 0 s1).returns
      (fun _ s1 => building_ok toks s1) := by
  refine returns_bind _ _ _ _ (ok_expect toks sym s h) ?_
  intro r s1 h1
  split
  · obtain ⟨hc, hp, hm⟩ := h1
    refine ⟨cursor_ok_congr toks s1 _ hc rfl rfl rfl, ?_, hm⟩
    intro c hcm
    exact hp c (by rw [← hg s1]; exact hcm)
  · exact h1

theorem ok_o_redirect (toks : List String) (s : State) (h : building_ok toks s) :
    (o_redirect s).returns (fun _ s1 => building_ok toks s1) := by
  have hm := building_ok_match toks .GRATER s h
  have hm2 := building_ok_match toks .DOUBLE_GRATER _ hm
  unfold o_redirect
  dsimp only
  split
  · exact ok_redirect_set toks .LITERAL _ _ (fun _ => rfl) hm
  · split
    · exact ok_redirect_set toks .LITERAL _ _ (fun _ => rfl) hm2
    · exact hm2

theorem ok_i_redirect (toks : List String) (s : State) (h : building_ok toks s) :
    (i_redirect s).returns (fun _ s1 => building_ok toks s1) := by
  have hm := building_ok_match toks .SMALLER s h
  unfold i_redirect
  dsimp only
  split
  · exact ok_redirect_set toks .LITERAL _ _ (fun _ => rfl) hm
  · exact hm

theorem ok_io_redirect (toks : List String) (s : State) (h : building_ok toks s) :
    (io_redirect s).returns (fun _ s1 => building_ok toks s1) := by
  unfold io_redirect
  refine returns_bind _ _ _ _ (ok_i_redirect toks s h) ?_
  intro i s1 h1
  split
  · refine returns_bind _ _ _ _ (ok_o_redirect toks s1 h1) ?_
    intro _ s2 h2
    exact h2
  · refine returns_bind _ _ _ _ (ok_o_redirect toks s1 h1) ?_
    intro o s2 h2
    split
    · refine returns_bind _ _ _ _ (ok_i_redirect toks s2 h2) ?_
      intro _ s3 h3
      exact h3
    · exact h2

theorem ok_run_exernal_shell (toks : List String) (env : Env) (str : String) (s : State)
    (h : building_ok toks s) :
    (run_exernal_shell env str s).returns (fun _ s1 => building_ok toks s1) := by
  unfold run_exernal_shell execute_pipeline
  simp only [external_pipeline, execute_pipeline_loop, Nat.lt_add_one, if_true]
  split
  · simp only [Nat.sub_self, decide_True, and_self, if_true]
    exact building_ok_congr toks s _ h rfl rfl rfl rfl rfl rfl
  · trivial

theorem ok_cmd_loop (toks : List String) (fuel : Nat) :
    ∀ (str : String) (s : State), building_ok toks s →
      (cmd_loop fuel str s).returns (fun _ s1 => building_ok toks s1) := by
  induction fuel with
  | zero => intro str s _; trivial
  | succ fuel ih =>
    intro str s h
    have hm := building_ok_match toks .EPSILON s h
    have hm2 := building_ok_match toks .RT_BRACE _ hm
    have hn : building_ok toks (next_symbol (match_ .RT_BRACE (match_ .EPSILON s).2).2) := by
      obtain ⟨_, _, h3, h4, h5⟩ :=
        next_symbol_frame (match_ .RT_BRACE (match_ .EPSILON s).2).2
      obtain ⟨hc, hp, hmo⟩ := hm2
      refine ⟨cursor_ok_next_symbol toks _ hc.1, by rw [h3]; exact hp, ?_⟩
      unfold model_ok command_model at *
      rw [h4, h5]
      exact hmo
    unfold cmd_loop
    dsimp only
    repeat' split
    all_goals first
      | exact hm
      | exact hm2
      | exact ih _ _ hn
      | trivial

theorem ok_cmd (toks : List String) (env : Env) (s : State) (h : building_ok toks s) :
    (cmd env s).returns (fun _ s1 => building_ok toks s1) := by
  have hm := building_ok_match toks .LT_BRACE s h
  unfold cmd
  dsimp only
  split
  · refine returns_bind _ _ _ _ (ok_cmd_loop toks _ _ _ hm) ?_
    intro str s1 h1
    exact ok_run_exernal_shell toks env str s1 h1
  · refine returns_bind _ _ _ _ (ok_io_redirect toks _ hm) ?_
    intro io s1 h1
    split
    · refine returns_bind _ _ _ _ (ok_pipeline_fuel env toks _ s1 h1) ?_
      intro p s2 h2
      split <;> exact h2
    · refine returns_bind _ _ _ _ (ok_pipeline_fuel env toks _ s1 h1) ?_
      intro p s2 h2
      split
      · refine returns_bind _ _ _ _ (ok_io_redirect toks s2 h2) ?_
        intro _ s3 h3
        exact h3
      · exact h2

theorem command_model_push (s : State) :
    command_model (push_pipeline s) = command_model s ++ [s.pipeline_data.spec] := by
  simp [command_model, push_pipeline, arr_take_set_self]

theorem model_ok_update (toks : List String) (s : State) (i : Nat)
    (f : PipelineData → PipelineData) (hf : ∀ p, (f p).spec.commands = p.spec.commands)
    (h : model_ok toks s) :
    model_ok toks
      { s with pipeline_data_list := arr_set s.pipeline_data_list i (f (s.pipeline_data_list i)) }
    := by
  intro ps hps c hc
  simp only [command_model, arr_take, List.map_map, List.mem_map, List.mem_range,
    Function.comp] at hps
  obtain ⟨j, hj, rfl⟩ := hps
  have hmem : (s.pipeline_data_list j).spec ∈ command_model s := by
    simp only [command_model, arr_take, List.map_map, List.mem_map, List.mem_range,
      Function.comp]
    exact ⟨j, hj, rfl⟩
  by_cases hji : j = i
  · subst hji
    rw [arr_set_same, hf] at hc
    exact h _ hmem c hc
  · have e : arr_set s.pipeline_data_list i (f (s.pipeline_data_list i)) j
        = s.pipeline_data_list j := by simp [arr_set, hji]
    rw [e] at hc
    exact h _ hmem c hc

theorem stored_ok_set_run_condition (toks : List String) (c : RunCondition) (s : State)
    (h : stored_ok toks s) : stored_ok toks (set_run_condition c s) :=
  ⟨cursor_ok_congr toks s _ h.1 rfl rfl rfl,
    model_ok_update toks s _ (fun p => { p with run_condition := c }) (fun _ => rfl) h.2⟩

theorem stored_ok_set_run_in_background (toks : List String) (s : State)
    (h : stored_ok toks s) : stored_ok toks (set_run_in_background s) :=
  ⟨cursor_ok_congr toks s _ h.1 rfl rfl rfl,
    model_ok_update toks s _ (fun p => { p with run_in_background := 1 }) (fun _ => rfl) h.2⟩

theorem ok_conditional_cmd_fuel (toks : List String) (env : Env) (fuel : Nat) :
    ∀ (s : State), stored_ok toks s →
      (conditional_cmd_fuel env fuel s).returns (fun _ s1 => stored_ok toks s1) := by
  induction fuel with
  | zero => intro s _; trivial
  | succ fuel ih =>
    intro s h
    have h0 : building_ok toks { s with pipeline_data := init_pipeline s.pipeline_data } := by
      refine ⟨cursor_ok_congr toks s _ h.1 rfl rfl rfl, ?_, h.2⟩
      intro c hc
      simp [init_pipeline, PipelineData.spec, arr_take] at hc
    unfold conditional_cmd_fuel
    refine returns_bind _ _ _ _ (ok_cmd toks env _ h0) ?_
    intro c s1 h1
    have hp : stored_ok toks (push_pipeline s1) := by
      obtain ⟨hc, hpd, hmo⟩ := h1
      refine ⟨cursor_ok_congr toks s1 _ hc rfl rfl rfl, ?_⟩
      intro ps hps
      rw [command_model_push] at hps
      rcases List.mem_append.mp hps with hps | hps
      · exact hmo ps hps
      · rw [List.mem_singleton.mp hps]; exact hpd
    have hm := stored_ok_match toks .DOUBLE_AMP _ hp
    have hm2 := stored_ok_match toks .DOUBLE_PIPE _ hm
    dsimp only
    split
    · split
      · split
        · exact ih _ (stored_ok_set_run_condition toks _ _ hm)
        · split
          · exact ih _ (stored_ok_set_run_condition toks _ _ hm2)
          · exact hm2
      · trivial
    · exact ⟨h1.1, h1.2.2⟩

theorem ok_shell_cmd_tail (toks : List String) (result : Nat) (s : State)
    (h : stored_ok toks s) :
    (shell_cmd_tail result s).returns (fun _ s1 => stored_ok toks s1) := by
  have hm := stored_ok_match toks .AMP s h
  unfold shell_cmd_tail
  dsimp only
  split
  · split
    · split
      · trivial
      · exact stored_ok_set_run_in_background toks _ hm
    · unfold expect
      dsimp only
      split
      · exact stored_ok_match toks .EPSILON _ hm
      · trivial
  · exact h

theorem ok_shell_cmd_fuel (toks : List String) (env : Env) (fuel : Nat) :
    ∀ (s : State), stored_ok toks s →
      (shell_cmd_fuel env fuel s).returns (fun _ s1 => stored_ok toks s1) := by
  induction fuel with
  | zero => intro s _; trivial
  | succ fuel ih =>
    intro s h
    rw [shell_cmd_fuel_succ]
    refine returns_bind _ _ _ _ (ok_conditional_cmd_fuel toks env _ s h) ?_
    intro c s1 h1
    have hm := stored_ok_match toks .SEMICOLON s1 h1
    have hm2 := stored_ok_match toks .AMP _ hm
    unfold shell_cmd_rest
    dsimp only
    split
    · refine returns_bind _ _ _ _ ?_ (fun r s2 h2 => ok_shell_cmd_tail toks r s2 h2)
      split
      · exact ih _ hm
      · split
        · split
          · trivial
          · exact ih _ (stored_ok_set_run_in_background toks _ hm2)
        · exact hm2
    · exact h1

theorem stored_ok_primed (s : State) (toks : List String)
    (hsize : s.pipeline_data_list_size = 0) : stored_ok toks (primed s toks) := by
  refine ⟨cursor_ok_next_symbol toks _ rfl, ?_⟩
  intro ps hps
  rw [primed_eq] at hps
  simp [command_model, state_at, hsize, arr_take] at hps

/-- When `shell_cmd` returns, started as `main` starts it (list size 0, any other
globals), every command of every pipeline of the CommandModel is a non-`NULL` argument vector
with at least one element, and each element is a token of the line classified `LITERAL`; so
`cmd[0]` is a string, and no operator token is an argument. -/
theorem commands_literal_parsed (env : Env) (s : State) (toks : List String) (r : Nat)
    (s1 : State) (hsize : s.pipeline_data_list_size = 0)
    (hret : shell_cmd env (primed s toks) = .ret r s1) :
    ∀ ps ∈ command_model s1, ∀ c ∈ ps.commands,
      ∃ args, c = some args ∧ args ≠ [] ∧
        ∀ a ∈ args, ∃ t ∈ toks, a = some t ∧ str_to_symbol t = .LITERAL := by
  have h := ok_shell_cmd_fuel toks env ((primed s toks).tokens.length + 1) _
    (stored_ok_primed s toks hsize)
  have e : shell_cmd_fuel env ((primed s toks).tokens.length + 1) (primed s toks)
      = .ret r s1 := hret
  rw [e] at h
  intro ps hps c hc
  have hlc := h.2 ps hps c hc
  cases c with
  | none => exact absurd hlc (by simp [literal_command])
  | some args =>
    refine ⟨args, rfl, hlc.1, ?_⟩
    intro a ha
    have hla := hlc.2 a ha
    cases a with
    | none => exact absurd hla (by simp [literal_arg])
    | some t => exact ⟨t, hla.1, rfl, hla.2⟩

/-! ## Parsing depends on the tokens only -/

theorem agree_bind {α β : Type} (Q : α → State → State → Prop)
    (Q2 : β → State → State → Prop) (r r2 : Res α)
    (f f2 : α → State → Res β) (hr : Res.agree Q r r2)
    (hf : ∀ a s t, Q a s t → Res.agree Q2 (f a s) (f2 a t)) :
    Res.agree Q2 (r.bind f) (r2.bind f2) := by
  cases r <;> cases r2 <;> simp only [Res.agree, Res.bind] at hr ⊢
  · obtain ⟨rfl, h⟩ := hr
    exact hf _ _ _ h
  · exact hr

theorem agree_bind_inv {α β : Type} (Q : α → State → State → Prop)
    (Q2 : β → State → State → Prop) (P : State → Prop)
    (r r2 : Res α) (f f2 : α → State → Res β) (hr : Res.agree Q r r2) (hp : r.all P)
    (hf : ∀ a s t, Q a s t → P s → Res.agree Q2 (f a s) (f2 a t)) :
    Res.agree Q2 (r.bind f) (r2.bind f2) := by
  cases r <;> cases r2 <;> simp only [Res.agree, Res.bind] at hr ⊢
  · obtain ⟨rfl, h⟩ := hr
    exact hf _ _ _ h hp
  · exact hr

theorem agree_mono {α : Type} (Q Q2 : α → State → State → Prop) (r r2 : Res α)
    (hr : Res.agree Q r r2) (hq : ∀ a s t, Q a s t → Q2 a s t) : Res.agree Q2 r r2 := by
  cases r <;> cases r2 <;> simp only [Res.agree] at hr ⊢
  · exact ⟨hr.1, hq _ _ _ hr.2⟩
  · exact hr

theorem same_cursor_next_symbol (s t : State) (h : same_cursor s t) :
    same_cursor (next_symbol s) (next_symbol t) := by
  obtain ⟨h1, h2, h3⟩ := h
  cases hget : token_at t.tokens t.next_token with
  | none =>
    have e1 : next_symbol s = { s with symbol := .EPSILON } := by
      unfold next_symbol; rw [h2, h3, hget]
    have e2 : next_symbol t = { t with symbol := .EPSILON } := by
      unfold next_symbol; rw [hget]
    rw [e1, e2]
    exact ⟨rfl, h2, h3⟩
  | some u =>
    have e1 : next_symbol s
        = { s with symbol := str_to_symbol u, next_token := s.next_token + 1 } := by
      unfold next_symbol; rw [h2, h3, hget]
    have e2 : next_symbol t
        = { t with symbol := str_to_symbol u, next_token := t.next_token + 1 } := by
      unfold next_symbol; rw [hget]
    rw [e1, e2]
    exact ⟨rfl, h2, by dsimp only; rw [h3]⟩

theorem same_cursor_match (sym : Symbol) (s t : State) (h : same_cursor s t) :
    (match_ sym s).1 = (match_ sym t).1 ∧ same_cursor (match_ sym s).2 (match_ sym t).2 ∧
      (match_ sym s).2.matched_token = (match_ sym t).2.matched_token := by
  obtain ⟨h1, h2, h3⟩ := h
  by_cases he : sym = s.symbol
  · have he2 : sym = t.symbol := by rw [← h1]; exact he
    unfold match_
    rw [if_pos he, if_pos he2]
    refine ⟨rfl, same_cursor_next_symbol _ _ ⟨h1, h2, h3⟩, ?_⟩
    rw [(next_symbol_frame _).1, (next_symbol_frame _).1]
    dsimp only
    rw [h2, h3]
  · have he2 : ¬ sym = t.symbol := by rw [← h1]; exact he
    unfold match_
    rw [if_neg he, if_neg he2]
    exact ⟨rfl, ⟨h1, h2, h3⟩, rfl⟩

theorem same_model_store (s t s1 t1 : State) (h : same_model s t) (hc : same_cursor s1 t1)
    (hs1 : s1.pipeline_data_list = s.pipeline_data_list)
    (hs2 : s1.pipeline_data_list_size = s.pipeline_data_list_size)
    (ht1 : t1.pipeline_data_list = t.pipeline_data_list)
    (ht2 : t1.pipeline_data_list_size = t.pipeline_data_list_size) : same_model s1 t1 := by
  obtain ⟨_, hn, hl⟩ := h
  refine ⟨hc, by rw [hs2, ht2, hn], ?_⟩
  intro j hj
  rw [hs1, ht1]
  exact hl j (by rw [← hs2]; exact hj)

theorem same_record_store (s t s1 t1 : State) (h : same_record s t) (hc : same_cursor s1 t1)
    (hs0 : s1.pipeline_data = s.pipeline_data)
    (hs1 : s1.pipeline_data_list = s.pipeline_data_list)
    (hs2 : s1.pipeline_data_list_size = s.pipeline_data_list_size)
    (ht0 : t1.pipeline_data = t.pipeline_data)
    (ht1 : t1.pipeline_data_list = t.pipeline_data_list)
    (ht2 : t1.pipeline_data_list_size = t.pipeline_data_list_size) : same_record s1 t1 :=
  ⟨same_model_store s t s1 t1 h.1 hc hs1 hs2 ht1 ht2, by rw [hs0, ht0]; exact h.2⟩

theorem same_model_match (sym : Symbol) (s t : State) (h : same_model s t) :
    (match_ sym s).1 = (match_ sym t).1 ∧ same_model (match_ sym s).2 (match_ sym t).2 := by
  obtain ⟨e1, e2, _⟩ := same_cursor_match sym s t h.1
  obtain ⟨_, _, a3, a4⟩ := match_frame sym s
  obtain ⟨_, _, b3, b4⟩ := match_frame sym t
  exact ⟨e1, same_model_store s t _ _ h e2 a3 a4 b3 b4⟩

theorem same_record_match (sym : Symbol) (s t : State) (h : same_record s t) :
    (match_ sym s).1 = (match_ sym t).1 ∧ same_record (match_ sym s).2 (match_ sym t).2 ∧
      (match_ sym s).2.matched_token = (match_ sym t).2.matched_token := by
  obtain ⟨e1, e2, e3⟩ := same_cursor_match sym s t h.1.1
  obtain ⟨_, a2, a3, a4⟩ := match_frame sym s
  obtain ⟨_, b2, b3, b4⟩ := match_frame sym t
  exact ⟨e1, same_record_store s t _ _ h e2 a2 a3 a4 b2 b3 b4, e3⟩

theorem agree_expect (sym : Symbol) (s t : State) (h : same_record s t) :
    Res.agree (fun _ a b => same_record a b ∧ a.matched_token = b.matched_token)
      (expect sym s) (expect sym t) := by
  obtain ⟨e1, e2, e3⟩ := same_record_match sym s t h
  unfold expect
  dsimp only
  rw [e1]
  split
  · exact ⟨rfl, e2, e3⟩
  · exact ⟨rfl, e2.1.1.1⟩

theorem agree_expect_model (sym : Symbol) (s t : State) (h : same_model s t) :
    Res.agree (fun _ a b => same_model a b) (expect sym s) (expect sym t) := by
  obtain ⟨e1, e2⟩ := same_model_match sym s t h
  unfold expect
  dsimp only
  rw [e1]
  split
  · exact ⟨rfl, e2⟩
  · exact ⟨rfl, e2.1.1⟩

theorem agree_simple_cmd_loop (fuel : Nat) :
    ∀ (args : List CString) (s t : State), same_record s t →
      Res.agree (fun _ a b => same_record a b)
        (simple_cmd_loop fuel args s) (simple_cmd_loop fuel args t) := by
  induction fuel with
  | zero => intro args s t _; trivial
  | succ fuel ih =>
    intro args s t h
    obtain ⟨e1, e2, e3⟩ := same_record_match .LITERAL s t h
    unfold simple_cmd_loop
    dsimp only
    rw [e1, e3]
    split
    · split
      · exact ih _ _ _ e2
      · trivial
    · split
      · exact ⟨rfl, e2⟩
      · trivial

/-- With clean blocks the debug loop of `simple_cmd` ends in the same way whatever the block
and the arguments: it depends on its bound only. -/
theorem debug_loop_clean_eq (env env2 : Env) (hc1 : clean_args env) (hc2 : clean_args env2)
    (k k2 : Nat) (args args2 : List CString) (n : Nat) :
    debug_loop env k args n 0 = debug_loop env2 k2 args2 n 0 := by
  by_cases h : n ≤ 64
  · rw [debug_loop_clean env hc1 k args n 0 (by omega),
      debug_loop_clean env2 hc2 k2 args2 n 0 (by omega)]
  · rw [debug_loop_overrun env k args n 0 (by omega) (by omega),
      debug_loop_overrun env2 k2 args2 n 0 (by omega) (by omega)]

theorem agree_simple_cmd (env env2 : Env) (hc1 : clean_args env) (hc2 : clean_args env2)
    (s t : State) (h : same_record s t) :
    Res.agree (fun r a b => same_record a b ∧ (r ≠ 0 → a.arg_list = b.arg_list))
      (simple_cmd env s) (simple_cmd env2 t) := by
  obtain ⟨e1, e2, e3⟩ := same_record_match .LITERAL s t h
  unfold simple_cmd
  dsimp only
  rw [e1, e3, h.1.1.2.1]
  split
  · refine agree_bind (fun _ a b => same_record a b) _ _ _ _ _
      (agree_simple_cmd_loop _ _ _ _ e2) ?_
    intro args a b hab
    have hd : debug_loop env s.next_token args a.next_token 0
        = debug_loop env2 t.next_token args b.next_token 0 := by
      rw [hab.1.1.2.2]
      exact debug_loop_clean_eq env env2 hc1 hc2 _ _ _ _ _
    rw [hd]
    split
    · exact ⟨rfl, same_record_store a b _ _ hab hab.1.1 rfl rfl rfl rfl rfl rfl, fun _ => rfl⟩
    · trivial
  · exact ⟨rfl, e2, fun hr => absurd rfl hr⟩

theorem spec_fields_eq (p q : PipelineData) (h : p.spec = q.spec) :
    arr_take p.cmd_list p.cmd_list_size = arr_take q.cmd_list q.cmd_list_size ∧
    p.io_redirect0 = q.io_redirect0 ∧ p.io_redirect1 = q.io_redirect1 ∧
    p.append = q.append ∧ p.run_condition = q.run_condition ∧
    p.run_in_background = q.run_in_background := by
  simp only [PipelineData.spec, PipelineSpec.mk.injEq] at h
  exact h

theorem spec_size_eq (p q : PipelineData) (h : p.spec = q.spec) :
    p.cmd_list_size = q.cmd_list_size := by
  have := congrArg List.length (spec_fields_eq p q h).1
  rw [length_arr_take, length_arr_take] at this
  exact this

theorem same_record_push_cmd (s t : State) (h : same_record s t)
    (ha : s.arg_list = t.arg_list) : same_record (push_cmd s) (push_cmd t) := by
  refine ⟨same_model_store s t _ _ h.1 h.1.1 rfl rfl rfl rfl, ?_⟩
  obtain ⟨h1, h2, h3, h4, h5, h6⟩ := spec_fields_eq _ _ h.2
  simp only [push_cmd, PipelineData.spec, arr_take_set_self, PipelineSpec.mk.injEq]
  exact ⟨by rw [h1, ha], h2, h3, h4, h5, h6⟩

theorem agree_pipeline_fuel (env env2 : Env) (hc1 : clean_args env) (hc2 : clean_args env2)
    (fuel : Nat) :
    ∀ (s t : State), same_record s t →
      Res.agree (fun _ a b => same_record a b)
        (pipeline_fuel env fuel s) (pipeline_fuel env2 fuel t) := by
  induction fuel with
  | zero => intro s t _; trivial
  | succ fuel ih =>
    intro s t h
    unfold pipeline_fuel
    dsimp only
    refine agree_bind _ _ _ _ _ _ (agree_simple_cmd env env2 hc1 hc2 s t h) ?_
    intro r a b hab
    obtain ⟨hab, hal⟩ := hab
    split
    · rename_i hr
      have hp := same_record_push_cmd a b hab (hal hr)
      obtain ⟨e1, e2, _⟩ := same_record_match .PIPE _ _ hp
      rw [spec_size_eq _ _ hab.2, e1]
      split
      · split
        · refine agree_bind _ _ _ _ _ _ (ih _ _ e2) ?_
          intro _ a2 b2 h2
          exact ⟨rfl, h2⟩
        · exact ⟨rfl, e2⟩
      · trivial
    · exact ⟨rfl, hab⟩

theorem agree_pipeline (env env2 : Env) (hc1 : clean_args env) (hc2 : clean_args env2)
    (s t : State) (h : same_record s t) :
    Res.agree (fun _ a b => same_record a b) (pipeline env s) (pipeline env2 t) := by
  unfold pipeline
  rw [h.1.1.2.1]
  exact agree_pipeline_fuel env env2 hc1 hc2 _ s t h

theorem agree_redirect_set (sym : Symbol) (s t : State) (g : State → PipelineData)
    (hg : ∀ a b, same_record a b → a.matched_token = b.matched_token →
      (g a).spec = (g b).spec)
    (h : same_record s t) :
    Res.agree (fun _ a b => same_record a b)
      ((expect sym s).bind fun r s1 =>
        if r ≠ 0 then .ret 1 { s1 with pipeline_data := g s1 } else .ret 0 s1)
      ((expect sym t).bind fun r s1 =>
        if r ≠ 0 then .ret 1 { s1 with pipeline_data := g s1 } else .ret 0 s1) := by
  refine agree_bind _ _ _ _ _ _ (agree_expect sym s t h) ?_
  intro r a b hab
  split
  · exact ⟨rfl, same_model_store a b _ _ hab.1.1 hab.1.1.1 rfl rfl rfl rfl, hg a b hab.1 hab.2⟩
  · exact ⟨rfl, hab.1⟩

theorem spec_set_output (a b : State) (h : same_record a b)
    (hm : a.matched_token = b.matched_token) :
    ({ a.pipeline_data with io_redirect1 := a.matched_token } : PipelineData).spec
      = ({ b.pipeline_data with io_redirect1 := b.matched_token } : PipelineData).spec := by
  obtain ⟨h1, h2, h3, h4, h5, h6⟩ := spec_fields_eq _ _ h.2
  simp only [PipelineData.spec, PipelineSpec.mk.injEq]
  exact ⟨h1, h2, hm, h4, h5, h6⟩

theorem spec_set_append (a b : State) (h : same_record a b)
    (hm : a.matched_token = b.matched_token) :
    ({ a.pipeline_data with append := 1, io_redirect1 := a.matched_token } : PipelineData).spec
      = ({ b.pipeline_data with append := 1, io_redirect1 := b.matched_token }
          : PipelineData).spec := by
  obtain ⟨h1, h2, h3, h4, h5, h6⟩ := spec_fields_eq _ _ h.2
  simp only [PipelineData.spec, PipelineSpec.mk.injEq]
  exact ⟨h1, h2, hm, trivial, h5, h6⟩

theorem spec_set_input (a b : State) (h : same_record a b)
    (hm : a.matched_token = b.matched_token) :
    ({ a.pipeline_data with io_redirect0 := a.matched_token } : PipelineData).spec
      = ({ b.pipeline_data with io_redirect0 := b.matched_token } : PipelineData).spec := by
  obtain ⟨h1, h2, h3, h4, h5, h6⟩ := spec_fields_eq _ _ h.2
  simp only [PipelineData.spec, PipelineSpec.mk.injEq]
  exact ⟨h1, hm, h3, h4, h5, h6⟩

theorem agree_o_redirect (s t : State) (h : same_record s t) :
    Res.agree (fun _ a b => same_record a b) (o_redirect s) (o_redirect t) := by
  obtain ⟨e1, e2, _⟩ := same_record_match .GRATER s t h
  obtain ⟨f1, f2, _⟩ := same_record_match .DOUBLE_GRATER _ _ e2
  unfold o_redirect
  dsimp only
  rw [e1, f1]
  split
  · exact agree_redirect_set .LITERAL _ _ _ spec_set_output e2
  · split
    · exact agree_redirect_set .LITERAL _ _ _ spec_set_append f2
    · exact ⟨rfl, f2⟩

theorem agree_i_redirect (s t : State) (h : same_record s t) :
    Res.agree (fun _ a b => same_record a b) (i_redirect s) (i_redirect t) := by
  obtain ⟨e1, e2, _⟩ := same_record_match .SMALLER s t h
  unfold i_redirect
  dsimp only
  rw [e1]
  split
  · exact agree_redirect_set .LITERAL _ _ _ spec_set_input e2
  · exact ⟨rfl, e2⟩

theorem agree_io_redirect (s t : State) (h : same_record s t) :
    Res.agree (fun _ a b => same_record a b) (io_redirect s) (io_redirect t) := by
  unfold io_redirect
  refine agree_bind _ _ _ _ _ _ (agree_i_redirect s t h) ?_
  intro i a b hab
  split
  · refine agree_bind _ _ _ _ _ _ (agree_o_redirect a b hab) ?_
    intro _ a2 b2 h2
    exact ⟨rfl, h2⟩
  · refine agree_bind _ _ _ _ _ _ (agree_o_redirect a b hab) ?_
    intro o a2 b2 h2
    split
    · refine agree_bind _ _ _ _ _ _ (agree_i_redirect a2 b2 h2) ?_
      intro _ a3 b3 h3
      exact ⟨rfl, h3⟩
    · exact ⟨rfl, h2⟩

theorem agree_cmd (env env2 : Env) (hc1 : clean_args env) (hc2 : clean_args env2)
    (s t : State) (h : same_record s t) (hno : s.symbol ≠ .LT_BRACE) :
    Res.agree (fun _ a b => same_record a b) (cmd env s) (cmd env2 t) := by
  obtain ⟨e1, e2, _⟩ := same_record_match .LT_BRACE s t h
  have hmiss : ¬ (match_ .LT_BRACE s).1 ≠ 0 := fun hh => hno (match_hit_symbol _ _ hh)
  have hmiss2 : ¬ (match_ .LT_BRACE t).1 ≠ 0 := by rw [← e1]; exact hmiss
  unfold cmd
  dsimp only
  rw [if_neg hmiss, if_neg hmiss2]
  refine agree_bind _ _ _ _ _ _ (agree_io_redirect _ _ e2) ?_
  intro io a b hab
  split
  · refine agree_bind _ _ _ _ _ _ (agree_pipeline env env2 hc1 hc2 a b hab) ?_
    intro p a2 b2 h2
    split
    · exact ⟨rfl, h2⟩
    · exact ⟨rfl, h2⟩
  · refine agree_bind _ _ _ _ _ _ (agree_pipeline env env2 hc1 hc2 a b hab) ?_
    intro p a2 b2 h2
    split
    · refine agree_bind _ _ _ _ _ _ (agree_io_redirect a2 b2 h2) ?_
      intro _ a3 b3 h3
      exact ⟨rfl, h3⟩
    · exact ⟨rfl, h2⟩

theorem no_group_symbol (env : Env) (toks : List String) (tr0 : List Event) (s : State)
    (h : parse_inv env toks tr0 s) (hno : "(" ∉ toks) : s.symbol ≠ .LT_BRACE := by
  intro hsym
  obtain ⟨ht, ⟨_, _, hl3⟩, _⟩ := h
  obtain ⟨t, htm, hts⟩ := hl3 (by rw [hsym]; decide)
  apply hno
  rw [← ht, ← str_to_symbol_eq_lt_brace t (by rw [← hts, hsym])]
  exact htm

theorem same_model_push (s t : State) (h : same_record s t) :
    same_model (push_pipeline s) (push_pipeline t) := by
  obtain ⟨⟨hc, hn, hl⟩, hp⟩ := h
  refine ⟨hc, by simp only [push_pipeline]; rw [hn], ?_⟩
  intro j hj
  simp only [push_pipeline] at hj ⊢
  by_cases hjn : j = s.pipeline_data_list_size
  · have hjn2 : j = t.pipeline_data_list_size := by rw [← hn]; exact hjn
    simp only [arr_set, if_pos hjn, if_pos hjn2]
    exact hp
  · have hjn2 : ¬ j = t.pipeline_data_list_size := by rw [← hn]; exact hjn
    simp only [arr_set, if_neg hjn, if_neg hjn2]
    exact hl j (by omega)

theorem same_model_update (s t : State) (f : PipelineData → PipelineData)
    (hf : ∀ p q : PipelineData, p.spec = q.spec → (f p).spec = (f q).spec)
    (h : same_model s t) :
    same_model
      { s with
        pipeline_data_list :=
          arr_set s.pipeline_data_list (s.pipeline_data_list_size - 1)
            (f (s.pipeline_data_list (s.pipeline_data_list_size - 1))) }
      { t with
        pipeline_data_list :=
          arr_set t.pipeline_data_list (t.pipeline_data_list_size - 1)
            (f (t.pipeline_data_list (t.pipeline_data_list_size - 1))) } := by
  obtain ⟨hc, hn, hl⟩ := h
  refine ⟨hc, hn, ?_⟩
  intro j hj
  dsimp only at hj ⊢
  rw [← hn]
  by_cases hjn : j = s.pipeline_data_list_size - 1
  · simp only [arr_set, if_pos hjn]
    exact hf _ _ (hl _ (by omega))
  · simp only [arr_set, if_neg hjn]
    exact hl j hj

theorem same_model_set_run_condition (c : RunCondition) (s t : State) (h : same_model s t) :
    same_model (set_run_condition c s) (set_run_condition c t) := by
  refine same_model_update s t (fun p => { p with run_condition := c }) ?_ h
  intro p q hpq
  obtain ⟨h1, h2, h3, h4, h5, h6⟩ := spec_fields_eq _ _ hpq
  simp only [PipelineData.spec, PipelineSpec.mk.injEq]
  exact ⟨h1, h2, h3, h4, trivial, h6⟩

theorem same_model_set_run_in_background (s t : State) (h : same_model s t) :
    same_model (set_run_in_background s) (set_run_in_background t) := by
  refine same_model_update s t (fun p => { p with run_in_background := 1 }) ?_ h
  intro p q hpq
  obtain ⟨h1, h2, h3, h4, h5, h6⟩ := spec_fields_eq _ _ hpq
  simp only [PipelineData.spec, PipelineSpec.mk.injEq]
  exact ⟨h1, h2, h3, h4, h5, trivial⟩

theorem agree_conditional_cmd_fuel (env env2 : Env) (hc1 : clean_args env)
    (hc2 : clean_args env2) (toks : List String) (tr0 : List Event)
    (hno : "(" ∉ toks) (fuel : Nat) :
    ∀ (s t : State), same_model s t → parse_inv env toks tr0 s →
      Res.agree (fun _ a b => same_model a b)
        (conditional_cmd_fuel env fuel s) (conditional_cmd_fuel env2 fuel t) := by
  induction fuel with
  | zero => intro s t _ _; trivial
  | succ fuel ih =>
    intro s t h hinv
    have hinv0 : parse_inv env toks tr0 { s with pipeline_data := init_pipeline s.pipeline_data }
        := parse_inv_congr env toks tr0 s _ hinv rfl rfl rfl rfl
    have h0 : same_record { s with pipeline_data := init_pipeline s.pipeline_data }
        { t with pipeline_data := init_pipeline t.pipeline_data } :=
      ⟨same_model_store s t _ _ h h.1 rfl rfl rfl rfl,
        by simp [init_pipeline, PipelineData.spec, arr_take]⟩
    unfold conditional_cmd_fuel
    refine agree_bind_inv _ _ (parse_inv env toks tr0) _ _ _ _
      (agree_cmd env env2 hc1 hc2 _ _ h0 (no_group_symbol env toks tr0 _ hinv0 hno))
      (inv_cmd env toks tr0 _ hinv0) ?_
    intro c a b hab hinva
    have hp := same_model_push a b hab
    have hpi : parse_inv env toks tr0 (push_pipeline a) :=
      parse_inv_congr env toks tr0 a _ hinva rfl rfl rfl rfl
    obtain ⟨e1, e2⟩ := same_model_match .DOUBLE_AMP _ _ hp
    have hmi := inv_match env toks tr0 .DOUBLE_AMP _ hpi
    obtain ⟨f1, f2⟩ := same_model_match .DOUBLE_PIPE _ _ e2
    have hmi2 := inv_match env toks tr0 .DOUBLE_PIPE _ hmi
    dsimp only
    rw [hab.1.2.1, e1, f1]
    split
    · split
      · split
        · exact ih _ _ (same_model_set_run_condition _ _ _ e2)
            (parse_inv_congr env toks tr0 _ _ hmi rfl rfl rfl rfl)
        · split
          · exact ih _ _ (same_model_set_run_condition _ _ _ f2)
              (parse_inv_congr env toks tr0 _ _ hmi2 rfl rfl rfl rfl)
          · exact ⟨rfl, f2⟩
      · trivial
    · exact ⟨rfl, hab.1⟩

theorem agree_shell_cmd_tail (result : Nat) (s t : State) (h : same_model s t) :
    Res.agree (fun _ a b => same_model a b) (shell_cmd_tail result s) (shell_cmd_tail result t)
    := by
  obtain ⟨e1, e2⟩ := same_model_match .AMP s t h
  unfold shell_cmd_tail
  dsimp only
  rw [e1, e2.2.1]
  split
  · split
    · split
      · trivial
      · exact ⟨rfl, same_model_set_run_in_background _ _ e2⟩
    · exact agree_expect_model .EPSILON _ _ e2
  · exact ⟨rfl, h⟩

theorem agree_shell_cmd_fuel (env env2 : Env) (hc1 : clean_args env) (hc2 : clean_args env2)
    (toks : List String) (tr0 : List Event) (hno : "(" ∉ toks) (fuel : Nat) :
    ∀ (s t : State), same_model s t → parse_inv env toks tr0 s →
      Res.agree (fun _ a b => same_model a b)
        (shell_cmd_fuel env fuel s) (shell_cmd_fuel env2 fuel t) := by
  induction fuel with
  | zero => intro s t _ _; trivial
  | succ fuel ih =>
    intro s t h hinv
    rw [shell_cmd_fuel_succ, shell_cmd_fuel_succ]
    unfold conditional_cmd
    rw [h.1.2.1]
    refine agree_bind_inv _ _ (parse_inv env toks tr0) _ _ _ _
      (agree_conditional_cmd_fuel env env2 hc1 hc2 toks tr0 hno _ s t h hinv)
      (by
        have := inv_conditional_cmd_fuel env toks tr0 (t.tokens.length + 1) s hinv
        exact this) ?_
    intro c a b hab hinva
    obtain ⟨e1, e2⟩ := same_model_match .SEMICOLON a b hab
    have hmi := inv_match env toks tr0 .SEMICOLON a hinva
    obtain ⟨f1, f2⟩ := same_model_match .AMP _ _ e2
    have hmi2 := inv_match env toks tr0 .AMP _ hmi
    unfold shell_cmd_rest
    dsimp only
    rw [e1, f1, f2.2.1]
    split
    · refine agree_bind _ _ _ _ _ _ ?_ (fun r a2 b2 h2 => agree_shell_cmd_tail r a2 b2 h2)
      split
      · exact ih _ _ e2 hmi
      · split
        · split
          · trivial
          · exact ih _ _ (same_model_set_run_in_background _ _ f2)
              (parse_inv_congr env toks tr0 _ _ hmi2 rfl rfl rfl rfl)
        · exact ⟨rfl, f2⟩
    · exact ⟨rfl, hab⟩

theorem command_model_of_same_model (s t : State) (h : same_model s t) :
    command_model s = command_model t := by
  obtain ⟨_, hn, hl⟩ := h
  simp only [command_model, arr_take, List.map_map, ← hn]
  apply List.map_congr_left
  intro j hj
  exact hl j (List.mem_range.mp hj)

theorem same_model_primed (s s2 : State) (toks : List String)
    (hs : s.pipeline_data_list_size = 0) (hs2 : s2.pipeline_data_list_size = 0) :
    same_model (primed s toks) (primed s2 toks) := by
  rw [primed_eq, primed_eq]
  refine ⟨⟨rfl, rfl, rfl⟩, by simp [state_at, hs, hs2], ?_⟩
  intro j hj
  simp [state_at, hs] at hj

/-- For every token sequence without a `(` token, every two states of the globals
whose list size is 0, whatever their records, argument list, matched token, array contents and
trace, and every two environments with clean blocks, `shell_cmd` started as `main` starts it
ends in the
same way from both: it returns in both with the same value and equal CommandModels (same
pipelines, stages, redirections, append flags, run conditions and background flags) and the
same lookahead, or it exits in `expect` in both with the same message, or it overruns an
array in both. -/
theorem shell_cmd_agree (env env2 : Env) (s s2 : State) (toks : List String)
    (hc1 : clean_args env) (hc2 : clean_args env2)
    (hno : "(" ∉ toks) (hs : s.pipeline_data_list_size = 0)
    (hs2 : s2.pipeline_data_list_size = 0) :
    Res.agree
      (fun _ a b => command_model a = command_model b ∧ a.symbol = b.symbol ∧
        a.next_token = b.next_token)
      (shell_cmd env (primed s toks)) (shell_cmd env2 (primed s2 toks)) := by
  have hm := same_model_primed s s2 toks hs hs2
  have h := agree_shell_cmd_fuel env env2 hc1 hc2 toks s.trace hno
    ((primed s toks).tokens.length + 1)
    _ _ hm (inv_primed env s toks)
  unfold shell_cmd
  rw [← hm.1.2.1]
  refine agree_mono _ _ _ _ h ?_
  intro _ a b hab
  exact ⟨command_model_of_same_model a b hab, hab.1.1, hab.1.2.2⟩

/-- The globals left over by `x | y > f` differ from the initial ones in the matched token,
the record being built and the first record of the list. -/
theorem stale_state_differs :
    stale_state.matched_token = some "f" ∧ initial_state.matched_token = none ∧
    stale_state.pipeline_data.cmd_list_size = 2 ∧
    initial_state.pipeline_data.cmd_list_size = 0 ∧
    (stale_state.pipeline_data_list 0).cmd_list_size = 2 :=
  ⟨by decide, by decide, by decide, by decide, by decide⟩

/-! ## The flags of the records stored by the parser -/

theorem list_frame_refl (s : State) : list_frame s s := ⟨rfl, rfl, rfl, rfl⟩

theorem list_frame_trans (s s1 s2 : State) (h1 : list_frame s s1) (h2 : list_frame s1 s2) :
    list_frame s s2 := by
  obtain ⟨a1, a2, a3, a4⟩ := h1
  obtain ⟨b1, b2, b3, b4⟩ := h2
  exact ⟨b1.trans a1, b2.trans a2, b3.trans a3, b4.trans a4⟩

theorem list_frame_match (sym : Symbol) (s : State) : list_frame s (match_ sym s).2 := by
  obtain ⟨_, h2, h3, h4⟩ := match_frame sym s
  exact ⟨h3, h4, by rw [h2], by rw [h2]⟩

theorem frame_expect (sym : Symbol) (s : State) :
    (expect sym s).returns (fun _ s1 => list_frame s s1) := by
  unfold expect
  dsimp only
  split
  · exact list_frame_match sym s
  · trivial

theorem frame_simple_cmd_loop (fuel : Nat) :
    ∀ (args : List CString) (s : State),
      (simple_cmd_loop fuel args s).returns (fun _ s1 => list_frame s s1) := by
  induction fuel with
  | zero => intro args s; trivial
  | succ fuel ih =>
    intro args s
    have hm := list_frame_match .LITERAL s
    unfold simple_cmd_loop
    dsimp only
    split
    · split
      · exact returns_mono _ _ _ (ih _ _) (fun _ s1 h1 => list_frame_trans _ _ _ hm h1)
      · trivial
    · split
      · exact hm
      · trivial

theorem frame_simple_cmd (env : Env) (s : State) :
    (simple_cmd env s).returns (fun _ s1 => list_frame s s1) := by
  have hm := list_frame_match .LITERAL s
  unfold simple_cmd
  dsimp only
  split
  · refine returns_bind _ _ _ _ (frame_simple_cmd_loop _ _ _) ?_
    intro args s1 h1
    split
    · exact list_frame_trans _ _ _ hm h1
    · trivial
  · exact hm

theorem frame_pipeline_fuel (env : Env) (fuel : Nat) :
    ∀ (s : State), (pipeline_fuel env fuel s).returns (fun _ s1 => list_frame s s1) := by
  induction fuel with
  | zero => intro s; trivial
  | succ fuel ih =>
    intro s
    unfold pipeline_fuel
    dsimp only
    refine returns_bind _ _ _ _ (frame_simple_cmd env s) ?_
    intro r s1 h1
    have hp : list_frame s (push_cmd s1) := h1
    have hm := list_frame_trans _ _ _ hp (list_frame_match .PIPE (push_cmd s1))
    split
    · split
      · split
        · refine returns_bind _ _ _ _ (ih _) ?_
          intro _ s2 h2
          exact list_frame_trans _ _ _ hm h2
        · exact hm
      · trivial
    · exact h1

theorem frame_redirect_set (sym : Symbol) (s : State) (g : State → PipelineData)
    (hg : ∀ s1, (g s1).run_condition = s1.pipeline_data.run_condition ∧
      (g s1).run_in_background = s1.pipeline_data.run_in_background) :
    ((expect sym s).bind fun r s1 =>
      if r ≠ 0 then .ret 1 { s1 with pipeline_data := g s1 } else .ret 0 s1).returns
      (fun _ s1 => list_frame s s1) := by
  refine returns_bind _ _ _ _ (frame_expect sym s) ?_
  intro r s1 h1
  split
  · obtain ⟨a1, a2, a3, a4⟩ := h1
    exact ⟨a1, a2, (hg s1).1.trans a3, (hg s1).2.trans a4⟩
  · exact h1

theorem frame_o_redirect (s : State) :
    (o_redirect s).returns (fun _ s1 => list_frame s s1) := by
  have hm := list_frame_match .GRATER s
  have hm2 := list_frame_trans _ _ _ hm (list_frame_match .DOUBLE_GRATER (match_ .GRATER s).2)
  unfold o_redirect
  dsimp only
  split
  · exact returns_mono _ _ _ (frame_redirect_set .LITERAL _ _ (fun _ => ⟨rfl, rfl⟩))
      (fun _ s1 h1 => list_frame_trans _ _ _ hm h1)
  · split
    · exact returns_mono _ _ _ (frame_redirect_set .LITERAL _ _ (fun _ => ⟨rfl, rfl⟩))
        (fun _ s1 h1 => list_frame_trans _ _ _ hm2 h1)
    · exact hm2

theorem frame_i_redirect (s : State) :
    (i_redirect s).returns (fun _ s1 => list_frame s s1) := by
  have hm := list_frame_match .SMALLER s
  unfold i_redirect
  dsimp only
  split
  · exact returns_mono _ _ _ (frame_redirect_set .LITERAL _ _ (fun _ => ⟨rfl, rfl⟩))
      (fun _ s1 h1 => list_frame_trans _ _ _ hm h1)
  · exact hm

theorem frame_io_redirect (s : State) :
    (io_redirect s).returns (fun _ s1 => list_frame s s1) := by
  unfold io_redirect
  refine returns_bind _ _ _ _ (frame_i_redirect s) ?_
  intro i s1 h1
  split
  · refine returns_bind _ _ _ _ (frame_o_redirect s1) ?_
    intro _ s2 h2
    exact list_frame_trans _ _ _ h1 h2
  · refine returns_bind _ _ _ _ (frame_o_redirect s1) ?_
    intro o s2 h2
    split
    · refine returns_bind _ _ _ _ (frame_i_redirect s2) ?_
      intro _ s3 h3
      exact list_frame_trans _ _ _ (list_frame_trans _ _ _ h1 h2) h3
    · exact list_frame_trans _ _ _ h1 h2

theorem frame_execute_pipeline_loop (env : Env) (p : PipelineData) (fuel : Nat) :
    ∀ (i : Nat) (s : State),
      (execute_pipeline_loop env p fuel i s).returns (fun _ s1 => list_frame s s1) := by
  induction fuel with
  | zero => intro i s; trivial
  | succ fuel ih =>
    intro i s
    unfold execute_pipeline_loop
    dsimp only
    split
    · split
      · split
        · exact ⟨rfl, rfl, rfl, rfl⟩
        · exact returns_mono _ _ _ (ih _ _) (fun _ s1 h1 => h1)
      · trivial
    · exact list_frame_refl s

theorem frame_cmd_loop (fuel : Nat) :
    ∀ (str : String) (s : State),
      (cmd_loop fuel str s).returns (fun _ s1 => list_frame s s1) := by
  induction fuel with
  | zero => intro str s; trivial
  | succ fuel ih =>
    intro str s
    have hm := list_frame_match .EPSILON s
    have hm2 := list_frame_trans _ _ _ hm (list_frame_match .RT_BRACE (match_ .EPSILON s).2)
    have hn : list_frame s (next_symbol (match_ .RT_BRACE (match_ .EPSILON s).2).2) := by
      obtain ⟨_, _, h3, h4, h5⟩ := next_symbol_frame (match_ .RT_BRACE (match_ .EPSILON s).2).2
      obtain ⟨a1, a2, a3, a4⟩ := hm2
      exact ⟨h4.trans a1, h5.trans a2, by rw [h3]; exact a3, by rw [h3]; exact a4⟩
    unfold cmd_loop
    dsimp only
    split
    · exact hm
    · split
      · exact hm2
      · repeat' split
        all_goals first
          | trivial
          | exact returns_mono _ _ _ (ih _ _) (fun _ s1 h1 => list_frame_trans _ _ _ hn h1)

theorem frame_cmd (env : Env) (s : State) :
    (cmd env s).returns (fun _ s1 => list_frame s s1) := by
  have hm := list_frame_match .LT_BRACE s
  unfold cmd
  dsimp only
  split
  · refine returns_bind _ _ _ _ (frame_cmd_loop _ _ _) ?_
    intro str s1 h1
    unfold run_exernal_shell execute_pipeline
    exact returns_mono _ _ _ (frame_execute_pipeline_loop env _ _ _ _)
      (fun _ s2 h2 => list_frame_trans _ _ _ (list_frame_trans _ _ _ hm h1) h2)
  · refine returns_bind _ _ _ _ (frame_io_redirect _) ?_
    intro io s1 h1
    have h1s := list_frame_trans _ _ _ hm h1
    split
    · refine returns_bind _ _ _ _ (frame_pipeline_fuel env _ s1) ?_
      intro p s2 h2
      split <;> exact list_frame_trans _ _ _ h1s h2
    · refine returns_bind _ _ _ _ (frame_pipeline_fuel env _ s1) ?_
      intro p s2 h2
      split
      · refine returns_bind _ _ _ _ (frame_io_redirect s2) ?_
        intro _ s3 h3
        exact list_frame_trans _ _ _ (list_frame_trans _ _ _ h1s h2) h3
      · exact list_frame_trans _ _ _ h1s h2

theorem background_ok_frame (s s1 : State) (h : background_ok s)
    (h1 : s1.pipeline_data_list = s.pipeline_data_list)
    (h2 : s1.pipeline_data_list_size = s.pipeline_data_list_size) : background_ok s1 := by
  unfold background_ok at *
  rw [h1, h2]
  exact h

theorem background_inner_ok_frame (s s1 : State) (h : background_inner_ok s)
    (h1 : s1.pipeline_data_list = s.pipeline_data_list)
    (h2 : s1.pipeline_data_list_size = s.pipeline_data_list_size) : background_inner_ok s1 := by
  unfold background_inner_ok at *
  rw [h1, h2]
  exact h

theorem background_inner_of_ok (s : State) (h : background_ok s) : background_inner_ok s :=
  fun i hi => h i (by omega)

theorem background_ok_push (s : State) (h : background_ok s)
    (hb : s.pipeline_data.run_in_background = 0) : background_ok (push_pipeline s) := by
  intro i hi hbg
  simp only [push_pipeline] at hi hbg ⊢
  by_cases hin : i = s.pipeline_data_list_size
  · simp only [arr_set, if_pos hin] at hbg
    exact absurd hb hbg
  · simp only [arr_set, if_neg hin] at hbg ⊢
    exact h i (by omega) hbg

theorem background_ok_set_run_condition (c : RunCondition) (s : State) (h : background_ok s)
    (hb : (s.pipeline_data_list (s.pipeline_data_list_size - 1)).run_in_background = 0) :
    background_ok (set_run_condition c s) := by
  intro i hi hbg
  simp only [set_run_condition] at hi hbg ⊢
  by_cases hin : i = s.pipeline_data_list_size - 1
  · simp only [arr_set, if_pos hin] at hbg
    exact absurd hb hbg
  · simp only [arr_set, if_neg hin] at hbg ⊢
    exact h i hi hbg

theorem background_ok_set_run_in_background (s : State) (h : background_ok s)
    (hc : (s.pipeline_data_list (s.pipeline_data_list_size - 1)).run_condition
      = .DONT_SKIP_NEXT) :
    background_ok (set_run_in_background s) := by
  intro i hi hbg
  simp only [set_run_in_background] at hi hbg ⊢
  by_cases hin : i = s.pipeline_data_list_size - 1
  · simp only [arr_set, if_pos hin]
    exact hc
  · simp only [arr_set, if_neg hin] at hbg ⊢
    exact h i hi hbg

theorem background_inner_ok_set_run_in_background (s : State) (h : background_inner_ok s) :
    background_inner_ok (set_run_in_background s) := by
  intro i hi hbg
  simp only [set_run_in_background] at hi hbg ⊢
  have hin : ¬ i = s.pipeline_data_list_size - 1 := by omega
  simp only [arr_set, if_neg hin] at hbg ⊢
  exact h i hi hbg

theorem flags_conditional_cmd_fuel (env : Env) (fuel : Nat) :
    ∀ (s : State), background_ok s →
      (conditional_cmd_fuel env fuel s).returns fresh_last := by
  induction fuel with
  | zero => intro s _; trivial
  | succ fuel ih =>
    intro s h
    unfold conditional_cmd_fuel
    refine returns_bind _ _ _ _
      (frame_cmd env { s with pipeline_data := init_pipeline s.pipeline_data }) ?_
    intro c s1 h1
    obtain ⟨a1, a2, a3, a4⟩ := h1
    have hc : s1.pipeline_data.run_condition = .DONT_SKIP_NEXT := a3
    have hb : s1.pipeline_data.run_in_background = 0 := a4
    have hok1 : background_ok s1 := background_ok_frame s s1 h a1 a2
    have hp := background_ok_push s1 hok1 hb
    have elast : (push_pipeline s1).pipeline_data_list
        ((push_pipeline s1).pipeline_data_list_size - 1) = s1.pipeline_data := by
      simp [push_pipeline, arr_set]
    have esize : 1 ≤ (push_pipeline s1).pipeline_data_list_size := by
      simp [push_pipeline]
    obtain ⟨b1, b2, _, _⟩ := list_frame_match .DOUBLE_AMP (push_pipeline s1)
    obtain ⟨c1, c2, _, _⟩ := list_frame_match .DOUBLE_PIPE
      (match_ .DOUBLE_AMP (push_pipeline s1)).2
    have hm1 := background_ok_frame _ _ hp b1 b2
    have hm2 := background_ok_frame _ _ hm1 c1 c2
    dsimp only
    split
    · split
      · split
        · refine ih _ (background_ok_set_run_condition _ _ hm1 ?_)
          rw [b1, b2, elast]
          exact hb
        · split
          · refine ih _ (background_ok_set_run_condition _ _ hm2 ?_)
            rw [c1, c2, b1, b2, elast]
            exact hb
          · refine ⟨hm2, fun _ => ⟨by rw [c2, b2]; exact esize, ?_⟩⟩
            rw [c1, c2, b1, b2, elast]
            exact hc
      · trivial
    · exact ⟨hok1, fun hne => absurd rfl hne⟩

theorem flags_shell_cmd_tail (result : Nat) (s : State) (h : background_inner_ok s) :
    (shell_cmd_tail result s).returns (fun _ s1 => background_inner_ok s1) := by
  obtain ⟨b1, b2, _, _⟩ := list_frame_match .AMP s
  have hm := background_inner_ok_frame _ _ h b1 b2
  unfold shell_cmd_tail
  dsimp only
  split
  · split
    · split
      · trivial
      · exact background_inner_ok_set_run_in_background _ hm
    · unfold expect
      dsimp only
      obtain ⟨c1, c2, _, _⟩ := list_frame_match .EPSILON (match_ .AMP s).2
      split
      · exact background_inner_ok_frame _ _ hm c1 c2
      · trivial
  · exact h

theorem flags_shell_cmd_fuel (env : Env) (fuel : Nat) :
    ∀ (s : State), background_ok s →
      (shell_cmd_fuel env fuel s).returns (fun _ s1 => background_inner_ok s1) := by
  induction fuel with
  | zero => intro s _; trivial
  | succ fuel ih =>
    intro s h
    rw [shell_cmd_fuel_succ]
    unfold conditional_cmd
    refine returns_bind _ _ _ _ (flags_conditional_cmd_fuel env _ s h) ?_
    intro c s1 h1
    obtain ⟨hok, hlast⟩ := h1
    obtain ⟨b1, b2, _, _⟩ := list_frame_match .SEMICOLON s1
    obtain ⟨c1, c2, _, _⟩ := list_frame_match .AMP (match_ .SEMICOLON s1).2
    have hm1 := background_ok_frame _ _ hok b1 b2
    have hm2 := background_ok_frame _ _ hm1 c1 c2
    unfold shell_cmd_rest
    dsimp only
    split
    · rename_i hc
      refine returns_bind _ _ _ _ ?_ (fun r s2 h2 => flags_shell_cmd_tail r s2 h2)
      split
      · exact ih _ hm1
      · split
        · split
          · trivial
          · refine ih _ (background_ok_set_run_in_background _ hm2 ?_)
            rw [c1, c2, b1, b2]
            exact (hlast hc).2
        · exact background_inner_of_ok _ hm2
    · exact background_inner_of_ok _ hok

/-- In the CommandModel that `shell_cmd` has built when it returns, started as `main` starts
it, a pipeline in the background that is followed by another pipeline has the run condition
`DONT_SKIP_NEXT`: the value `execute_pipeline` returns for it decides no skip. -/
theorem background_inner_parsed (env : Env) (s : State) (toks : List String) (r : Nat)
    (s1 : State) (hsize : s.pipeline_data_list_size = 0)
    (hret : shell_cmd env (primed s toks) = .ret r s1) :
    ∀ i, i + 1 < s1.pipeline_data_list_size →
      (s1.pipeline_data_list i).run_in_background ≠ 0 →
      (s1.pipeline_data_list i).run_condition = .DONT_SKIP_NEXT := by
  have hp : background_ok (primed s toks) := by
    intro i hi
    rw [primed_eq] at hi
    simp [state_at, hsize] at hi
  have h := flags_shell_cmd_fuel env ((primed s toks).tokens.length + 1) _ hp
  unfold shell_cmd at hret
  rw [hret] at h
  exact h

/-- C11, as stated, fails: on the line `ls &` the parser stores `ls` as a pipeline in the
background, and `execute_pipeline`, every `fork` succeeding, returns 0 for it, not 1; the call
that `execute_pipelines` makes for it in `main` has the result 0. -/
theorem C11_counterexample :
    ((parsed sample_env ["ls", "&"]).pipeline_data_list 0).run_in_background = 1 ∧
    (execute_pipeline sample_env ((parsed sample_env ["ls", "&"]).pipeline_data_list 0) (-1)
      (parsed sample_env ["ls", "&"])).value = some 0 ∧
    dispatches (main_round sample_env 8 initial_state "ls &").trace = [(0, 0)] :=
  ⟨by decide, by decide, by decide⟩

/-- C11, amended: for a record that is in the background, every `fork` succeeding,
`execute_pipeline` returns, and the value is 0; it creates one child per stage, in stage order,
and makes no blocking `waitpid`.  The value decides no skip in `execute_pipelines`: in every
CommandModel that `shell_cmd` has built when it returns, started as `main` starts it, a
pipeline in the background that is followed by another pipeline has the run condition
`DONT_SKIP_NEXT`. -/
theorem C11_background_pipeline (env : Env) (p : PipelineData) (fd : Int) (s : State)
    (hbg : p.run_in_background ≠ 0) (hfork : ∀ pid, env.fork_ok pid = true) :
    (∃ s1 evs,
      execute_pipeline env p fd s = .ret 0 s1 ∧
      s1.trace = s.trace ++ evs ∧
      (forked evs).map Prod.snd = arr_take p.cmd_list p.cmd_list_size ∧
      blocking_waits evs = []) ∧
    (∀ (env0 : Env) (s0 : State) (toks : List String) (r : Nat) (s2 : State),
      s0.pipeline_data_list_size = 0 → shell_cmd env0 (primed s0 toks) = .ret r s2 →
      ∀ i, i + 1 < s2.pipeline_data_list_size →
        (s2.pipeline_data_list i).run_in_background ≠ 0 →
        (s2.pipeline_data_list i).run_condition = .DONT_SKIP_NEXT) := by
  have hres : ∀ pid, run_result env p.cmd_list_size p.run_in_background pid = 0 := by
    intro pid; simp [run_result, hbg]
  refine ⟨⟨after_run p s, run_events (arr_take p.cmd_list p.cmd_list_size) p.run_in_background
    s.next_pid, ?_, rfl, (forked_run_events _ _ _).1, blocking_waits_background _ _ _ hbg⟩, ?_⟩
  · rw [execute_pipeline_run env p fd s hfork, hres]
  · intro env0 s0 toks r s2 hsize hret
    exact background_inner_parsed env0 s0 toks r s2 hsize hret

/-- The theorem of C11 at the record that the parser stores for the line `ls &`. -/
theorem C11_background_pipeline_witness :
    (∃ s1 evs,
      execute_pipeline sample_env ((parsed sample_env ["ls", "&"]).pipeline_data_list 0) (-1)
        (parsed sample_env ["ls", "&"]) = .ret 0 s1 ∧
      s1.trace = (parsed sample_env ["ls", "&"]).trace ++ evs ∧
      (forked evs).map Prod.snd
        = arr_take ((parsed sample_env ["ls", "&"]).pipeline_data_list 0).cmd_list
            ((parsed sample_env ["ls", "&"]).pipeline_data_list 0).cmd_list_size ∧
      blocking_waits evs = []) ∧
    (∀ (env0 : Env) (s0 : State) (toks : List String) (r : Nat) (s2 : State),
      s0.pipeline_data_list_size = 0 → shell_cmd env0 (primed s0 toks) = .ret r s2 →
      ∀ i, i + 1 < s2.pipeline_data_list_size →
        (s2.pipeline_data_list i).run_in_background ≠ 0 →
        (s2.pipeline_data_list i).run_condition = .DONT_SKIP_NEXT) :=
  C11_background_pipeline sample_env ((parsed sample_env ["ls", "&"]).pipeline_data_list 0)
    (-1) (parsed sample_env ["ls", "&"]) (by decide) (fun _ => rfl)

/-! ## Lines on which the parser is defined -/

theorem sound_bind {α β : Type} (P : α → State → Prop) (I : State → Prop)
    (Q : β → State → Prop) (r : Res α) (f : α → State → Res β)
    (hr : r.sound P) (hi : r.all I) (hf : ∀ a s, P a s → I s → (f a s).sound Q) :
    (r.bind f).sound Q := by
  cases r with
  | ret a s => exact hf a s hr hi
  | synerr e g s => trivial
  | forkerr s => exact hr
  | undefined => exact hr
  | out_of_fuel => trivial

theorem sound_bind0 {α β : Type} (P : α → State → Prop)
    (Q : β → State → Prop) (r : Res α) (f : α → State → Res β)
    (hr : r.sound P) (hf : ∀ a s, P a s → (f a s).sound Q) :
    (r.bind f).sound Q := by
  cases r with
  | ret a s => exact hf a s hr
  | synerr e g s => trivial
  | forkerr s => exact hr
  | undefined => exact hr
  | out_of_fuel => trivial

theorem sound_mono {α : Type} (P Q : α → State → Prop) (r : Res α) (hr : r.sound P)
    (hpq : ∀ a s, P a s → Q a s) : r.sound Q := by
  cases r with
  | ret a s => exact hpq a s hr
  | synerr e g s => trivial
  | forkerr s => exact hr
  | undefined => exact hr
  | out_of_fuel => trivial

theorem kept_trans (s s1 s2 : State) (a b r : Nat) (h1 : kept s a s1) (h2 : kept s1 b s2)
    (hr : r ≠ 0 → a ≠ 0 ∨ b ≠ 0) : kept s r s2 := by
  obtain ⟨a1, a2, a3, a4⟩ := h1
  obtain ⟨b1, b2, b3, b4⟩ := h2
  refine ⟨by omega, ?_, b3.trans a3, b4.trans a4⟩
  intro h
  rcases hr h with h | h
  · have := a2 h; omega
  · have := b2 h; omega

theorem kept_match (sym : Symbol) (s : State) (hs : sym ≠ .EPSILON) :
    kept s (match_ sym s).1 (match_ sym s).2 := by
  obtain ⟨_, h2, _, h4⟩ := match_frame sym s
  exact ⟨(progress_match sym s).2, fun h => unconsumed_match_lt sym s hs h, by rw [h2], h4⟩

theorem kept_weaken (s : State) (r : Nat) (s1 : State) (h : kept s r s1) : kept s 0 s1 :=
  ⟨h.1, fun hne => absurd rfl hne, h.2.2.1, h.2.2.2⟩

theorem sound_expect (sym : Symbol) (s : State) (hs : sym ≠ .EPSILON) :
    (expect sym s).sound (fun _ s1 => kept s 1 s1) := by
  have hm := kept_match sym s hs
  unfold expect
  dsimp only
  split
  · rename_i hhit
    exact ⟨hm.1, fun _ => hm.2.1 hhit, hm.2.2.1, hm.2.2.2⟩
  · trivial

theorem sound_redirect_set (s : State) (g : State → PipelineData)
    (hg : ∀ s1, (g s1).cmd_list_size = s1.pipeline_data.cmd_list_size) :
    ((expect .LITERAL s).bind fun r s1 =>
      if r ≠ 0 then .ret 1 { s1 with pipeline_data := g s1 } else .ret 0 s1).sound
      (fun _ s1 => kept s 1 s1) := by
  refine sound_bind0 _ _ _ _ (sound_expect .LITERAL s (by decide)) ?_
  intro r s1 h1
  obtain ⟨a1, a2, a3, a4⟩ := h1
  split
  · exact ⟨a1, a2, (hg s1).trans a3, a4⟩
  · exact ⟨a1, a2, a3, a4⟩

theorem sound_o_redirect (s : State) : (o_redirect s).sound (kept s) := by
  have hm := kept_match .GRATER s (by decide)
  have hm2 := kept_match .DOUBLE_GRATER (match_ .GRATER s).2 (by decide)
  unfold o_redirect
  dsimp only
  split
  · exact sound_mono _ _ _ (sound_redirect_set _ _ (fun _ => rfl))
      (fun _ s1 h1 => kept_trans _ _ _ _ _ _ hm h1 (fun _ => Or.inr (by decide)))
  · split
    · exact sound_mono _ _ _ (sound_redirect_set _ _ (fun _ => rfl))
        (fun _ s1 h1 => kept_trans _ _ _ _ _ _ (kept_trans _ _ _ _ _ 0 hm hm2
          (fun h => absurd rfl h)) h1 (fun _ => Or.inr (by decide)))
    · exact kept_trans _ _ _ _ _ 0 hm hm2 (fun h => absurd rfl h)

theorem sound_i_redirect (s : State) : (i_redirect s).sound (kept s) := by
  have hm := kept_match .SMALLER s (by decide)
  unfold i_redirect
  dsimp only
  split
  · exact sound_mono _ _ _ (sound_redirect_set _ _ (fun _ => rfl))
      (fun _ s1 h1 => kept_trans _ _ _ _ _ _ hm h1 (fun _ => Or.inr (by decide)))
  · exact kept_weaken _ _ _ hm

theorem sound_io_redirect (s : State) : (io_redirect s).sound (kept s) := by
  unfold io_redirect
  refine sound_bind0 _ _ _ _ (sound_i_redirect s) ?_
  intro i s1 h1
  split
  · rename_i hi
    refine sound_bind0 _ _ _ _ (sound_o_redirect s1) ?_
    intro o s2 h2
    exact kept_trans _ _ _ _ _ _ h1 h2 (fun _ => Or.inl hi)
  · refine sound_bind0 _ _ _ _ (sound_o_redirect s1) ?_
    intro o s2 h2
    split
    · rename_i ho
      refine sound_bind0 _ _ _ _ (sound_i_redirect s2) ?_
      intro j s3 h3
      exact kept_trans _ _ _ _ _ _ (kept_trans _ _ _ _ _ o h1 h2 (fun h => Or.inr h)) h3
        (fun _ => Or.inl ho)
    · exact kept_weaken _ _ _ (kept_trans _ _ _ _ _ o h1 h2 (fun h => Or.inr h))

theorem sound_simple_cmd_loop (fuel : Nat) :
    ∀ (args : List CString) (s : State), args.length + unconsumed s ≤ 63 →
      (simple_cmd_loop fuel args s).sound (fun _ s1 => kept s 0 s1) := by
  induction fuel with
  | zero => intro args s _; trivial
  | succ fuel ih =>
    intro args s h
    have hm := kept_match .LITERAL s (by decide)
    unfold simple_cmd_loop
    dsimp only
    split
    · rename_i hhit
      have hlt := hm.2.1 hhit
      rw [if_pos (by omega)]
      exact sound_mono _ _ _ (ih _ _ (by simp; omega))
        (fun _ s1 h1 => kept_trans _ _ _ _ _ 0 hm h1 (fun h => absurd rfl h))
    · rw [if_pos (by omega)]
      exact kept_weaken _ _ _ hm

theorem sound_simple_cmd (env : Env) (hclean : clean_args env) (toks : List String)
    (tr0 : List Event) (hlen : toks.length ≤ 63) (s : State)
    (h : parse_inv env toks tr0 s) (hu : unconsumed s ≤ 63) :
    (simple_cmd env s).sound (kept s) := by
  have hm := kept_match .LITERAL s (by decide)
  have hi := inv_match env toks tr0 .LITERAL s h
  unfold simple_cmd
  dsimp only
  split
  · rename_i hhit
    have hlt := hm.2.1 hhit
    refine sound_bind _ (parse_inv env toks tr0) _ _ _
      (sound_simple_cmd_loop _ _ _ (by simp; omega))
      (inv_simple_cmd_loop env toks tr0 _ _ _ hi) ?_
    intro args s1 h1 hi1
    obtain ⟨ht, ⟨hnt, _, _⟩, _⟩ := hi1
    rw [if_pos (debug_loop_clean env hclean _ _ _ 0 (by rw [ht] at hnt; omega))]
    have h2 := kept_trans _ _ _ _ _ 1 hm h1 (fun _ => Or.inl hhit)
    exact h2
  · exact kept_weaken _ _ _ hm

theorem sound_pipeline_fuel (env : Env) (hclean : clean_args env) (toks : List String)
    (tr0 : List Event) (hlen : toks.length ≤ 63) (fuel : Nat) :
    ∀ (s : State), parse_inv env toks tr0 s →
      s.pipeline_data.cmd_list_size + unconsumed s ≤ 63 →
      (pipeline_fuel env fuel s).sound (consumed s) := by
  induction fuel with
  | zero => intro s _ _; trivial
  | succ fuel ih =>
    intro s h hu
    unfold pipeline_fuel
    dsimp only
    refine sound_bind _ (parse_inv env toks tr0) _ _ _
      (sound_simple_cmd env hclean toks tr0 hlen s h (by omega))
      (inv_simple_cmd env toks tr0 s h) ?_
    intro r s1 h1 hi1
    obtain ⟨a1, a2, a3, a4⟩ := h1
    have hp : parse_inv env toks tr0 (push_cmd s1) :=
      parse_inv_congr env toks tr0 s1 _ hi1 rfl rfl rfl rfl
    have hm := kept_match .PIPE (push_cmd s1) (by decide)
    have hmi := inv_match env toks tr0 .PIPE _ hp
    have eu : unconsumed (push_cmd s1) = unconsumed s1 := rfl
    have es : (push_cmd s1).pipeline_data.cmd_list_size
        = s1.pipeline_data.cmd_list_size + 1 := rfl
    have el : (push_cmd s1).pipeline_data_list_size = s1.pipeline_data_list_size := rfl
    obtain ⟨b1, b2, b3, b4⟩ := hm
    split
    · rename_i hr
      have hlt := a2 hr
      rw [if_pos (by omega)]
      split
      · rename_i hhit
        have hlt2 := b2 hhit
        refine sound_bind0 _ _ _ _ (ih _ hmi (by omega)) ?_
        intro _ s2 h2
        obtain ⟨c1, c2, c4⟩ := h2
        exact ⟨by omega, fun _ => by omega, by rw [c4, b4, el, a4]⟩
      · exact ⟨by omega, fun _ => by omega, by rw [b4, el, a4]⟩
    · exact ⟨a1, fun hne => absurd rfl hne, a4⟩

theorem sound_cmd (env : Env) (hclean : clean_args env) (toks : List String)
    (tr0 : List Event) (hlen : toks.length ≤ 63) (hno : "(" ∉ toks) (s : State)
    (h : parse_inv env toks tr0 s) (hsize : s.pipeline_data.cmd_list_size = 0)
    (hu : unconsumed s ≤ 63) :
    (cmd env s).sound (consumed s) := by
  have hm := kept_match .LT_BRACE s (by decide)
  have hi := inv_match env toks tr0 .LT_BRACE s h
  have hmiss : ¬ (match_ .LT_BRACE s).1 ≠ 0 :=
    fun hh => no_group_symbol env toks tr0 s h hno (match_hit_symbol _ _ hh)
  unfold cmd
  dsimp only
  rw [if_neg hmiss]
  refine sound_bind _ (parse_inv env toks tr0) _ _ _ (sound_io_redirect _)
    (inv_io_redirect env toks tr0 _ hi) ?_
  intro io s1 h1 hi1
  have hk := kept_trans _ _ _ _ _ io hm h1 (fun h => Or.inr h)
  obtain ⟨a1, a2, a3, a4⟩ := hk
  have hpl := sound_pipeline_fuel env hclean toks tr0 hlen (s1.tokens.length + 1) s1 hi1
    (by rw [a3, hsize]; omega)
  split
  · rename_i hio
    have hlt := a2 hio
    refine sound_bind0 _ _ _ _ hpl ?_
    intro p s2 h2
    obtain ⟨c1, c2, c4⟩ := h2
    split
    · exact ⟨by omega, fun _ => by omega, c4.trans a4⟩
    · exact ⟨by omega, fun hne => absurd rfl hne, c4.trans a4⟩
  · refine sound_bind0 _ _ _ _ hpl ?_
    intro p s2 h2
    obtain ⟨c1, c2, c4⟩ := h2
    split
    · rename_i hp
      have hlt := c2 hp
      refine sound_bind0 _ _ _ _ (sound_io_redirect s2) ?_
      intro _ s3 h3
      obtain ⟨d1, d2, d3, d4⟩ := h3
      exact ⟨by omega, fun _ => by omega, by rw [d4, c4, a4]⟩
    · exact ⟨by omega, fun hne => absurd rfl hne, c4.trans a4⟩

theorem sound_conditional_cmd_fuel (env : Env) (hclean : clean_args env) (toks : List String)
    (tr0 : List Event) (hlen : toks.length ≤ 63) (hno : "(" ∉ toks) (fuel : Nat) :
    ∀ (s : State), parse_inv env toks tr0 s →
      s.pipeline_data_list_size + unconsumed s ≤ 63 →
      (conditional_cmd_fuel env fuel s).sound
        (fun r s1 => grown s s1 ∧ (r ≠ 0 → 1 ≤ s1.pipeline_data_list_size)) := by
  induction fuel with
  | zero => intro s _ _; trivial
  | succ fuel ih =>
    intro s h hu
    have h0 : parse_inv env toks tr0 { s with pipeline_data := init_pipeline s.pipeline_data }
        := parse_inv_congr env toks tr0 s _ h rfl rfl rfl rfl
    have eu0 : unconsumed ({ s with pipeline_data := init_pipeline s.pipeline_data } : State)
        = unconsumed s := rfl
    unfold conditional_cmd_fuel
    refine sound_bind _ (parse_inv env toks tr0) _ _ _
      (sound_cmd env hclean toks tr0 hlen hno _ h0 rfl (by rw [eu0]; omega))
      (inv_cmd env toks tr0 _ h0) ?_
    intro c s1 h1 hi1
    obtain ⟨a1, a2, a4⟩ := h1
    rw [eu0] at a1 a2
    have a4 : s1.pipeline_data_list_size = s.pipeline_data_list_size := a4
    have hpi : parse_inv env toks tr0 (push_pipeline s1) :=
      parse_inv_congr env toks tr0 s1 _ hi1 rfl rfl rfl rfl
    have eu : unconsumed (push_pipeline s1) = unconsumed s1 := rfl
    have el : (push_pipeline s1).pipeline_data_list_size = s1.pipeline_data_list_size + 1 :=
      rfl
    obtain ⟨b1, _, _, b4⟩ := kept_match .DOUBLE_AMP (push_pipeline s1) (by decide)
    have hmi := inv_match env toks tr0 .DOUBLE_AMP _ hpi
    obtain ⟨c1, _, _, c4⟩ := kept_match .DOUBLE_PIPE (match_ .DOUBLE_AMP (push_pipeline s1)).2
      (by decide)
    have hmi2 := inv_match env toks tr0 .DOUBLE_PIPE _ hmi
    dsimp only
    split
    · rename_i hc
      have hlt := a2 hc
      rw [if_pos (by omega)]
      split
      · have hrec := ih (set_run_condition .SKIP_NEXST_ON_FAILURE
          (match_ .DOUBLE_AMP (push_pipeline s1)).2)
          (parse_inv_congr env toks tr0 _ _ hmi rfl rfl rfl rfl)
          (by
            have e1 : (set_run_condition .SKIP_NEXST_ON_FAILURE
                (match_ .DOUBLE_AMP (push_pipeline s1)).2).pipeline_data_list_size
                = (match_ .DOUBLE_AMP (push_pipeline s1)).2.pipeline_data_list_size := rfl
            have e2 : unconsumed (set_run_condition .SKIP_NEXST_ON_FAILURE
                (match_ .DOUBLE_AMP (push_pipeline s1)).2)
                = unconsumed (match_ .DOUBLE_AMP (push_pipeline s1)).2 := rfl
            rw [e1, e2, b4, el, a4]
            omega)
        refine sound_mono _ _ _ hrec ?_
        intro r s2 h2
        obtain ⟨⟨d1, d2⟩, d3⟩ := h2
        have e1 : (set_run_condition .SKIP_NEXST_ON_FAILURE
            (match_ .DOUBLE_AMP (push_pipeline s1)).2).pipeline_data_list_size
            = (match_ .DOUBLE_AMP (push_pipeline s1)).2.pipeline_data_list_size := rfl
        have e2 : unconsumed (set_run_condition .SKIP_NEXST_ON_FAILURE
            (match_ .DOUBLE_AMP (push_pipeline s1)).2)
            = unconsumed (match_ .DOUBLE_AMP (push_pipeline s1)).2 := rfl
        rw [e1, e2, b4, el, a4] at d1
        rw [e1, b4, el, a4] at d2
        exact ⟨⟨by omega, by omega⟩, fun _ => by omega⟩
      · split
        · have e1 : (set_run_condition .SKIP_NEXST_ON_SUCCSESS
              (match_ .DOUBLE_PIPE (match_ .DOUBLE_AMP (push_pipeline s1)).2).2
              ).pipeline_data_list_size
              = (match_ .DOUBLE_PIPE
                  (match_ .DOUBLE_AMP (push_pipeline s1)).2).2.pipeline_data_list_size := rfl
          have e2 : unconsumed (set_run_condition .SKIP_NEXST_ON_SUCCSESS
              (match_ .DOUBLE_PIPE (match_ .DOUBLE_AMP (push_pipeline s1)).2).2)
              = unconsumed (match_ .DOUBLE_PIPE
                  (match_ .DOUBLE_AMP (push_pipeline s1)).2).2 := rfl
          have hrec := ih (set_run_condition .SKIP_NEXST_ON_SUCCSESS
            (match_ .DOUBLE_PIPE (match_ .DOUBLE_AMP (push_pipeline s1)).2).2)
            (parse_inv_congr env toks tr0 _ _ hmi2 rfl rfl rfl rfl)
            (by rw [e1, e2, c4, b4, el, a4]; omega)
          refine sound_mono _ _ _ hrec ?_
          intro r s2 h2
          obtain ⟨⟨d1, d2⟩, d3⟩ := h2
          rw [e1, e2, c4, b4, el, a4] at d1
          rw [e1, c4, b4, el, a4] at d2
          exact ⟨⟨by omega, by omega⟩, fun _ => by omega⟩
        · refine ⟨⟨?_, ?_⟩, fun _ => ?_⟩
          · rw [c4, b4, el, a4]; omega
          · rw [c4, b4, el, a4]; omega
          · rw [c4, b4, el]; omega
    · exact ⟨⟨by rw [a4]; omega, by rw [a4]⟩, fun hne => absurd rfl hne⟩

theorem grown_trans (s s1 s2 : State) (h1 : grown s s1) (h2 : grown s1 s2) : grown s s2 :=
  ⟨Nat.le_trans h2.1 h1.1, Nat.le_trans h1.2 h2.2⟩

theorem sound_shell_cmd_tail (result : Nat) (s : State)
    (hsize : 1 ≤ s.pipeline_data_list_size) :
    (shell_cmd_tail result s).sound (fun _ s1 => grown s s1) := by
  obtain ⟨b1, _, _, b4⟩ := kept_match .AMP s (by decide)
  have hme := progress_match .EPSILON (match_ .AMP s).2
  obtain ⟨_, _, _, c4⟩ := match_frame .EPSILON (match_ .AMP s).2
  unfold shell_cmd_tail
  dsimp only
  split
  · split
    · rw [if_neg (by rw [b4]; omega)]
      have e1 : (set_run_in_background (match_ .AMP s).2).pipeline_data_list_size
          = (match_ .AMP s).2.pipeline_data_list_size := rfl
      have e2 : unconsumed (set_run_in_background (match_ .AMP s).2)
          = unconsumed (match_ .AMP s).2 := rfl
      exact ⟨by rw [e1, e2, b4]; omega, by rw [e1, b4]⟩
    · unfold expect
      dsimp only
      split
      · have := hme.2
        exact ⟨by rw [c4, b4]; omega, by rw [c4, b4]⟩
      · trivial
  · exact ⟨Nat.le_refl _, Nat.le_refl _⟩

theorem sound_shell_cmd_fuel (env : Env) (hclean : clean_args env) (toks : List String)
    (tr0 : List Event) (hlen : toks.length ≤ 63) (hno : "(" ∉ toks) (fuel : Nat) :
    ∀ (s : State), parse_inv env toks tr0 s →
      s.pipeline_data_list_size + unconsumed s ≤ 63 →
      (shell_cmd_fuel env fuel s).sound (fun _ s1 => grown s s1) := by
  induction fuel with
  | zero => intro s _ _; trivial
  | succ fuel ih =>
    intro s h hu
    rw [shell_cmd_fuel_succ]
    unfold conditional_cmd
    refine sound_bind _ (parse_inv env toks tr0) _ _ _
      (sound_conditional_cmd_fuel env hclean toks tr0 hlen hno _ s h hu)
      (inv_conditional_cmd_fuel env toks tr0 _ s h) ?_
    intro c s1 h1 hi1
    obtain ⟨⟨a1, a2⟩, a3⟩ := h1
    obtain ⟨b1, _, _, b4⟩ := kept_match .SEMICOLON s1 (by decide)
    have hmi := inv_match env toks tr0 .SEMICOLON s1 hi1
    obtain ⟨c1, _, _, c4⟩ := kept_match .AMP (match_ .SEMICOLON s1).2 (by decide)
    have hmi2 := inv_match env toks tr0 .AMP _ hmi
    unfold shell_cmd_rest
    dsimp only
    split
    · rename_i hc
      have hone := a3 hc
      refine sound_bind0 (fun _ s2 => grown s s2 ∧ 1 ≤ s2.pipeline_data_list_size) _ _ _ ?_ ?_
      · split
        · refine sound_mono _ _ _ (ih _ hmi (by rw [b4]; omega)) ?_
          intro _ s2 h2
          obtain ⟨d1, d2⟩ := h2
          rw [b4] at d1 d2
          exact ⟨⟨by omega, by omega⟩, by omega⟩
        · split
          · rw [if_neg (by rw [c4, b4]; omega)]
            have e1 : (set_run_in_background
                (match_ .AMP (match_ .SEMICOLON s1).2).2).pipeline_data_list_size
                = (match_ .AMP (match_ .SEMICOLON s1).2).2.pipeline_data_list_size := rfl
            have e2 : unconsumed (set_run_in_background
                (match_ .AMP (match_ .SEMICOLON s1).2).2)
                = unconsumed (match_ .AMP (match_ .SEMICOLON s1).2).2 := rfl
            refine sound_mono _ _ _ (ih _
              (parse_inv_congr env toks tr0 _ _ hmi2 rfl rfl rfl rfl)
              (by rw [e1, e2, c4, b4]; omega)) ?_
            intro _ s2 h2
            obtain ⟨d1, d2⟩ := h2
            rw [e1, e2, c4, b4] at d1
            rw [e1, c4, b4] at d2
            exact ⟨⟨by omega, by omega⟩, by omega⟩
          · exact ⟨⟨by rw [c4, b4]; omega, by rw [c4, b4]; omega⟩, by rw [c4, b4]; omega⟩
      · intro r s2 h2
        exact sound_mono _ _ _ (sound_shell_cmd_tail r s2 h2.2)
          (fun _ s3 h3 => grown_trans _ _ _ h2.1 h3)
    · exact ⟨a1, a2⟩

/-- On a line of at most 63 tokens without `(`, with clean blocks, `shell_cmd` started as
`main` starts it returns or exits in `expect`: it overruns no array, prints nothing outside a
block, and its fuel suffices. -/
theorem shell_cmd_defined (env : Env) (hclean : clean_args env) (s : State)
    (toks : List String) (hlen : toks.length ≤ 63) (hno : "(" ∉ toks)
    (hsize : s.pipeline_data_list_size = 0) :
    (∃ r s1, shell_cmd env (primed s toks) = .ret r s1) ∨
    (∃ e g s1, shell_cmd env (primed s toks) = .synerr e g s1) := by
  have hu : unconsumed (primed s toks) = toks.length := by
    rw [primed_eq, unconsumed_state_at]
  have hz : (primed s toks).pipeline_data_list_size = 0 := by
    rw [primed_eq]; exact hsize
  have h1 := sound_shell_cmd_fuel env hclean toks s.trace hlen hno
    ((primed s toks).tokens.length + 1) _ (inv_primed env s toks) (by rw [hu, hz]; omega)
  have h2 := halts_shell_cmd env s toks
  unfold shell_cmd at h2 ⊢
  cases hr : shell_cmd_fuel env ((primed s toks).tokens.length + 1) (primed s toks) with
  | ret r s1 => exact Or.inl ⟨r, s1, rfl⟩
  | synerr e g s1 => exact Or.inr ⟨e, g, s1, rfl⟩
  | forkerr s1 => rw [hr] at h1; exact absurd h1 (by simp [Res.sound])
  | undefined => rw [hr] at h1; exact absurd h1 (by simp [Res.sound])
  | out_of_fuel => rw [hr] at h2; exact absurd h2 (by simp [Res.ends])

/-- C17, as stated, fails: there are token sequences for which the parser builds no
CommandModel at all.  Where a pointer has 8 bytes the line `a b c d e f g h i` has 9 tokens,
which `tokenize` writes past the 8 elements of its array; and on `x | y`, in `simple_cmd` for
`y`, the debug loop prints `arg_list[2]`, which was never written: when it holds neither
`NULL` nor a string the print is undefined. -/
theorem C17_counterexample :
    (main_parse sample_env 8 initial_state "a b c d e f g h i").is_undefined = true ∧
    (main_parse junk_env 8 initial_state "x | y").is_undefined = true :=
  ⟨by decide, by decide⟩

/-- C17, amended: whenever `shell_cmd` returns, started as `main` starts it (list size 0, any
other globals), every command of every pipeline of the CommandModel is a non-`NULL` argument
vector with at least one element, and each element is a token of the line classified
`LITERAL`; so `cmd[0]` is a string, and no operator token is an argument.  And `shell_cmd`
does return, or exits in `expect`, on every line without a `(` token that `tokenize` stores
inside its array (fewer than `64 / sizeof(char *)` tokens), when the slots of `arg_list` that
were never written hold `NULL` or strings. -/
theorem C17_commands_literal (env : Env) (s : State) (toks : List String)
    (hsize : s.pipeline_data_list_size = 0) :
    (∀ (r : Nat) (s1 : State), shell_cmd env (primed s toks) = .ret r s1 →
      ∀ ps ∈ command_model s1, ∀ c ∈ ps.commands,
        ∃ args, c = some args ∧ args ≠ [] ∧
          ∀ a ∈ args, ∃ t ∈ toks, a = some t ∧ str_to_symbol t = .LITERAL) ∧
    (∀ (ptr_size : Nat) (line : String), tokenize ptr_size line = .tokens toks →
      clean_args env → "(" ∉ toks →
      (∃ r s1, main_parse env ptr_size s line = .ret r s1) ∨
      (∃ e g s1, main_parse env ptr_size s line = .synerr e g s1)) := by
  refine ⟨fun r s1 hret => commands_literal_parsed env s toks r s1 hsize hret, ?_⟩
  intro ptr_size line htok hclean hno
  rw [main_parse_tokens env ptr_size s line toks htok]
  exact shell_cmd_defined env hclean s toks (tokenize_le ptr_size line toks htok) hno hsize

/-- The theorem of C17 at the tokens of the line `ls -l | wc`, from the initial globals. -/
theorem C17_commands_literal_witness :
    (∀ (r : Nat) (s1 : State),
      shell_cmd sample_env (primed initial_state ["ls", "-l", "|", "wc"]) = .ret r s1 →
      ∀ ps ∈ command_model s1, ∀ c ∈ ps.commands,
        ∃ args, c = some args ∧ args ≠ [] ∧
          ∀ a ∈ args, ∃ t ∈ ["ls", "-l", "|", "wc"], a = some t ∧ str_to_symbol t = .LITERAL) ∧
    (∀ (ptr_size : Nat) (line : String),
      tokenize ptr_size line = .tokens ["ls", "-l", "|", "wc"] →
      clean_args sample_env → "(" ∉ ["ls", "-l", "|", "wc"] →
      (∃ r s1, main_parse sample_env ptr_size initial_state line = .ret r s1) ∨
      (∃ e g s1, main_parse sample_env ptr_size initial_state line = .synerr e g s1)) :=
  C17_commands_literal sample_env initial_state ["ls", "-l", "|", "wc"] rfl

/-- C16, as stated, fails: the outcome depends on what `malloc` left in the block of
`arg_list`.  On `ls | wc`, in `simple_cmd` for `wc`, the debug loop prints `arg_list[2]`, a
slot that was never written: with `NULL` there `shell_cmd` returns 1, with a pointer that is
no string the print is undefined.  And where a pointer has 8 bytes the line
`a ; b ; c ; d ; e` has 9 tokens, which `tokenize` writes past the 8 elements of its array:
nothing is known of what the parser then does, from either state of the globals. -/
theorem C16_counterexample :
    (main_parse sample_env 8 initial_state "ls | wc").value = some 1 ∧
    (main_parse junk_env 8 initial_state "ls | wc").is_undefined = true ∧
    (main_parse sample_env 8 initial_state "a ; b ; c ; d ; e").is_undefined = true ∧
    (main_parse sample_env 8 stale_state "a ; b ; c ; d ; e").is_undefined = true :=
  ⟨by decide, by decide, by decide, by decide⟩

/-- C16, amended: for every line without a `(` token that `tokenize` stores inside its array
(fewer than `64 / sizeof(char *)` tokens), every two states of the globals whose list size is
0, whatever their records, argument list, matched token, array contents and trace, and every
two environments in which the slots of `arg_list` that were never written hold `NULL` or
strings, `shell_cmd` started as `main` starts it ends in the same way from both: it returns in
both, with the same value, equal CommandModels (same pipelines, stages, redirections, append
flags, run conditions and background flags) and the same lookahead, or it exits in `expect`
in both with the same message. -/
theorem C16_parse_of_tokens_only (env env2 : Env) (ptr_size : Nat) (s s2 : State)
    (line : String) (toks : List String)
    (htok : tokenize ptr_size line = .tokens toks) (hno : "(" ∉ toks)
    (hc1 : clean_args env) (hc2 : clean_args env2)
    (hs : s.pipeline_data_list_size = 0) (hs2 : s2.pipeline_data_list_size = 0) :
    (∃ r t t2, main_parse env ptr_size s line = .ret r t ∧
      main_parse env2 ptr_size s2 line = .ret r t2 ∧
      command_model t = command_model t2 ∧ t.symbol = t2.symbol ∧
      t.next_token = t2.next_token) ∨
    (∃ e g t t2, main_parse env ptr_size s line = .synerr e g t ∧
      main_parse env2 ptr_size s2 line = .synerr e g t2) := by
  have hl := tokenize_le ptr_size line toks htok
  have ha := shell_cmd_agree env env2 s s2 toks hc1 hc2 hno hs hs2
  rw [main_parse_tokens env ptr_size s line toks htok,
    main_parse_tokens env2 ptr_size s2 line toks htok]
  rcases shell_cmd_defined env hc1 s toks hl hno hs with ⟨r, t, h1⟩ | ⟨e, g, t, h1⟩
  · rcases shell_cmd_defined env2 hc2 s2 toks hl hno hs2 with ⟨r2, t2, h2⟩ | ⟨e2, g2, t2, h2⟩
    · rw [h1, h2] at ha
      obtain ⟨hr, hm, hsym, hnt⟩ := ha
      subst hr
      exact Or.inl ⟨r, t, t2, h1, h2, hm, hsym, hnt⟩
    · rw [h1, h2] at ha
      exact absurd ha (by simp [Res.agree])
  · rcases shell_cmd_defined env2 hc2 s2 toks hl hno hs2 with ⟨r2, t2, h2⟩ | ⟨e2, g2, t2, h2⟩
    · rw [h1, h2] at ha
      exact absurd ha (by simp [Res.agree])
    · rw [h1, h2] at ha
      obtain ⟨he, hg⟩ := ha
      subst he
      subst hg
      exact Or.inr ⟨e, g, t, t2, h1, h2⟩

/-- The theorem of C16 at the line `ls < in && wc &`, a pointer having 8 bytes, parsed from
the initial globals and from the globals left over by the line `x | y > f`, in two different
environments. -/
theorem C16_parse_of_tokens_only_witness :
    (∃ r t t2, main_parse sample_env 8 initial_state "ls < in && wc &" = .ret r t ∧
      main_parse failing_env 8 stale_state "ls < in && wc &" = .ret r t2 ∧
      command_model t = command_model t2 ∧ t.symbol = t2.symbol ∧
      t.next_token = t2.next_token) ∨
    (∃ e g t t2, main_parse sample_env 8 initial_state "ls < in && wc &" = .synerr e g t ∧
      main_parse failing_env 8 stale_state "ls < in && wc &" = .synerr e g t2) :=
  C16_parse_of_tokens_only sample_env failing_env 8 initial_state stale_state
    "ls < in && wc &" ["ls", "<", "in", "&&", "wc", "&"] (by decide) (by decide)
    (fun _ _ => rfl) (fun _ _ => rfl) rfl rfl

end MyShell
